import Mathlib

/-!
Shallow embedding of the entity-resolution core of
`src/module/sources/vmware/connection.py` (class `VMWareHandler`), and proofs
about it.

Conventions of the embedding:
* Python exceptions are modelled with `Except PyErr`; a function that can raise
  returns `Except PyErr α`.
* Python dicts are modelled as insertion-ordered association lists with the
  update semantics of CPython dicts (`dset`): updating an existing key keeps
  its position, a fresh key is appended.  Iteration order is list order.
* Machine integers do not occur (counts are small `Nat`s); the one floating
  point comparison of the source, `first/second >= 2.0` on two positive
  integer match counts, is modelled exactly as `2 * second ≤ first`.
* Helpers that live in this repository but outside `src/`
  (`module.common.misc.grab`, `module.common.misc.get_string_or_none`) are
  modelled from the spec, see their doc comments.
-/

deriving instance DecidableEq for Except

/-- Python exception kinds that the embedded code can raise. -/
inductive PyErr where
  | valueError
  | unboundLocal
  | typeError
  | attributeError
deriving DecidableEq, Repr

/-- The NetBox object classes that matter to the embedded functions
(`NBDevices`, `NBVMs`) plus a representative of every other class, so that
"`object_type not in [NBDevices, NBVMs]`" is expressible. -/
inductive NBType where
  | NBDevices
  | NBVMs
  | NBClusters
  | NBTags
deriving DecidableEq, Repr

/-- The stored representation of a record's `data.primary_ip4` /
`data.primary_ip6` field, when present.  The source handles a dict form
(`{"address": ...}`) and an int form (an `NBIPAddresses` id); any other
non-`None` value (e.g. a bare string) falls through both `isinstance` branches
of `_matches_device_primary_ip` and leaves its local `ip` unassigned. -/
inductive IPStored where
  | ipdict (address : Option String)
  | ipref (rid : Nat)
  | ipother
deriving DecidableEq, Repr

/-- A NetBox device/VM record as the resolvers see it: an identity plus the
primary-IP fields read by `get_object_based_on_primary_ip`.  `rid` stands for
object identity (two records are the same object iff they are equal). -/
structure NBRec where
  rid : Nat
  primary_ip4 : Option IPStored
  primary_ip6 : Option IPStored
deriving DecidableEq, Repr

/-- An `NBIPAddresses` record as read through `get_by_id`: only its
`data.address` matters here. -/
structure NBIPAddr where
  address : Option String
deriving DecidableEq, Repr

/-- An interface record (`NBInterfaces` / `NBVMInterfaces`) as
`get_object_based_on_macs` sees it: its `data.mac_address` and the parent
record stored under its secondary key (`device` / `virtual_machine`). -/
structure MacIface where
  mac_address : Option String
  parent : Option NBRec
deriving DecidableEq, Repr

/-- Values stored in the data dicts handed to the inventory
(`host_data` / `vm_data`).  Equality on these is never decided, so the nested
list needs no derived instances. -/
inductive DVal where
  | vnone
  | vstr (s : String)
  | vnat (n : Nat)
  | vsub (m : List (String × DVal))

/-- A Python data dict, insertion ordered. -/
abbrev Data := List (String × DVal)

/-- `d.get(k)` on an insertion-ordered dict. -/
def dget {κ α : Type} [DecidableEq κ] (d : List (κ × α)) (k : κ) : Option α :=
  (d.find? (fun e => decide (e.1 = k))).map (fun e => e.2)

/-- `d[k] = v` on an insertion-ordered dict: updating an existing key keeps its
position, a fresh key is appended (CPython dict semantics). -/
def dset {κ α : Type} [DecidableEq κ] (d : List (κ × α)) (k : κ) (v : α) :
    List (κ × α) :=
  if (d.find? (fun e => decide (e.1 = k))).isSome then
    d.map (fun e => if e.1 = k then (k, v) else e)
  else d ++ [(k, v)]

def ostr : Option String → DVal
  | some s => .vstr s
  | none => .vnone

def onat : Option Nat → DVal
  | some n => .vnat n
  | none => .vnone

/-- Python whitespace for `str.strip()` (the characters that occur in the
modelled data). -/
def isSpaceChar (c : Char) : Bool :=
  c = ' ' || c = '\t' || c = '\n' || c = '\r'

/-- Python `str.strip()`. -/
def pyTrim (s : String) : String :=
  String.mk (((s.data.dropWhile isSpaceChar).reverse.dropWhile isSpaceChar).reverse)

/-- ASCII lower-casing of one character (Python `str.lower()` on the modelled
data). -/
def lowerChar (c : Char) : Char :=
  if 65 ≤ c.toNat ∧ c.toNat ≤ 90 then Char.ofNat (c.toNat + 32) else c

/-- Python `str.lower()`. -/
def lowerStr (s : String) : String := String.mk (s.data.map lowerChar)

/-- Lexicographic code-point comparison of character lists (Python string
comparison). -/
def charListLe : List Char → List Char → Bool
  | [], _ => true
  | _ :: _, [] => false
  | a :: as, b :: bs =>
    if a.toNat < b.toNat then true
    else if b.toNat < a.toNat then false
    else charListLe as bs

/-- Python `≤` on strings. -/
def strLe (a b : String) : Prop := charListLe a.data b.data = true

instance : DecidableRel strLe := fun _ _ => instDecidableEqBool _ _

/-- The inventory (`self.inventory`), an external collaborator.  Lists model
`get_all_items` for each kind; `ip_addresses` models `get_by_id` for
`NBIPAddresses`; the two `get_by_data` fields model the Inventory Store's
exact-field lookup (an external contract, so an arbitrary function). -/
structure Inventory where
  devices : List NBRec
  vms : List NBRec
  interfaces : List MacIface
  vm_interfaces : List MacIface
  ip_addresses : List (Nat × NBIPAddr)
  get_by_data_dev : Data → Option NBRec
  get_by_data_vm : Data → Option NBRec

/-- `self.inventory.get_by_id(NBIPAddresses, id=...)`. -/
def Inventory.get_by_id (inv : Inventory) (rid : Nat) : Option NBIPAddr :=
  dget inv.ip_addresses rid

/-! ### `get_object_based_on_macs` (lines 308-369) -/

/-- One update of `objects_with_matching_macs` (lines 332-335): bump the
count of a parent already seen, else append it with count 1. -/
def bumpCount (counts : List (NBRec × Nat)) (p : NBRec) : List (NBRec × Nat) :=
  if (dget counts p).isSome then
    counts.map (fun q => if q.1 = p then (p, q.2 + 1) else q)
  else counts ++ [(p, 1)]

/-- The dict `objects_with_matching_macs` built by the loop at lines 322-335:
for every interface whose `data.mac_address` is in `mac_list` and whose
secondary key holds a parent, bump that parent's count. -/
def macMatchCounts (ifaces : List MacIface) (mac_list : List (Option String)) :
    List (NBRec × Nat) :=
  ifaces.foldl
    (fun acc i =>
      if i.mac_address ∈ mac_list then
        match i.parent with
        | some p => bumpCount acc p
        | none => acc
      else acc)
    []

/-- The interface list scanned for a given object type (line 318 chooses
`NBInterfaces` for devices, `NBVMInterfaces` for VMs). -/
def ifacesFor (inv : Inventory) (object_type : NBType) : List MacIface :=
  if object_type = NBType.NBDevices then inv.interfaces else inv.vm_interfaces

/-- The match-count dict a call of `get_object_based_on_macs` works with. -/
def macCountsOf (inv : Inventory) (object_type : NBType)
    (mac_list : List (Option String)) : List (NBRec × Nat) :=
  macMatchCounts (ifacesFor inv object_type) mac_list

/-- The value left in the loop variable `matching_object` after the scan:
line 325 assigns it, before the `is None` guard, for every interface whose
`data.mac_address` is in `mac_list`, so after the loop it holds the
possibly-`None` secondary-key parent field of the last such interface
(`none` here means no interface matched, leaving the name unbound). -/
def lastMatchingObject (ifaces : List MacIface)
    (mac_list : List (Option String)) : Option (Option NBRec) :=
  ifaces.foldl
    (fun acc i => if i.mac_address ∈ mac_list then some i.parent else acc)
    none

/-- Descending-by-count order used to model
`sorted(..., key=objects_with_matching_macs.get, reverse=True)` (line 351). -/
def countGe (a b : NBRec × Nat) : Prop := b.2 ≤ a.2

instance : DecidableRel countGe := fun a b => Nat.decLe b.2 a.2

instance : IsTotal (NBRec × Nat) countGe :=
  ⟨fun a b => Nat.le_total b.2 a.2⟩

instance : IsTrans (NBRec × Nat) countGe :=
  ⟨fun _ _ _ h1 h2 => Nat.le_trans h2 h1⟩

/-- `get_object_based_on_macs` (lines 308-369).  The float comparison
`first_choice_matches / second_choice_matches >= 2.0` on two positive integer
counts is modelled exactly as `2 * second ≤ first`.  In the one-match branch
the log call at line 342 eagerly formats
`matching_object.get_display_name(...)`, and `matching_object` is the parent
field of the *last* MAC-matching interface (assigned before the `is None`
guard): if that field is `None`, the call raises `AttributeError` before
returning. -/
def get_object_based_on_macs (inv : Inventory) (object_type : NBType)
    (mac_list : List (Option String)) : Except PyErr (Option NBRec) :=
  if object_type ∉ [NBType.NBDevices, NBType.NBVMs] then
    .error .valueError
  else if mac_list.length = 0 then
    .ok none
  else
    let counts := macCountsOf inv object_type mac_list
    match counts with
    | [] => .ok none
    | [(p, _)] =>
      match lastMatchingObject (ifacesFor inv object_type) mac_list with
      | some (some _) => .ok (some p)
      | some none => .error .attributeError
      | none => .error .unboundLocal
    | _ :: _ :: _ =>
      match List.insertionSort countGe counts with
      | f :: s :: _ => if 2 * s.2 ≤ f.2 then .ok (some f.1) else .ok none
      | _ => .ok none

/-! ### `get_object_based_on_primary_ip` (lines 371-408) -/

/-- `str(x).split("/")[0]`: the part of the address before the first `/`. -/
def addrBase (s : String) : String :=
  String.mk (s.data.takeWhile (fun c => c ≠ '/'))

/-- The inner helper `_matches_device_primary_ip` (lines 373-386).  When the
stored field is neither a dict nor an int (and both it and the needle are
non-`None`), the local `ip` is read before assignment: `UnboundLocalError`. -/
def matches_device_primary_ip (inv : Inventory)
    (device_primary_ip : Option IPStored) (ip_needle : Option String) :
    Except PyErr Bool :=
  match device_primary_ip, ip_needle with
  | some stored, some needle =>
    (match stored with
      | .ipdict a => Except.ok a
      | .ipref rid => Except.ok ((inv.get_by_id rid).bind (fun r => r.address))
      | .ipother => Except.error PyErr.unboundLocal).bind
      (fun ip =>
        match ip with
        | some s => .ok (decide (addrBase s = needle))
        | none => .ok false)
  | _, _ => .ok false

/-- The record loop of `get_object_based_on_primary_ip` (lines 400-408):
per record, the IPv4 field is checked first, then the IPv6 field; the first
record matching either is returned. -/
def find_by_primary_ip (inv : Inventory) (ip4 ip6 : Option String) :
    List NBRec → Except PyErr (Option NBRec)
  | [] => .ok none
  | d :: rest =>
    (matches_device_primary_ip inv d.primary_ip4 ip4).bind fun m4 =>
      if m4 then .ok (some d)
      else
        (matches_device_primary_ip inv d.primary_ip6 ip6).bind fun m6 =>
          if m6 then .ok (some d) else find_by_primary_ip inv ip4 ip6 rest

/-- The record list scanned for a given object type (line 400). -/
def itemsFor (inv : Inventory) (object_type : NBType) : List NBRec :=
  if object_type = NBType.NBDevices then inv.devices else inv.vms

/-- `get_object_based_on_primary_ip` (lines 371-408). -/
def get_object_based_on_primary_ip (inv : Inventory) (object_type : NBType)
    (primary_ip4 primary_ip6 : Option String) : Except PyErr (Option NBRec) :=
  if object_type ∉ [NBType.NBDevices, NBType.NBVMs] then
    .error .valueError
  else if primary_ip4 = none ∧ primary_ip6 = none then
    .ok none
  else
    find_by_primary_ip inv (primary_ip4.map addrBase) (primary_ip6.map addrBase)
      (itemsFor inv object_type)

/-- The address a well-represented stored primary-IP field dereferences to
(dict form: its `address` entry; int form: the referenced record's
`data.address`; `ipother` never dereferences, it raises instead). -/
def storedAddr (inv : Inventory) : IPStored → Option String
  | .ipdict a => a
  | .ipref rid => (inv.get_by_id rid).bind (fun r => r.address)
  | .ipother => none

/-- Pure match predicate for a well-represented stored field. -/
def pureIpMatch (inv : Inventory) (v : Option IPStored) (needle : Option String) :
    Bool :=
  match v, needle with
  | some stored, some n =>
    match storedAddr inv stored with
    | some s => decide (addrBase s = n)
    | none => false
  | _, _ => false

/-- The ill-represented case: a non-`None` stored field that is neither dict
nor int, while the corresponding needle is non-`None`. -/
def ipFieldBad (v : Option IPStored) (needle : Option String) : Prop :=
  v = some IPStored.ipother ∧ needle.isSome = true

instance (v : Option IPStored) (needle : Option String) :
    Decidable (ipFieldBad v needle) := by
  unfold ipFieldBad; infer_instance

/-! ### `map_object_interfaces_to_current_interfaces` (lines 410-505) -/

/-- An existing NetBox interface record of the parent object, as read by the
"grab current data" loop (lines 441-454): `data.mac_address`, `data.name`,
`data.type`.  `oid` stands for object identity. -/
structure OIface where
  oid : Nat
  mac_address : Option String
  name : Option String
  typef : Option String
deriving DecidableEq, Repr

/-- A discovered interface's data dict as far as the matcher reads it:
`mac_address` and `type`. -/
structure DIface where
  mac_address : Option String
  dtype : Option String
deriving DecidableEq, Repr

/-- Python `"virtual" in str(x)`. -/
def strContains (s pat : String) : Bool := decide (pat.toList <:+: s.toList)

/-- Lines 444-446 and 466-468: an interface is `virtual` unless the string of
its type (fallback `"virtual"`) does not contain `"virtual"`. -/
def partitionOf (t : Option String) : String :=
  if strContains (t.getD "virtual") "virtual" then "virtual" else "physical"

/-- The fallback MAC used for discovered interfaces without one (line 465). -/
def sentinelMac : String := "XX:XX:YY:YY:ZZ:ZZ"

/-- A value of the dict `current_object_interfaces`: the source stores, in one
dict, the two partition sub-dicts under `"virtual"`/`"physical"` and
interface records under MAC and name keys. -/
inductive TopVal where
  | sub (m : List (String × OIface))
  | itf (i : OIface)
deriving DecidableEq, Repr

/-- State of the "grab current data" loop: the mixed dict and
`current_object_interface_names`. -/
structure IfMapBuild where
  current : List (String × TopVal)
  names : List String
deriving DecidableEq, Repr

/-- One iteration of the loop at lines 441-454.  A MAC insert does
`current[int_type][int_mac] = int`: if the value at the partition key is not a
dict (it was clobbered by a name or MAC write), item assignment on it raises. -/
def buildStep (st : IfMapBuild) (i : OIface) : Except PyErr IfMapBuild :=
  let part := partitionOf i.typef
  let afterMac : Except PyErr (List (String × TopVal)) :=
    match i.mac_address with
    | some m =>
      match dget st.current part with
      | some (TopVal.sub msub) =>
        .ok (dset (dset st.current part (TopVal.sub (dset msub m i))) m (TopVal.itf i))
      | _ => .error .typeError
    | none => .ok st.current
  afterMac.bind fun cur =>
    match i.name with
    | some n => .ok ⟨dset cur n (TopVal.itf i), st.names ++ [n]⟩
    | none => .ok ⟨cur, st.names⟩

/-- The dict and name list after the whole "grab current data" loop, starting
from `{"virtual": {}, "physical": {}}` and `[]`. -/
def buildCurrent (existing : List OIface) : Except PyErr IfMapBuild :=
  existing.foldlM buildStep ⟨[("virtual", TopVal.sub []), ("physical", TopVal.sub [])], []⟩

/-- State of the matching loop (lines 459-493): `return_data`,
`current_object_interface_names` (with removals) and
`unmatched_interface_names`. -/
structure IfMapLoop where
  return_data : List (String × Option OIface)
  names : List String
  unmatched : List String
deriving DecidableEq, Repr

/-- One iteration of the matching loop (lines 461-493) for a discovered
interface `(k, d)`.

* Line 472 `if int_name in current_object_interface_names is not None:` is a
  Python chained comparison, equivalent to plain membership (the list is never
  `None`).
* A match assigns `return_data[int_name]` and then
  `current_object_interface_names.remove(grab(mathing_int, "data.name"))`;
  `list.remove` raises `ValueError` when the element is absent (in particular
  when the matched interface's name was already removed by an earlier match, or
  when the matched value is not an interface record and `grab` gave `None`).
  The exception propagates, so the preceding partial assignment is never
  observable and is dropped here.
* Only the third strategy (line 482-483) checks `not in return_data.values()`;
  the by-partition MAC lookup (line 477) does not. -/
def matchStep (current : List (String × TopVal)) (st : IfMapLoop)
    (k : String) (d : DIface) : Except PyErr IfMapLoop :=
  let rd0 := dset st.return_data k none
  let mac := d.mac_address.getD sentinelMac
  let part := partitionOf d.dtype
  let mathing : Option TopVal :=
    if k ∈ st.names then
      dget current k
    else
      match
        (match dget current part with
          | some (TopVal.sub msub) => (dget msub mac).map TopVal.itf
          | _ => none) with
      | some tv => some tv
      | none =>
        match dget current mac with
        | some (TopVal.itf i) =>
          if (some i) ∈ rd0.map (fun e => e.2) then none else some (TopVal.itf i)
        | some (TopVal.sub msub) => some (TopVal.sub msub)
        | none => none
  match mathing with
  | none => .ok ⟨rd0, st.names, st.unmatched ++ [k]⟩
  | some (TopVal.itf i) =>
    match i.name with
    | some n =>
      if n ∈ st.names then .ok ⟨dset rd0 k (some i), st.names.erase n, st.unmatched⟩
      else .error .valueError
    | none => .error .valueError
  | some (TopVal.sub _) => .error .valueError

/-- Python `list.sort()` on strings: lexicographic ascending.  Equal strings
are identical, so any sorted permutation is the sorted list. -/
def sortStr (l : List String) : List String :=
  List.insertionSort strLe l

/-- The positional pass (lines 495-503): both leftovers sorted, zipped, and
each remaining discovered name mapped to the dict's value at the paired
existing name.  `current_object_interfaces.get(...)` yielding `None` or a
sub-dict would fail at `.get_display_name()`. -/
def positionalPass (current : List (String × TopVal)) (st : IfMapLoop) :
    Except PyErr (List (String × Option OIface)) :=
  ((sortStr st.unmatched).zip (sortStr st.names)).foldlM
    (fun rd p =>
      match dget current p.2 with
      | some (TopVal.itf i) => .ok (dset rd p.1 (some i))
      | _ => .error .typeError)
    st.return_data

/-- `map_object_interfaces_to_current_interfaces` (lines 410-505), as a
function of the parent's existing interface records (the result of
`self.inventory.get_all_interfaces(device_vm_object)`, in order) and the
discovered `interface_data_dict` (insertion-ordered, keys unique as in any
Python dict). -/
def map_object_interfaces_to_current_interfaces
    (existing : List OIface) (interface_data_dict : List (String × DIface)) :
    Except PyErr (List (String × Option OIface)) :=
  (buildCurrent existing).bind fun b =>
    (interface_data_dict.foldlM
        (fun st kv => matchStep b.current st kv.1 kv.2)
        ⟨[], b.names, []⟩).bind fun st =>
      positionalPass b.current st

/-! #### The cascade as the spec words it (for the refinement statement)

The spec's §4.3 describes the reconciler as: per discovered interface, in
order, (1) exact name match, (2) MAC match within the physical/virtual
partition, (3) MAC match ignoring partition — with a matched existing
interface removed from further consideration — then (4) a positional pass
pairing the lexicographically sorted leftovers.  The following definitions
follow those words over the same data. -/

structure CascadeState where
  assigned : List (String × Option OIface)
  avail : List OIface
  deferred : List String

/-- The first applicable strategy's match among the still-available existing
interfaces: exact name, MAC within partition, MAC ignoring partition. -/
def specPick (avail : List OIface) (k : String) (d : DIface) : Option OIface :=
  let mac := d.mac_address.getD sentinelMac
  let part := partitionOf d.dtype
  match avail.find? (fun i => decide (i.name = some k)) with
  | some i => some i
  | none =>
    match
      avail.find?
        (fun i => decide (i.mac_address = some mac) &&
          decide (partitionOf i.typef = part)) with
    | some i => some i
    | none => avail.find? (fun i => decide (i.mac_address = some mac))

/-- One cascade step per the spec's words: first applicable strategy wins,
searching only interfaces still available; a match removes the interface from
availability. -/
def specStep (st : CascadeState) (k : String) (d : DIface) : CascadeState :=
  match specPick st.avail k d with
  | some i => ⟨st.assigned ++ [(k, some i)], st.avail.erase i, st.deferred⟩
  | none => ⟨st.assigned ++ [(k, none)], st.avail, st.deferred ++ [k]⟩

/-- The whole cascade per the spec's words: the per-interface strategies, then
the positional pass over sorted leftovers (leftover discovered names beyond
the existing count keep `none`). -/
def specCascade (existing : List OIface) (dd : List (String × DIface)) :
    List (String × Option OIface) :=
  let st := dd.foldl (fun st kv => specStep st kv.1 kv.2) ⟨[], existing, []⟩
  let availNames := sortStr (st.avail.filterMap (fun i => i.name))
  ((sortStr st.deferred).zip availNames).foldl
    (fun rd p =>
      match existing.find? (fun i => decide (i.name = some p.2)) with
      | some i => dset rd p.1 (some i)
      | none => rd)
    st.assigned

/-- Well-formedness of the parent's existing interfaces and the discovered
dict under which the source's mixed-key dict behaves as three separate
indexes: every existing interface is named, names are unique and collide with
no partition key and no MAC (stored or effective discovered), stored MACs are
unique and collide with no partition key and not with the fallback MAC, and
the discovered dict's keys are unique. -/
def IfWF (existing : List OIface) (dd : List (String × DIface)) : Prop :=
  (∀ i ∈ existing, i.name.isSome = true) ∧
  (existing.filterMap (fun i => i.name)).Nodup ∧
  (∀ i ∈ existing, ∀ n, i.name = some n →
    n ≠ "virtual" ∧ n ≠ "physical" ∧
    (∀ j ∈ existing, j.mac_address ≠ some n) ∧
    (∀ kv ∈ dd, kv.2.mac_address.getD sentinelMac ≠ n)) ∧
  (existing.filterMap (fun i => i.mac_address)).Nodup ∧
  (∀ i ∈ existing, ∀ m, i.mac_address = some m →
    m ≠ "virtual" ∧ m ≠ "physical" ∧ m ≠ sentinelMac) ∧
  (∀ kv ∈ dd, kv.2.mac_address.getD sentinelMac ≠ "virtual" ∧
    kv.2.mac_address.getD sentinelMac ≠ "physical") ∧
  (dd.map (fun e => e.1)).Nodup

instance (existing : List OIface) (dd : List (String × DIface)) :
    Decidable (IfWF existing dd) := by
  unfold IfWF; infer_instance

/-- Invariant of the "grab current data" loop (lines 441-454) after a prefix
`procd` of the parent's interfaces has been inserted: the name list is the
names of the prefix; the two partition keys hold sub-dicts indexing exactly
the prefix's MACs by partition; every name of the prefix maps to its (unique)
holder; and every key that is no partition key and no interface name holds,
if anything, an interface of the prefix with that MAC. -/
def BuildInv (existing procd : List OIface) (st : IfMapBuild) : Prop :=
  st.names = procd.filterMap (fun i => i.name) ∧
  (∀ part, (part = "virtual" ∨ part = "physical") →
    ∃ msub, dget st.current part = some (TopVal.sub msub) ∧
      (∀ m i, dget msub m = some i →
        i ∈ procd ∧ i.mac_address = some m ∧ partitionOf i.typef = part) ∧
      (∀ i ∈ procd, ∀ m, i.mac_address = some m → partitionOf i.typef = part →
        (dget msub m).isSome = true)) ∧
  (∀ i ∈ procd, ∀ n, i.name = some n → dget st.current n = some (TopVal.itf i)) ∧
  (∀ m, m ≠ "virtual" → m ≠ "physical" → (∀ j ∈ existing, j.name ≠ some m) →
    (∀ tv, dget st.current m = some tv →
      ∃ i, tv = TopVal.itf i ∧ i ∈ procd ∧ i.mac_address = some m) ∧
    (∀ i ∈ procd, i.mac_address = some m → (dget st.current m).isSome = true))

/-- Relates the source matching-loop state to the spec cascade state after a
prefix `pre` of the discovered dict has been processed. -/
def LoopInv (existing : List OIface) (pre : List (String × DIface))
    (src : IfMapLoop) (spc : CascadeState) : Prop :=
  src.return_data = spc.assigned ∧
  src.unmatched = spc.deferred ∧
  src.names = spc.avail.filterMap (fun i => i.name) ∧
  spc.avail.Sublist existing ∧
  (∀ i ∈ existing, ((some i) ∈ src.return_data.map (fun e => e.2)) ↔ i ∉ spc.avail) ∧
  src.return_data.map (fun e => e.1) = pre.map (fun e => e.1)

/-! ### The handler: `add_host` (lines 564-912), `add_virtual_machine`
(lines 915-1175) and the pass structure of `apply` (lines 203-291)

The per-interface data-collection blocks of both handlers (host vSwitch /
pNIC / vNIC parsing, lines 661-847, and VM hardware-device parsing, lines
984-1102) only produce the MAC lists and candidate primary IPs the resolution
chain consumes; no claim concerns their internals, so their results are
fields of the discovered-object inputs.  The interface upsert loops after the
host/VM record upsert (lines 884-911 and 1147-1173) create interface and IP
records only, never a device/VM record, and are not modelled.  Debug logging
is condensed to `logDebug` events; the duplicate-skip warning and the
missing-cluster error keep their own event kinds because claims speak about
them. -/

/-- Modelled from the spec: `get_string_or_none` of `module.common.misc`
(not under `src/`), the string coercion helper with the contract "trimmed
strings": a non-empty trimmed string, else `None`. -/
def get_string_or_none : Option String → Option String
  | some s => if pyTrim s = "" then none else some (pyTrim s)
  | none => none

/-- Observable effects of one handler step. -/
inductive Event where
  | logDebug
  | warnSkip
  | errorSkip
  | queriedHostByMacs
  | queriedHostByIp
  | queriedVMByMacs
  | queriedVMByIp
  | createdDevice (data : Data)
  | updatedDevice (rid : Nat) (data : Data)
  | createdVM (uuid : String) (data : Data)
  | updatedVM (rid : Nat) (uuid : String) (data : Data)

/-- The run-scoped mutable state of the handler (class attributes, lines
70-78) plus the trace of effects. -/
structure SyncState where
  standalone_hosts : List (Option String)
  processed_host_names : List (Option String)
  processed_vm_names : List (Option String)
  processed_vm_uuid : List String
  parsing_vms_the_first_time : Bool
  events : List Event

/-- The configuration the two handlers read.  Filters model compiled regular
expressions as abstract match functions (`re` is external).
`settings_netbox_vm_device_role` models the class-level
`self.settings.get("netbox_vm_device_role")` read at line 970. -/
structure Config where
  host_include_filter : Option (Option String → Bool)
  host_exclude_filter : Option (Option String → Bool)
  vm_include_filter : Option (Option String → Bool)
  vm_exclude_filter : Option (Option String → Bool)
  netbox_host_device_role : String
  settings_netbox_vm_device_role : String
  cluster_site_relation : Option (List (String × String))
  site_name : String
  collect_hardware_asset_tag : Bool

/-- `passes_filter` (lines 293-306): include filter first, then exclude. -/
def passes_filter (name : Option String)
    (include_filter exclude_filter : Option (Option String → Bool)) : Bool :=
  if (match include_filter with
      | some f => !(f name)
      | none => false) then false
  else if (match exclude_filter with
      | some g => g name
      | none => false) then false
  else true

/-- A discovered host, with the raw attributes `add_host` reads (lines
564-660) and the results of the abstracted interface-collection block
(lines 662-847). -/
structure HostObj where
  name : Option String
  vendor : Option String
  model : Option String
  product_name : Option String
  product_version : Option String
  connectionState : Option String
  identifiers : List (Option String × Option String)
  parentName : Option String
  pnicMacs : List (Option String)
  hostPrimaryIp4 : Option String
  hostPrimaryIp6 : Option String

/-- The `identifier_dict` build (lines 594-599): keep entries whose stringified
value (missing modelled as `""`) strips to something non-empty. -/
def buildIdentifierDict (ids : List (Option String × Option String)) :
    List (Option String × String) :=
  ids.foldl
    (fun acc kv =>
      let v := pyTrim (kv.2.getD "")
      if v.length > 0 then dset acc kv.1 v else acc)
    []

def serialNumKeys : List String :=
  ["EnclosureSerialNumberTag", "SerialNumberTag", "ServiceTag"]

/-- The serial search (lines 601-607): first of the three identifier keys that
is present wins. -/
def findSerial (idd : List (Option String × String)) : Option String :=
  match serialNumKeys.find? (fun k => (dget idd (some k)).isSome) with
  | some k => get_string_or_none (dget idd (some k))
  | none => none

def bannedAssetTags : List String :=
  ["Default string", "NA", "N/A", "None", "Null", "oem", "o.e.m",
   "to be filled by o.e.m.", "Unknown"]

/-- The asset-tag extraction (lines 609-620). -/
def findAssetTag (collect : Bool) (idd : List (Option String × String)) :
    Option String :=
  if collect ∧ (dget idd (some "AssetTag")).isSome then
    match dget idd (some "AssetTag") with
    | some t =>
      if (bannedAssetTags.map lowerStr).contains (lowerStr t) then none
      else some t
    | none => none
  else none

/-- Python `str` on an optional string (an absent value prints `"None"`),
for the f-string at line 586. -/
def pyStr : Option String → String
  | some s => s
  | none => "None"

/-- The host's status (lines 588-591). -/
def hostStatusOf (obj : HostObj) : String :=
  if get_string_or_none obj.connectionState = some "connected" then "active"
  else "offline"

/-- The raw cluster name (line 623). -/
def hostClusterRaw (obj : HostObj) : Option String :=
  get_string_or_none obj.parentName

/-- The site for a cluster (lines 625-631): the configured relation's entry
if any, else the handler's virtual site. -/
def siteFor (cfg : Config) (cluster : Option String) : String :=
  match cfg.cluster_site_relation with
  | some rel =>
    match cluster.bind (fun c => dget rel c) with
    | some s => s
    | none => cfg.site_name
  | none => cfg.site_name

/-- The cluster stored for the host (lines 633-637): a host whose cluster
equals its own name is redirected to the synthetic standalone cluster. -/
def hostClusterOf (obj : HostObj) : Option String :=
  if hostClusterRaw obj = get_string_or_none obj.name then
    some "Standalone ESXi Host"
  else hostClusterRaw obj

/-- `host_data` (lines 639-652).  The three conditional additions at lines
654-660 are annotation statements (`host_data["serial"]: serial`), not
assignments: they evaluate their operands and leave the dict unchanged, so no
`serial`, `asset_tag` or `platform` key is ever added. -/
def hostDataFor (cfg : Config) (obj : HostObj) : Data :=
  [("name", ostr (get_string_or_none obj.name)),
   ("device_role", DVal.vsub [("name", DVal.vstr cfg.netbox_host_device_role)]),
   ("device_type", DVal.vsub
     [("model", ostr (get_string_or_none obj.model)),
      ("manufacturer", DVal.vsub
        [("name", ostr (get_string_or_none obj.vendor))])]),
   ("site", DVal.vsub [("name", DVal.vstr (siteFor cfg (hostClusterRaw obj)))]),
   ("cluster", DVal.vsub [("name", ostr (hostClusterOf obj))]),
   ("status", DVal.vstr (hostStatusOf obj))]

/-- `add_host` (lines 564-912) up to and including the host-record
create/update; see the section comment for what is abstracted. -/
def add_host (inv : Inventory) (cfg : Config) (st : SyncState) (obj : HostObj) :
    Except PyErr SyncState :=
  let name := get_string_or_none obj.name
  -- line 569: log.debug2(f"Parsing vCenter host: {name}")
  let st := { st with events := st.events ++ [Event.logDebug] }
  if name ∈ st.processed_host_names then
    -- lines 571-573: duplicate name, warn and skip
    .ok { st with events := st.events ++ [Event.warnSkip] }
  else
    -- line 575
    let st := { st with processed_host_names := st.processed_host_names ++ [name] }
    -- lines 578-579
    if passes_filter name cfg.host_include_filter cfg.host_exclude_filter = false then
      .ok st
    else
      -- lines 582-620: field extraction; `serial`, `asset_tag` and `platform`
      -- are computed but (lines 654-660 being annotation statements) never
      -- enter `host_data`.
      let _serial := findSerial (buildIdentifierDict obj.identifiers)
      let _asset_tag :=
        findAssetTag cfg.collect_hardware_asset_tag (buildIdentifierDict obj.identifiers)
      let _platform :=
        pyStr (get_string_or_none obj.product_name) ++ " " ++
          pyStr (get_string_or_none obj.product_version)
      -- lines 633-637: standalone bookkeeping
      let st :=
        if hostClusterRaw obj = name then
          { st with standalone_hosts := st.standalone_hosts ++ [hostClusterRaw obj] }
        else st
      let host_data := hostDataFor cfg obj
      -- lines 849-881: the resolution chain
      match inv.get_by_data_dev host_data with
      | some host_object =>
        .ok { st with events := st.events ++
          [Event.logDebug, Event.updatedDevice host_object.rid host_data] }
      | none =>
        let st := { st with events := st.events ++ [Event.queriedHostByMacs] }
        (get_object_based_on_macs inv NBType.NBDevices obj.pnicMacs).bind fun r2 =>
          match r2 with
          | some host_object =>
            .ok { st with events := st.events ++
              [Event.updatedDevice host_object.rid host_data] }
          | none =>
            let st := { st with events := st.events ++ [Event.queriedHostByIp] }
            (get_object_based_on_primary_ip inv NBType.NBDevices obj.hostPrimaryIp4
                obj.hostPrimaryIp6).bind fun r3 =>
              match r3 with
              | some host_object =>
                .ok { st with events := st.events ++
                  [Event.updatedDevice host_object.rid host_data] }
              | none =>
                .ok { st with events := st.events ++ [Event.createdDevice host_data] }

/-- A discovered virtual machine, with the raw attributes
`add_virtual_machine` reads (lines 915-981) and the results of the abstracted
NIC/route-collection block (lines 984-1102). -/
structure VMObj where
  name : Option String
  uuid : Option String
  powerState : Option String
  clusterName : Option String
  guestFullNameCfg : Option String
  guestFullNameGuest : Option String
  memoryMB : Option Nat
  numCPU : Option Nat
  diskGB : Nat
  configNote : Option String
  nicMacs : List (Option String)
  vmPrimaryIp4 : Option String
  vmPrimaryIp6 : Option String

/-- The VM's status (line 928). -/
def vmStatusOf (obj : VMObj) : String :=
  if get_string_or_none obj.powerState = some "poweredOn" then "active"
  else "offline"

/-- The VM's platform string (lines 956-957): the guest-reported name,
falling back to the configured one. -/
def vmPlatformOf (obj : VMObj) : Option String :=
  get_string_or_none
    (match obj.guestFullNameGuest with
      | some g => some g
      | none => obj.guestFullNameCfg)

/-- `vm_data` (lines 967-981), for a given resolved cluster name. -/
def vmDataFor (cfg : Config) (obj : VMObj) (cluster : String) : Data :=
  [("name", ostr (get_string_or_none obj.name)),
   ("cluster", DVal.vsub [("name", DVal.vstr cluster)]),
   ("role", DVal.vsub [("name", DVal.vstr cfg.settings_netbox_vm_device_role)]),
   ("status", DVal.vstr (vmStatusOf obj)),
   ("memory", onat obj.memoryMB),
   ("vcpus", onat obj.numCPU),
   ("disk", DVal.vnat obj.diskGB)] ++
  (match vmPlatformOf obj with
    | some p => [("platform", DVal.vsub [("name", DVal.vstr p)])]
    | none => []) ++
  (match get_string_or_none obj.configNote with
    | some a => [("comments", DVal.vstr a)]
    | none => [])

/-- The cluster a VM is stored under (lines 953-954): redirected to the
synthetic standalone cluster when its host was recorded as standalone. -/
def vmClusterOf (st : SyncState) (cluster : String) : String :=
  if (some cluster) ∈ st.standalone_hosts then "Standalone ESXi Host" else cluster

/-- `add_virtual_machine` (lines 915-1175) up to and including the VM-record
create/update; see the section comment for what is abstracted.  The skip at
lines 922-923 (missing or already-processed UUID) happens before any log
call; the offline skip during the first pass is at lines 931-933. -/
def add_virtual_machine (inv : Inventory) (cfg : Config) (st : SyncState)
    (obj : VMObj) : Except PyErr SyncState :=
  let name := get_string_or_none obj.name
  match obj.uuid with
  | none => .ok st
  | some vm_uuid =>
    if vm_uuid ∈ st.processed_vm_uuid then
      .ok st
    else
      -- line 925: log.debug2(f"Parsing vCenter VM: {name}")
      let st := { st with events := st.events ++ [Event.logDebug] }
      if st.parsing_vms_the_first_time = true ∧ vmStatusOf obj = "offline" then
        -- lines 931-933: offline VMs are ignored on the first pass
        .ok { st with events := st.events ++ [Event.logDebug] }
      else
        -- line 936
        if passes_filter name cfg.vm_include_filter cfg.vm_exclude_filter = false then
          .ok st
        else
          -- lines 939-942
          match get_string_or_none obj.clusterName with
          | none => .ok { st with events := st.events ++ [Event.errorSkip] }
          | some cluster0 =>
            -- lines 944-946
            if name ∈ st.processed_vm_names then
              .ok { st with events := st.events ++ [Event.warnSkip] }
            else
              -- lines 949-950
              let st := { st with
                processed_vm_uuid := st.processed_vm_uuid ++ [vm_uuid],
                processed_vm_names := st.processed_vm_names ++ [name] }
              let vm_data := vmDataFor cfg obj (vmClusterOf st cluster0)
              -- lines 1114-1145: the resolution chain
              match inv.get_by_data_vm vm_data with
              | some vm_object =>
                .ok { st with events := st.events ++
                  [Event.logDebug, Event.updatedVM vm_object.rid vm_uuid vm_data] }
              | none =>
                let st := { st with events := st.events ++ [Event.queriedVMByMacs] }
                (get_object_based_on_macs inv NBType.NBVMs obj.nicMacs).bind fun r2 =>
                  match r2 with
                  | some vm_object =>
                    .ok { st with events := st.events ++
                      [Event.updatedVM vm_object.rid vm_uuid vm_data] }
                  | none =>
                    let st := { st with events := st.events ++ [Event.queriedVMByIp] }
                    (get_object_based_on_primary_ip inv NBType.NBVMs obj.vmPrimaryIp4
                        obj.vmPrimaryIp6).bind fun r3 =>
                      match r3 with
                      | some vm_object =>
                        .ok { st with events := st.events ++
                          [Event.updatedVM vm_object.rid vm_uuid vm_data] }
                      | none =>
                        .ok { st with events := st.events ++
                          [Event.createdVM vm_uuid vm_data] }

/-- The state at run start (class attributes, lines 70-78). -/
def initialState : SyncState := ⟨[], [], [], [], true, []⟩

/-- `apply`'s view iteration (lines 249-289) for one object kind. -/
def foldHosts (inv : Inventory) (cfg : Config) (st : SyncState)
    (hosts : List HostObj) : Except PyErr SyncState :=
  hosts.foldlM (add_host inv cfg) st

def foldVMs (inv : Inventory) (cfg : Config) (st : SyncState)
    (vms : List VMObj) : Except PyErr SyncState :=
  vms.foldlM (add_virtual_machine inv cfg) st

/-- The run structure of `apply` (lines 203-291) restricted to the claimed
object kinds: hosts in one pass, then the VM population twice; the second VM
view flips `parsing_vms_the_first_time` (line 276).  The inventory is held
fixed: `get_by_data` and the resolvers are arbitrary per-state functions, and
no claim below depends on how upserts feed back into them. -/
def applyRun (inv : Inventory) (cfg : Config) (hosts : List HostObj)
    (vms : List VMObj) : Except PyErr SyncState :=
  (foldHosts inv cfg initialState hosts).bind fun st1 =>
    (foldVMs inv cfg st1 vms).bind fun st2 =>
      foldVMs inv cfg { st2 with parsing_vms_the_first_time := false } vms

/-- The host name a created/updated device event was keyed by (the `name`
entry of its data dict, which `hostDataFor` always sets). -/
def hostKeyOf : Event → Option (Option String)
  | .createdDevice d =>
    some (match dget d "name" with
      | some (DVal.vstr s) => some s
      | _ => none)
  | .updatedDevice _ d =>
    some (match dget d "name" with
      | some (DVal.vstr s) => some s
      | _ => none)
  | _ => none

/-- The UUID a created/updated VM event was keyed by. -/
def vmUuidOf : Event → Option String
  | .createdVM u _ => some u
  | .updatedVM _ u _ => some u
  | _ => none

/-- The VM name a created/updated VM event was keyed by. -/
def vmNameOf : Event → Option (Option String)
  | .createdVM _ d =>
    some (match dget d "name" with
      | some (DVal.vstr s) => some s
      | _ => none)
  | .updatedVM _ _ d =>
    some (match dget d "name" with
      | some (DVal.vstr s) => some s
      | _ => none)
  | _ => none

/-- Is an event a record create/update? -/
def isRecordEvent : Event → Bool
  | .createdDevice _ => true
  | .updatedDevice _ _ => true
  | .createdVM _ _ => true
  | .updatedVM _ _ _ => true
  | _ => false

/-- Is an event a resolver query? -/
def isQueryEvent : Event → Bool
  | .queriedHostByMacs => true
  | .queriedHostByIp => true
  | .queriedVMByMacs => true
  | .queriedVMByIp => true
  | _ => false

def recordEvents (l : List Event) : List Event := l.filter isRecordEvent

def queryEvents (l : List Event) : List Event := l.filter isQueryEvent

/-! ### Concrete fixtures used by witnesses and counterexamples -/

/-- An inventory with no records and trivial exact-match lookup. -/
def INV0 : Inventory := ⟨[], [], [], [], [], fun _ => none, fun _ => none⟩

/-- A configuration with no filters and default roles. -/
def CFG0 : Config :=
  ⟨none, none, none, none, "Server", "Server", none, "vCenter: x", true⟩

def recA : NBRec := ⟨1, none, none⟩
def recB : NBRec := ⟨2, none, none⟩

/-- Device interfaces giving MAC match counts A:4, B:1. -/
def invMac41 : Inventory :=
  ⟨[], [],
   [⟨some "a1", some recA⟩, ⟨some "a2", some recA⟩, ⟨some "a3", some recA⟩,
    ⟨some "a4", some recA⟩, ⟨some "b1", some recB⟩],
   [], [], fun _ => none, fun _ => none⟩

def macList41 : List (Option String) :=
  [some "a1", some "a2", some "a3", some "a4", some "b1"]

/-- Interfaces whose only counted parent is `recA` while the last
MAC-matching interface is parent-less (C2 counterexample). -/
def invMacCrash : Inventory :=
  ⟨[recA], [], [⟨some "aa", some recA⟩, ⟨some "aa", none⟩], [], [],
   fun _ => none, fun _ => none⟩

def macListCrash : List (Option String) := [some "aa"]

/-- A record whose only primary IP is an IPv6 in dict form. -/
def ipOnly6 : NBRec := ⟨1, none, some (IPStored.ipdict (some "fe80::1"))⟩

/-- A record whose only primary IP is an IPv4 in dict form (with prefix). -/
def ipOnly4 : NBRec := ⟨2, some (IPStored.ipdict (some "10.0.0.1/24")), none⟩

/-- A record whose stored primary IPv4 is a bare string (`ipother`). -/
def ipBad4 : NBRec := ⟨3, some IPStored.ipother, none⟩

def invIp64 : Inventory :=
  ⟨[ipOnly6, ipOnly4], [], [], [], [], fun _ => none, fun _ => none⟩

def invIpGoodBad : Inventory :=
  ⟨[ipOnly4, ipBad4], [], [], [], [], fun _ => none, fun _ => none⟩

/-- Existing interface for the C4 counterexample. -/
def ceC4Iface : OIface := ⟨0, some "aa:bb", some "eth0", some "virtual"⟩

/-- Discovered dict for the C4 counterexample: `eth0` takes the existing
interface by name (its MAC differs), then `net1` hits the same interface
through the by-partition MAC index, and the second `remove` raises. -/
def ceC4Dd : List (String × DIface) :=
  [("eth0", ⟨some "bb:cc", some "virtual"⟩), ("net1", ⟨some "aa:bb", some "virtual"⟩)]

/-- Two existing interfaces sharing the name `eth0` (C5 counterexample). -/
def ceC5IfaceA : OIface := ⟨0, none, some "eth0", some "virtual"⟩
def ceC5IfaceB : OIface := ⟨1, some "aa:bb", some "eth0", some "virtual"⟩

/-- Discovered dict for the C5 counterexample: `eth0` takes interface 1 by
name (removing one list entry of `"eth0"`), and the positional pass then maps
`zzz` through the name dict to the same interface 1. -/
def ceC5Dd : List (String × DIface) :=
  [("eth0", ⟨some "bb:cc", some "virtual"⟩), ("zzz", ⟨some "cc:dd", some "virtual"⟩)]

/-- A single well-formed existing interface for the C4/C5 witnesses. -/
def wfIface : OIface := ⟨0, some "aa:bb", some "eth0", some "physical"⟩

def wfDd : List (String × DIface) :=
  [("eth0", ⟨some "cc:dd", some "physical"⟩), ("eth9", ⟨none, some "virtual"⟩)]

/-- A second well-formed pair exercising the positional pass. -/
def wfIfaceP1 : OIface := ⟨0, some "m1", some "Nic2", some "virtual"⟩
def wfIfaceP2 : OIface := ⟨1, some "m2", some "Nic1", some "virtual"⟩

def wfDdP : List (String × DIface) :=
  [("eth1", ⟨some "x1", some "virtual"⟩), ("eth0", ⟨some "x2", some "virtual"⟩)]

/-- A discovered host with a serial-number identifier. -/
def hostW : HostObj :=
  ⟨some "esx01", some "ACME", some "Rack3000", some "VMware ESXi", some "7.0",
   some "connected", [(some "SerialNumberTag", some "SN-123")], some "cl1",
   [some "aa:aa"], none, none⟩

/-- A powered-off VM used by the C3 witness. -/
def vmOff : VMObj :=
  ⟨some "vm1", some "uuid-1", some "poweredOff", some "cl1", none, none,
   some 1024, some 2, 10, none, [some "ab:cd"], none, none⟩

/-- A state in which UUID `uuid-1` was already processed (C7 counterexample). -/
def stDupUuid : SyncState := ⟨[], [], [], ["uuid-1"], true, []⟩

/-- A fresh second-pass state (C3 witness). -/
def stC3 : SyncState := ⟨[], [], [], [], false, []⟩

/-- The state after the second-pass processing of `vmOff` from `stC3`. -/
def stC3done : SyncState :=
  ⟨[], [], [some "vm1"], ["uuid-1"], false,
   [Event.logDebug, Event.queriedVMByMacs, Event.queriedVMByIp,
    Event.createdVM "uuid-1" (vmDataFor CFG0 vmOff "cl1")]⟩

/-- The state after `add_host INV0 CFG0 initialState hostW` (C1 witness). -/
def stHostDone : SyncState :=
  ⟨[], [some "esx01"], [], [], true,
   [Event.logDebug, Event.queriedHostByMacs, Event.queriedHostByIp,
    Event.createdDevice (hostDataFor CFG0 hostW)]⟩

/-- The final state of `applyRun INV0 CFG0 [hostW] [vmOff]` (C7 witness). -/
def stC7done : SyncState :=
  ⟨[], [some "esx01"], [some "vm1"], ["uuid-1"], false,
   [Event.logDebug, Event.queriedHostByMacs, Event.queriedHostByIp,
    Event.createdDevice (hostDataFor CFG0 hostW), Event.logDebug,
    Event.logDebug, Event.logDebug, Event.queriedVMByMacs,
    Event.queriedVMByIp, Event.createdVM "uuid-1" (vmDataFor CFG0 vmOff "cl1")]⟩

/-- The run invariant behind the at-most-one-record property: the host names,
VM UUIDs and VM names keyed by the record events so far are pairwise distinct
and all captured in the corresponding processed list. -/
def TraceInv (st : SyncState) : Prop :=
  (st.events.filterMap hostKeyOf).Nodup ∧
  (∀ k ∈ st.events.filterMap hostKeyOf, k ∈ st.processed_host_names) ∧
  (st.events.filterMap vmUuidOf).Nodup ∧
  (∀ u ∈ st.events.filterMap vmUuidOf, u ∈ st.processed_vm_uuid) ∧
  (st.events.filterMap vmNameOf).Nodup ∧
  (∀ n ∈ st.events.filterMap vmNameOf, n ∈ st.processed_vm_names)

/-! ## Theorems -/

/-! ### Dict lemmas -/

theorem dget_dset_self {κ α : Type} [DecidableEq κ] (d : List (κ × α)) (k : κ)
    (v : α) : dget (dset d k v) k = some v := by
  unfold dget dset
  by_cases h : (d.find? (fun e => decide (e.1 = k))).isSome
  · rw [if_pos h]
    rw [Option.isSome_iff_exists] at h
    obtain ⟨e0, he0⟩ := h
    have hp := List.find?_some he0
    have hm := List.mem_of_find?_eq_some he0
    simp only [decide_eq_true_eq] at hp
    rw [List.find?_map]
    have hpred :
        ((fun e : κ × α => decide (e.1 = k)) ∘
          fun e : κ × α => if e.1 = k then (k, v) else e) =
        fun e : κ × α => decide (e.1 = k) := by
      funext e
      by_cases he : e.1 = k <;> simp [he]
    rw [hpred, he0]
    simp [hp]
  · rw [if_neg h]
    rw [List.find?_append]
    rw [Option.not_isSome_iff_eq_none] at h
    rw [h]
    simp

theorem dget_dset_ne {κ α : Type} [DecidableEq κ] (d : List (κ × α))
    (k k' : κ) (v : α) (h : k' ≠ k) : dget (dset d k v) k' = dget d k' := by
  unfold dget dset
  by_cases hs : (d.find? (fun e => decide (e.1 = k))).isSome
  · rw [if_pos hs]
    rw [List.find?_map]
    have hpred :
        ((fun e : κ × α => decide (e.1 = k')) ∘
          fun e : κ × α => if e.1 = k then (k, v) else e) =
        fun e : κ × α => decide (e.1 = k') := by
      funext e
      by_cases he : e.1 = k
      · simp [he, Ne.symm h]
      · simp [he]
    rw [hpred]
    cases hf : d.find? (fun e => decide (e.1 = k')) with
    | none => simp
    | some e0 =>
      have hp := List.find?_some hf
      simp only [decide_eq_true_eq] at hp
      have : e0.1 ≠ k := by rw [hp]; exact h
      simp [this]
  · rw [if_neg hs]
    rw [List.find?_append]
    have : List.find? (fun e : κ × α => decide (e.1 = k')) [(k, v)] = none := by
      simp [Ne.symm h]
    rw [this]
    cases hf : d.find? (fun e : κ × α => decide (e.1 = k')) <;> simp

theorem dget_keys_none {κ α : Type} [DecidableEq κ] (d : List (κ × α)) (k : κ)
    (h : k ∉ d.map (fun e => e.1)) : dget d k = none := by
  unfold dget
  have : d.find? (fun e => decide (e.1 = k)) = none := by
    rw [List.find?_eq_none]
    intro e he
    simp only [decide_eq_true_eq]
    intro hk
    exact h (List.mem_map.mpr ⟨e, he, hk⟩)
  rw [this]
  rfl

theorem dset_keys {κ α : Type} [DecidableEq κ] (d : List (κ × α)) (k : κ)
    (v : α) :
    (dset d k v).map (fun e => e.1) =
      (if (d.find? (fun e => decide (e.1 = k))).isSome then
        d.map (fun e => e.1)
      else d.map (fun e => e.1) ++ [k]) := by
  unfold dset
  by_cases h : (d.find? (fun e => decide (e.1 = k))).isSome
  · rw [if_pos h, if_pos h, List.map_map]
    apply List.map_congr_left
    intro e _
    by_cases he : e.1 = k <;> simp [he]
  · rw [if_neg h, if_neg h]
    simp

/-! ### C10: invalid object types -/

/-- Claim C10: for every `object_type` other than `NBDevices` and `NBVMs`,
both `get_object_based_on_macs` and `get_object_based_on_primary_ip` raise
`ValueError` regardless of their other arguments; in
`get_object_based_on_macs` the type check precedes the empty-MAC-list early
return, so an invalid kind raises even with an empty MAC list (the statement
quantifies over all `mac_list`, including `[]`). -/
theorem C10_invalid_object_type_raises (inv : Inventory) (ot : NBType)
    (mac_list : List (Option String)) (ip4 ip6 : Option String)
    (h : ot ≠ NBType.NBDevices ∧ ot ≠ NBType.NBVMs) :
    get_object_based_on_macs inv ot mac_list = .error .valueError ∧
    get_object_based_on_primary_ip inv ot ip4 ip6 = .error .valueError := by
  have hmem : ot ∉ [NBType.NBDevices, NBType.NBVMs] := by
    simp [h.1, h.2]
  constructor
  · unfold get_object_based_on_macs
    rw [if_pos hmem]
  · unfold get_object_based_on_primary_ip
    rw [if_pos hmem]

/-- Witness for C10 at `NBClusters` with an empty MAC list. -/
theorem C10_witness :
    (NBType.NBClusters ≠ NBType.NBDevices ∧ NBType.NBClusters ≠ NBType.NBVMs) ∧
    get_object_based_on_macs INV0 NBType.NBClusters [] = .error .valueError ∧
    get_object_based_on_primary_ip INV0 NBType.NBClusters none none =
      .error .valueError :=
  ⟨by decide,
   C10_invalid_object_type_raises INV0 NBType.NBClusters [] none none (by decide)⟩

/-! ### C2: the MAC-based resolver's decision rule -/

theorem bumpCount_keys_pos (acc : List (NBRec × Nat)) (p : NBRec)
    (h1 : (acc.map (fun e => e.1)).Nodup) (h2 : ∀ q ∈ acc, 1 ≤ q.2) :
    ((bumpCount acc p).map (fun e => e.1)).Nodup ∧
      (∀ q ∈ bumpCount acc p, 1 ≤ q.2) := by
  unfold bumpCount
  by_cases h : (dget acc p).isSome
  · rw [if_pos h]
    have hkeys :
        ((acc.map (fun q => if q.1 = p then (p, q.2 + 1) else q)).map
          (fun e => e.1)) = acc.map (fun e => e.1) := by
      rw [List.map_map]
      apply List.map_congr_left
      intro e _
      by_cases he : e.1 = p <;> simp [he]
    constructor
    · rw [hkeys]; exact h1
    · intro q hq
      rw [List.mem_map] at hq
      obtain ⟨e, he, rfl⟩ := hq
      by_cases hep : e.1 = p
      · simp only [hep, if_pos]
        exact Nat.le_trans (h2 e he) (Nat.le_succ _)
      · simp only [hep, if_neg]
        exact h2 e he
  · rw [if_neg h]
    have hp : p ∉ acc.map (fun e => e.1) := by
      intro hmem
      rw [List.mem_map] at hmem
      obtain ⟨e, he, hke⟩ := hmem
      apply h
      unfold dget
      rw [Option.isSome_iff_exists]
      have : acc.find? (fun e => decide (e.1 = p)) ≠ none := by
        rw [Ne, List.find?_eq_none]
        intro hall
        exact (hall e he) (by simp [hke])
      rcases Option.ne_none_iff_exists'.mp this with ⟨e0, he0⟩
      exact ⟨e0.2, by rw [he0]; rfl⟩
    constructor
    · rw [List.map_append]
      rw [List.nodup_append]
      refine ⟨h1, by simp, ?_⟩
      intro a ha hb
      simp only [List.map_cons, List.map_nil, List.mem_singleton] at hb
      subst hb
      exact hp ha
    · intro q hq
      rw [List.mem_append] at hq
      rcases hq with hq | hq
      · exact h2 q hq
      · simp only [List.mem_singleton] at hq
        subst hq
        exact Nat.le_refl 1

theorem macMatchCounts_keys_pos (ifaces : List MacIface)
    (ml : List (Option String)) :
    ((macMatchCounts ifaces ml).map (fun e => e.1)).Nodup ∧
      (∀ q ∈ macMatchCounts ifaces ml, 1 ≤ q.2) := by
  unfold macMatchCounts
  suffices h : ∀ acc : List (NBRec × Nat),
      (acc.map (fun e => e.1)).Nodup → (∀ q ∈ acc, 1 ≤ q.2) →
      ((ifaces.foldl
          (fun acc i =>
            if i.mac_address ∈ ml then
              match i.parent with
              | some p => bumpCount acc p
              | none => acc
            else acc) acc).map (fun e => e.1)).Nodup ∧
        (∀ q ∈ ifaces.foldl
            (fun acc i =>
              if i.mac_address ∈ ml then
                match i.parent with
                | some p => bumpCount acc p
                | none => acc
              else acc) acc, 1 ≤ q.2) by
    exact h [] (by simp) (by simp)
  induction ifaces with
  | nil => intro acc h1 h2; exact ⟨h1, h2⟩
  | cons i rest ih =>
    intro acc h1 h2
    simp only [List.foldl_cons]
    by_cases hm : i.mac_address ∈ ml
    · rw [if_pos hm]
      cases hp : i.parent with
      | none => exact ih acc h1 h2
      | some p =>
        have hb := bumpCount_keys_pos acc p h1 h2
        exact ih (bumpCount acc p) hb.1 hb.2
    · rw [if_neg hm]
      exact ih acc h1 h2

theorem assoc_key_congr {α : Type} [DecidableEq α] (l : List (α × Nat))
    (hnd : (l.map (fun e => e.1)).Nodup) (a : α) (b c : Nat)
    (hb : (a, b) ∈ l) (hc : (a, c) ∈ l) : b = c := by
  induction l with
  | nil => cases hb
  | cons e t ih =>
    simp only [List.map_cons, List.nodup_cons] at hnd
    rcases List.mem_cons.mp hb with hb1 | hb1 <;>
      rcases List.mem_cons.mp hc with hc1 | hc1
    · rw [← hb1] at hc1
      exact ((Prod.mk.injEq _ _ _ _).mp hc1.symm).2
    · exfalso
      apply hnd.1
      rw [List.mem_map]
      refine ⟨(a, c), hc1, ?_⟩
      rw [← hb1]
    · exfalso
      apply hnd.1
      rw [List.mem_map]
      refine ⟨(a, b), hb1, ?_⟩
      rw [← hc1]
    · exact ih hnd.2 hb1 hc1

theorem macCountsOf_keys_pos (inv : Inventory) (ot : NBType)
    (ml : List (Option String)) :
    ((macCountsOf inv ot ml).map (fun e => e.1)).Nodup ∧
      (∀ q ∈ macCountsOf inv ot ml, 1 ≤ q.2) :=
  macMatchCounts_keys_pos _ _

theorem lastMatch_acc_some (ml : List (Option String)) :
    ∀ (ifaces : List MacIface) (x : Option NBRec),
      ifaces.foldl
        (fun acc i => if i.mac_address ∈ ml then some i.parent else acc)
        (some x) ≠ none := by
  intro ifaces
  induction ifaces with
  | nil =>
    intro x h
    cases h
  | cons j t ih =>
    intro x
    simp only [List.foldl_cons]
    by_cases hm : j.mac_address ∈ ml
    · rw [if_pos hm]
      exact ih j.parent
    · rw [if_neg hm]
      exact ih x

theorem lastMatch_none_no_match (ml : List (Option String)) :
    ∀ (ifaces : List MacIface),
      lastMatchingObject ifaces ml = none →
      ∀ i ∈ ifaces, ¬ i.mac_address ∈ ml := by
  intro ifaces
  induction ifaces with
  | nil =>
    intro _ i hi
    cases hi
  | cons j t ih =>
    intro h i hi
    simp only [lastMatchingObject, List.foldl_cons] at h
    by_cases hm : j.mac_address ∈ ml
    · rw [if_pos hm] at h
      exact absurd h (lastMatch_acc_some ml t j.parent)
    · rw [if_neg hm] at h
      rcases List.mem_cons.mp hi with hji | hit
      · subst hji
        exact hm
      · exact ih h i hit

theorem macMatch_fold_no_match (ml : List (Option String)) :
    ∀ (l : List MacIface) (acc : List (NBRec × Nat)),
      (∀ i ∈ l, ¬ i.mac_address ∈ ml) →
      l.foldl
        (fun acc i =>
          if i.mac_address ∈ ml then
            match i.parent with
            | some p => bumpCount acc p
            | none => acc
          else acc) acc = acc := by
  intro l
  induction l with
  | nil =>
    intro acc _
    rfl
  | cons j t ih =>
    intro acc hno
    simp only [List.foldl_cons]
    rw [if_neg (hno j (List.mem_cons_self j t))]
    exact ih acc (fun i hi => hno i (List.mem_cons_of_mem j hi))

theorem lastMatchingObject_none_counts (ifaces : List MacIface)
    (ml : List (Option String))
    (h : lastMatchingObject ifaces ml = none) :
    macMatchCounts ifaces ml = [] :=
  macMatch_fold_no_match ml ifaces [] (lastMatch_none_no_match ml ifaces h)

/-- Claim C2 (amended): for every call of `get_object_based_on_macs` with a
valid kind and a non-empty MAC list, the call either returns or raises
`AttributeError`, and it raises exactly when the count dict is a singleton
while the loop variable `matching_object` — the possibly-`None` parent field
of the last interface whose MAC is in the list, assigned at line 325 before
the `is None` guard — holds `None`: the eagerly formatted log argument at
line 342 then calls `get_display_name` on `None`.  Whenever the call
returns, it returns a parent `p` exactly when `p`'s match count is maximal
and at least twice every other parent's match count: one distinct parent is
returned outright, and with two or more parents the top of the
count-descending ranking is returned iff `top ≥ 2 · second` (the
`ratio ≥ 2.0` test on positive integer counts), else none is — subsuming the
examples `{A:4, B:1} ↦ A` and `{A:3, B:2} ↦ none`. -/
theorem C2_mac_decision_rule (inv : Inventory) (ot : NBType)
    (ml : List (Option String))
    (hot : ot = NBType.NBDevices ∨ ot = NBType.NBVMs) (hne : ml ≠ []) :
    ((∃ r, get_object_based_on_macs inv ot ml = .ok r) ∨
      get_object_based_on_macs inv ot ml = .error .attributeError) ∧
    (get_object_based_on_macs inv ot ml = .error .attributeError ↔
      ((∃ p c, macCountsOf inv ot ml = [(p, c)]) ∧
        lastMatchingObject (ifacesFor inv ot) ml = some none)) ∧
    (∀ r, get_object_based_on_macs inv ot ml = .ok r →
      ∀ p : NBRec, r = some p ↔
        ∃ c1, (p, c1) ∈ macCountsOf inv ot ml ∧
          (∀ q c, (q, c) ∈ macCountsOf inv ot ml → c ≤ c1) ∧
          (∀ q c, (q, c) ∈ macCountsOf inv ot ml → q ≠ p → 2 * c ≤ c1)) := by
  have hmem' : ¬ ot ∉ [NBType.NBDevices, NBType.NBVMs] := by
    rcases hot with h | h <;> simp [h]
  have hlen : ¬ (ml.length = 0) := by
    simpa [List.length_eq_zero] using hne
  have hok := macCountsOf_keys_pos inv ot ml
  cases hC : macCountsOf inv ot ml with
  | nil =>
    have hval : get_object_based_on_macs inv ot ml = Except.ok none := by
      simp only [get_object_based_on_macs]
      rw [if_neg hmem', if_neg hlen, hC]
    refine ⟨Or.inl ⟨none, hval⟩, ?_, ?_⟩
    · constructor
      · intro h
        rw [hval] at h
        cases h
      · rintro ⟨⟨p, c, hCs⟩, -⟩
        cases hCs
    · intro r hr p
      have hrv : none = r := by
        rw [hval] at hr
        exact (Except.ok.injEq _ _).mp hr
      rw [← hrv]
      constructor
      · intro h
        cases h
      · rintro ⟨c1, hpc1, -, -⟩
        cases hpc1
  | cons c0 tl0 =>
    cases tl0 with
    | nil =>
      obtain ⟨p0, cc0⟩ := c0
      cases hlast : lastMatchingObject (ifacesFor inv ot) ml with
      | none =>
        exfalso
        have h0 : macCountsOf inv ot ml = [] :=
          lastMatchingObject_none_counts (ifacesFor inv ot) ml hlast
        rw [hC] at h0
        cases h0
      | some op =>
        cases op with
        | none =>
          have hval : get_object_based_on_macs inv ot ml =
              Except.error PyErr.attributeError := by
            simp only [get_object_based_on_macs]
            rw [if_neg hmem', if_neg hlen, hC, hlast]
          refine ⟨Or.inr hval, ?_, ?_⟩
          · constructor
            · intro _
              exact ⟨⟨p0, cc0, rfl⟩, rfl⟩
            · intro _
              exact hval
          · intro r hr p
            rw [hval] at hr
            cases hr
        | some x =>
          have hval : get_object_based_on_macs inv ot ml =
              Except.ok (some p0) := by
            simp only [get_object_based_on_macs]
            rw [if_neg hmem', if_neg hlen, hC, hlast]
          refine ⟨Or.inl ⟨some p0, hval⟩, ?_, ?_⟩
          · constructor
            · intro h
              rw [hval] at h
              cases h
            · rintro ⟨-, hl⟩
              simp at hl
          · intro r hr p
            have hrv : some p0 = r := by
              rw [hval] at hr
              exact (Except.ok.injEq _ _).mp hr
            rw [← hrv]
            constructor
            · intro h
              have hp : p = p0 := ((Option.some.injEq _ _).mp h).symm
              subst hp
              refine ⟨cc0, List.mem_singleton.mpr rfl, ?_, ?_⟩
              · intro q c hqc
                have h1 := List.mem_singleton.mp hqc
                exact Nat.le_of_eq (congrArg Prod.snd h1)
              · intro q c hqc hqp
                have h1 := List.mem_singleton.mp hqc
                exact absurd (congrArg Prod.fst h1) hqp
            · rintro ⟨c1, hpc1, -, -⟩
              have h1 := List.mem_singleton.mp hpc1
              have hpp : p = p0 := congrArg Prod.fst h1
              rw [hpp]
    | cons c1 rest =>
      have hperm := List.perm_insertionSort countGe (c0 :: c1 :: rest)
      have hsorted := List.sorted_insertionSort countGe (c0 :: c1 :: rest)
      have hlenS : (List.insertionSort countGe (c0 :: c1 :: rest)).length =
          (c0 :: c1 :: rest).length := hperm.length_eq
      rw [hC] at hok
      cases hS : List.insertionSort countGe (c0 :: c1 :: rest) with
      | nil =>
        rw [hS] at hlenS
        simp at hlenS
      | cons f tl =>
        cases tl with
        | nil =>
          rw [hS] at hlenS
          simp at hlenS
        | cons s t =>
          rw [hS] at hperm hsorted
          have hfL : f ∈ c0 :: c1 :: rest := hperm.mem_iff.mp (by simp)
          have hsL : s ∈ c0 :: c1 :: rest := hperm.mem_iff.mp (by simp)
          have hfL' : (f.1, f.2) ∈ c0 :: c1 :: rest := by rwa [Prod.mk.eta]
          have hsL' : (s.1, s.2) ∈ c0 :: c1 :: rest := by rwa [Prod.mk.eta]
          have hndS : ((f :: s :: t).map (fun e => e.1)).Nodup :=
            ((hperm.map (fun e => e.1)).nodup_iff).mpr hok.1
          have hfs : f.1 ≠ s.1 := by
            simp only [List.map_cons, List.nodup_cons, List.mem_cons,
              List.mem_map, not_or] at hndS
            exact hndS.1.1
          have hmax : ∀ q c, (q, c) ∈ c0 :: c1 :: rest → c ≤ f.2 := by
            intro q c hqc
            have hmem2 : (q, c) ∈ f :: s :: t := hperm.mem_iff.mpr hqc
            rcases List.mem_cons.mp hmem2 with h1 | h1
            · exact Nat.le_of_eq (congrArg Prod.snd h1)
            · exact (List.sorted_cons.mp hsorted).1 (q, c) h1
          have htail : ∀ q c, (q, c) ∈ s :: t → c ≤ s.2 := by
            intro q c hqc
            rcases List.mem_cons.mp hqc with h1 | h1
            · exact Nat.le_of_eq (congrArg Prod.snd h1)
            · exact (List.sorted_cons.mp
                (List.sorted_cons.mp hsorted).2).1 (q, c) h1
          have hval : get_object_based_on_macs inv ot ml =
              (if 2 * s.2 ≤ f.2 then Except.ok (some f.1)
                else Except.ok none) := by
            simp only [get_object_based_on_macs]
            rw [if_neg hmem', if_neg hlen, hC, hS]
          by_cases hr : 2 * s.2 ≤ f.2
          · have hval2 : get_object_based_on_macs inv ot ml =
                Except.ok (some f.1) := by
              rw [hval, if_pos hr]
            refine ⟨Or.inl ⟨some f.1, hval2⟩, ?_, ?_⟩
            · constructor
              · intro h
                rw [hval2] at h
                cases h
              · rintro ⟨⟨p, c, hCs⟩, -⟩
                simp at hCs
            · intro r hrr p
              have hrv : some f.1 = r := by
                rw [hval2] at hrr
                exact (Except.ok.injEq _ _).mp hrr
              rw [← hrv]
              constructor
              · intro h
                have hp : p = f.1 := ((Option.some.injEq _ _).mp h).symm
                subst hp
                refine ⟨f.2, hfL', ?_, ?_⟩
                · intro q c hqc
                  exact hmax q c hqc
                · intro q c hqc hqp
                  have hmem2 : (q, c) ∈ f :: s :: t := hperm.mem_iff.mpr hqc
                  rcases List.mem_cons.mp hmem2 with h1 | h1
                  · exact absurd (congrArg Prod.fst h1) hqp
                  · have hcs := htail q c h1
                    calc 2 * c ≤ 2 * s.2 := Nat.mul_le_mul_left 2 hcs
                      _ ≤ f.2 := hr
              · rintro ⟨cp, hpc1, hmax1, hdom1⟩
                have hp : p = f.1 := by
                  by_contra hne2
                  have h2f : 2 * f.2 ≤ cp :=
                    hdom1 f.1 f.2 hfL' (fun he => hne2 he.symm)
                  have hcple : cp ≤ f.2 := hmax p cp hpc1
                  have hfpos : 1 ≤ f.2 := hok.2 f hfL
                  omega
                rw [hp]
          · have hval2 : get_object_based_on_macs inv ot ml =
                Except.ok none := by
              rw [hval, if_neg hr]
            refine ⟨Or.inl ⟨none, hval2⟩, ?_, ?_⟩
            · constructor
              · intro h
                rw [hval2] at h
                cases h
              · rintro ⟨⟨p, c, hCs⟩, -⟩
                simp at hCs
            · intro r hrr p
              have hrv : none = r := by
                rw [hval2] at hrr
                exact (Except.ok.injEq _ _).mp hrr
              rw [← hrv]
              constructor
              · intro h
                cases h
              · rintro ⟨cp, hpc1, hmax1, hdom1⟩
                exfalso
                by_cases hpf : p = f.1
                · subst hpf
                  have hcp : cp = f.2 := assoc_key_congr _ hok.1 _ _ _ hpc1 hfL'
                  have h2s : 2 * s.2 ≤ cp :=
                    hdom1 s.1 s.2 hsL' (fun he => hfs he.symm)
                  omega
                · have h2f : 2 * f.2 ≤ cp :=
                    hdom1 f.1 f.2 hfL' (fun he => hpf he.symm)
                  have hcple : cp ≤ f.2 := hmax p cp hpc1
                  have hfpos : 1 ≤ f.2 := hok.2 f hfL
                  omega

/-- The literal claim fails: with interfaces `[⟨mac aa, parent A⟩,
⟨mac aa, parent None⟩]` exactly one distinct parent (A, one match) owns a
matching interface, yet the call raises `AttributeError` instead of
returning A — the eagerly formatted log argument at line 342 calls
`get_display_name` on the parent-less last match. -/
theorem C2_counterexample :
    macCountsOf invMacCrash NBType.NBDevices macListCrash = [(recA, 1)] ∧
    get_object_based_on_macs invMacCrash NBType.NBDevices macListCrash =
      .error .attributeError := by
  exact ⟨by decide, by decide⟩

/-- Witness for C2: match counts A:4, B:1 make the resolver return A, and the
theorem's dominance characterization holds of that call. -/
theorem C2_witness :
    ((NBType.NBDevices = NBType.NBDevices ∨ NBType.NBDevices = NBType.NBVMs) ∧
      macList41 ≠ []) ∧
    get_object_based_on_macs invMac41 NBType.NBDevices macList41 =
      .ok (some recA) ∧
    (∃ c1, (recA, c1) ∈ macCountsOf invMac41 NBType.NBDevices macList41 ∧
      (∀ q c, (q, c) ∈ macCountsOf invMac41 NBType.NBDevices macList41 →
        c ≤ c1) ∧
      (∀ q c, (q, c) ∈ macCountsOf invMac41 NBType.NBDevices macList41 →
        q ≠ recA → 2 * c ≤ c1)) := by
  have hok : get_object_based_on_macs invMac41 NBType.NBDevices macList41 =
      .ok (some recA) := by decide
  refine ⟨⟨Or.inl rfl, by decide⟩, hok, ?_⟩
  exact ((C2_mac_decision_rule invMac41 NBType.NBDevices macList41
      (Or.inl rfl) (by decide)).2.2 (some recA) hok recA).mp rfl

/-! ### C6 and C9: the primary-IP resolver -/

theorem except_bind_ok {ε α β : Type} (a : α) (f : α → Except ε β) :
    (Except.ok a).bind f = f a := rfl

theorem except_bind_error {ε α β : Type} (e : ε) (f : α → Except ε β) :
    (Except.error e : Except ε α).bind f = Except.error e := rfl

theorem matches_ok_of_not_bad (inv : Inventory) (v : Option IPStored)
    (needle : Option String) (h : ¬ ipFieldBad v needle) :
    matches_device_primary_ip inv v needle = .ok (pureIpMatch inv v needle) := by
  cases v with
  | none => cases needle <;> rfl
  | some stored =>
    cases needle with
    | none => rfl
    | some n =>
      cases stored with
      | ipdict a =>
        cases a <;> rfl
      | ipref rid =>
        have hstep : matches_device_primary_ip inv (some (IPStored.ipref rid))
            (some n) =
            (match (inv.get_by_id rid).bind (fun r => r.address) with
              | some s => Except.ok (decide (addrBase s = n))
              | none => Except.ok false) := rfl
        have hstep2 : pureIpMatch inv (some (IPStored.ipref rid)) (some n) =
            (match (inv.get_by_id rid).bind (fun r => r.address) with
              | some s => decide (addrBase s = n)
              | none => false) := rfl
        rw [hstep, hstep2]
        cases hx : (inv.get_by_id rid).bind (fun r => r.address) <;> rfl
      | ipother =>
        exact absurd ⟨rfl, rfl⟩ h

theorem matches_error_of_bad (inv : Inventory) (v : Option IPStored)
    (needle : Option String) (h : ipFieldBad v needle) :
    matches_device_primary_ip inv v needle = .error .unboundLocal := by
  obtain ⟨hv, hn⟩ := h
  subst hv
  cases needle with
  | none => cases hn
  | some n => rfl

theorem find_by_primary_ip_wellrep (inv : Inventory) (a4 a6 : Option String)
    (l : List NBRec)
    (h : ∀ d ∈ l, ¬ ipFieldBad d.primary_ip4 a4 ∧ ¬ ipFieldBad d.primary_ip6 a6) :
    find_by_primary_ip inv a4 a6 l =
      .ok (l.find? (fun d =>
        pureIpMatch inv d.primary_ip4 a4 || pureIpMatch inv d.primary_ip6 a6)) := by
  induction l with
  | nil => rfl
  | cons d rest ih =>
    have hd := h d (List.mem_cons_self d rest)
    have hr := fun x hx => h x (List.mem_cons_of_mem d hx)
    unfold find_by_primary_ip
    rw [matches_ok_of_not_bad inv _ _ hd.1, except_bind_ok]
    by_cases h4 : pureIpMatch inv d.primary_ip4 a4 = true
    · rw [if_pos h4, List.find?_cons_of_pos]
      rw [h4]
      simp
    · have h4f : pureIpMatch inv d.primary_ip4 a4 = false := by
        revert h4
        cases pureIpMatch inv d.primary_ip4 a4 <;> simp
      rw [if_neg h4, matches_ok_of_not_bad inv _ _ hd.2, except_bind_ok]
      by_cases h6 : pureIpMatch inv d.primary_ip6 a6 = true
      · rw [if_pos h6, List.find?_cons_of_pos]
        rw [h4f, h6]
        simp
      · have h6f : pureIpMatch inv d.primary_ip6 a6 = false := by
          revert h6
          cases pureIpMatch inv d.primary_ip6 a6 <;> simp
        rw [if_neg h6, List.find?_cons_of_neg, ih hr]
        rw [h4f, h6f]
        simp

/-- Claim C6 (amended): with a valid kind, at least one supplied address, and
every scanned record's primary-IP fields well-represented, the resolver
returns the first record — in iteration order — whose primary IPv4 or primary
IPv6 matches the corresponding supplied (prefix-stripped) address, checking
IPv4 before IPv6 within each record.  The original claim's cross-record
IPv4-precedence is refuted by `C6_counterexample`. -/
theorem C6_primary_ip_first_match (inv : Inventory) (ot : NBType)
    (ip4 ip6 : Option String)
    (hot : ot = NBType.NBDevices ∨ ot = NBType.NBVMs)
    (hsome : ¬ (ip4 = none ∧ ip6 = none))
    (hwf : ∀ d ∈ itemsFor inv ot,
      ¬ ipFieldBad d.primary_ip4 (ip4.map addrBase) ∧
      ¬ ipFieldBad d.primary_ip6 (ip6.map addrBase)) :
    get_object_based_on_primary_ip inv ot ip4 ip6 =
      .ok ((itemsFor inv ot).find? (fun d =>
        pureIpMatch inv d.primary_ip4 (ip4.map addrBase) ||
        pureIpMatch inv d.primary_ip6 (ip6.map addrBase))) := by
  have hmem' : ¬ ot ∉ [NBType.NBDevices, NBType.NBVMs] := by
    rcases hot with h | h <;> simp [h]
  unfold get_object_based_on_primary_ip
  rw [if_neg hmem', if_neg hsome]
  exact find_by_primary_ip_wellrep inv _ _ _ hwf

/-- Witness for C6 on a two-record store: the first record matching either
address is returned. -/
theorem C6_witness :
    ((NBType.NBDevices = NBType.NBDevices ∨ NBType.NBDevices = NBType.NBVMs) ∧
      ¬ ((some "10.0.0.9" : Option String) = none ∧
         (some "fe80::1/64" : Option String) = none) ∧
      (∀ d ∈ itemsFor invIp64 NBType.NBDevices,
        ¬ ipFieldBad d.primary_ip4 ((some "10.0.0.9").map addrBase) ∧
        ¬ ipFieldBad d.primary_ip6 ((some "fe80::1/64").map addrBase))) ∧
    get_object_based_on_primary_ip invIp64 NBType.NBDevices (some "10.0.0.9")
      (some "fe80::1/64") = .ok (some ipOnly6) := by
  refine ⟨⟨Or.inl rfl, by decide, by decide⟩, ?_⟩
  have h := C6_primary_ip_first_match invIp64 NBType.NBDevices (some "10.0.0.9")
    (some "fe80::1/64") (Or.inl rfl) (by decide) (by decide)
  rw [h]
  decide

/-- Counterexample to C6 as stated: record `ipOnly4` matches the supplied
IPv4, but the resolver returns the earlier record `ipOnly6`, which matches
only on IPv6 — an IPv4 match on a later record does not take precedence over
an IPv6 match on an earlier record. -/
theorem C6_counterexample :
    get_object_based_on_primary_ip invIp64 NBType.NBDevices (some "10.0.0.1")
      (some "fe80::1") = .ok (some ipOnly6) ∧
    ipOnly4 ∈ itemsFor invIp64 NBType.NBDevices ∧
    pureIpMatch invIp64 ipOnly4.primary_ip4
      ((some "10.0.0.1" : Option String).map addrBase) = true ∧
    ipOnly6 ≠ ipOnly4 := by
  decide

theorem find_by_primary_ip_error_iff (inv : Inventory) (a4 a6 : Option String)
    (l : List NBRec) :
    find_by_primary_ip inv a4 a6 l = .error .unboundLocal ↔
      ∃ pre d post, l = pre ++ d :: post ∧
        (∀ r ∈ pre, ¬ ipFieldBad r.primary_ip4 a4 ∧ ¬ ipFieldBad r.primary_ip6 a6 ∧
          pureIpMatch inv r.primary_ip4 a4 = false ∧
          pureIpMatch inv r.primary_ip6 a6 = false) ∧
        (ipFieldBad d.primary_ip4 a4 ∨
          (¬ ipFieldBad d.primary_ip4 a4 ∧ pureIpMatch inv d.primary_ip4 a4 = false ∧
            ipFieldBad d.primary_ip6 a6)) := by
  induction l with
  | nil =>
    constructor
    · intro h
      exact absurd h (by simp [find_by_primary_ip])
    · rintro ⟨pre, d, post, heq, -, -⟩
      exact absurd heq.symm (by simp)
  | cons d rest ih =>
    by_cases hb4 : ipFieldBad d.primary_ip4 a4
    · constructor
      · intro _
        exact ⟨[], d, rest, rfl, by simp, Or.inl hb4⟩
      · intro _
        unfold find_by_primary_ip
        rw [matches_error_of_bad inv _ _ hb4, except_bind_error]
    · have hm4 := matches_ok_of_not_bad inv d.primary_ip4 a4 hb4
      by_cases h4 : pureIpMatch inv d.primary_ip4 a4 = true
      · constructor
        · intro h
          unfold find_by_primary_ip at h
          rw [hm4, except_bind_ok, if_pos h4] at h
          cases h
        · rintro ⟨pre, d', post, heq, hpre, hd'⟩
          exfalso
          cases pre with
          | nil =>
            have hd2 : d' = d := (List.cons.injEq _ _ _ _).mp heq.symm |>.1
            subst hd2
            rcases hd' with hbad | ⟨-, hm, -⟩
            · exact hb4 hbad
            · rw [h4] at hm
              cases hm
          | cons p pre' =>
            have hp : p = d := ((List.cons.injEq _ _ _ _).mp heq.symm).1
            subst hp
            have := hpre p (List.mem_cons_self p pre')
            rw [h4] at this
            cases this.2.2.1
      · have h4f : pureIpMatch inv d.primary_ip4 a4 = false := by
          revert h4
          cases pureIpMatch inv d.primary_ip4 a4 <;> simp
        by_cases hb6 : ipFieldBad d.primary_ip6 a6
        · constructor
          · intro _
            exact ⟨[], d, rest, rfl, by simp, Or.inr ⟨hb4, h4f, hb6⟩⟩
          · intro _
            unfold find_by_primary_ip
            rw [hm4, except_bind_ok, if_neg h4,
              matches_error_of_bad inv _ _ hb6, except_bind_error]
        · have hm6 := matches_ok_of_not_bad inv d.primary_ip6 a6 hb6
          by_cases h6 : pureIpMatch inv d.primary_ip6 a6 = true
          · constructor
            · intro h
              unfold find_by_primary_ip at h
              rw [hm4, except_bind_ok, if_neg h4, hm6, except_bind_ok,
                if_pos h6] at h
              cases h
            · rintro ⟨pre, d', post, heq, hpre, hd'⟩
              exfalso
              cases pre with
              | nil =>
                have hd2 : d' = d := ((List.cons.injEq _ _ _ _).mp heq.symm).1
                subst hd2
                rcases hd' with hbad | ⟨-, -, hbad6⟩
                · exact hb4 hbad
                · exact hb6 hbad6
              | cons p pre' =>
                have hp : p = d := ((List.cons.injEq _ _ _ _).mp heq.symm).1
                subst hp
                have := hpre p (List.mem_cons_self p pre')
                rw [h6] at this
                cases this.2.2.2
          · have h6f : pureIpMatch inv d.primary_ip6 a6 = false := by
              revert h6
              cases pureIpMatch inv d.primary_ip6 a6 <;> simp
            have hred : find_by_primary_ip inv a4 a6 (d :: rest) =
                find_by_primary_ip inv a4 a6 rest := by
              unfold find_by_primary_ip
              rw [hm4, except_bind_ok, if_neg h4, hm6, except_bind_ok, if_neg h6]
              cases rest <;> rfl
            rw [hred, ih]
            constructor
            · rintro ⟨pre, d', post, heq, hpre, hd'⟩
              refine ⟨d :: pre, d', post, by rw [heq]; rfl, ?_, hd'⟩
              intro r hr
              rcases List.mem_cons.mp hr with hr1 | hr1
              · subst hr1
                exact ⟨hb4, hb6, h4f, h6f⟩
              · exact hpre r hr1
            · rintro ⟨pre, d', post, heq, hpre, hd'⟩
              cases pre with
              | nil =>
                exfalso
                have hd2 : d' = d := ((List.cons.injEq _ _ _ _).mp heq.symm).1
                subst hd2
                rcases hd' with hbad | ⟨-, -, hbad6⟩
                · exact hb4 hbad
                · exact hb6 hbad6
              | cons p pre' =>
                have hp : p = d := ((List.cons.injEq _ _ _ _).mp heq.symm).1
                have htl : rest = pre' ++ d' :: post :=
                  ((List.cons.injEq _ _ _ _).mp heq.symm).2.symm
                exact ⟨pre', d', post, htl, fun r hr =>
                  hpre r (List.mem_cons_of_mem p hr), hd'⟩

/-- Claim C9 (amended): with a valid kind, the call raises (the unbound-local
error) exactly when, scanning the stored records in iteration order and
checking the IPv4 field before the IPv6 field, an ill-represented non-`None`
primary-IP field with a non-`None` corresponding supplied address is reached
before any record matches; in particular it completes without raising
whenever every stored record's two fields are absent, a dict or an int.  The
original claim's "only when every stored record is well-represented" is
refuted by `C9_counterexample` (a match before the bad record).  -/
theorem C9_primary_ip_raise_characterization (inv : Inventory) (ot : NBType)
    (ip4 ip6 : Option String)
    (hot : ot = NBType.NBDevices ∨ ot = NBType.NBVMs) :
    (get_object_based_on_primary_ip inv ot ip4 ip6 = .error .unboundLocal ↔
      ∃ pre d post, itemsFor inv ot = pre ++ d :: post ∧
        (∀ r ∈ pre,
          ¬ ipFieldBad r.primary_ip4 (ip4.map addrBase) ∧
          ¬ ipFieldBad r.primary_ip6 (ip6.map addrBase) ∧
          pureIpMatch inv r.primary_ip4 (ip4.map addrBase) = false ∧
          pureIpMatch inv r.primary_ip6 (ip6.map addrBase) = false) ∧
        (ipFieldBad d.primary_ip4 (ip4.map addrBase) ∨
          (¬ ipFieldBad d.primary_ip4 (ip4.map addrBase) ∧
            pureIpMatch inv d.primary_ip4 (ip4.map addrBase) = false ∧
            ipFieldBad d.primary_ip6 (ip6.map addrBase)))) ∧
    ((∀ r ∈ itemsFor inv ot,
        ¬ ipFieldBad r.primary_ip4 (ip4.map addrBase) ∧
        ¬ ipFieldBad r.primary_ip6 (ip6.map addrBase)) →
      ∃ v, get_object_based_on_primary_ip inv ot ip4 ip6 = .ok v) := by
  have hmem' : ¬ ot ∉ [NBType.NBDevices, NBType.NBVMs] := by
    rcases hot with h | h <;> simp [h]
  by_cases hnn : ip4 = none ∧ ip6 = none
  · have hval : get_object_based_on_primary_ip inv ot ip4 ip6 = .ok none := by
      unfold get_object_based_on_primary_ip
      rw [if_neg hmem', if_pos hnn]
    rw [hval]
    constructor
    · constructor
      · intro h
        cases h
      · rintro ⟨pre, d, post, heq, hpre, hd'⟩
        exfalso
        rcases hd' with hbad | ⟨-, -, hbad6⟩
        · rw [hnn.1] at hbad
          cases hbad.2
        · rw [hnn.2] at hbad6
          cases hbad6.2
    · intro _
      exact ⟨none, rfl⟩
  · have hval : get_object_based_on_primary_ip inv ot ip4 ip6 =
        find_by_primary_ip inv (ip4.map addrBase) (ip6.map addrBase)
          (itemsFor inv ot) := by
      unfold get_object_based_on_primary_ip
      rw [if_neg hmem', if_neg hnn]
    rw [hval]
    constructor
    · exact find_by_primary_ip_error_iff inv _ _ _
    · intro hwf
      exact ⟨_, find_by_primary_ip_wellrep inv _ _ _ hwf⟩

/-- Counterexample to C9 as stated: the store holds a record whose
`primary_ip4` is a bare-string representation (`ipother`) while the supplied
IPv4 is non-`None`, yet the call completes without raising, because an
earlier record matches first — so "completes without raising only when every
stored record's fields are absent, a dict, or an int" is false. -/
theorem C9_counterexample :
    get_object_based_on_primary_ip invIpGoodBad NBType.NBDevices
      (some "10.0.0.1") none = .ok (some ipOnly4) ∧
    ipBad4 ∈ itemsFor invIpGoodBad NBType.NBDevices ∧
    ipBad4.primary_ip4 = some IPStored.ipother ∧
    (some "10.0.0.1" : Option String) ≠ none := by
  decide

/-- Witness for C9: checks the amended characterization on a store whose bad
record comes first, where the call does raise. -/
theorem C9_witness :
    ((NBType.NBDevices = NBType.NBDevices ∨ NBType.NBDevices = NBType.NBVMs)) ∧
    get_object_based_on_primary_ip
      ⟨[ipBad4, ipOnly4], [], [], [], [], fun _ => none, fun _ => none⟩
      NBType.NBDevices (some "10.0.0.1") none = .error .unboundLocal := by
  refine ⟨Or.inl rfl, ?_⟩
  apply (C9_primary_ip_raise_characterization
    ⟨[ipBad4, ipOnly4], [], [], [], [], fun _ => none, fun _ => none⟩
    NBType.NBDevices (some "10.0.0.1") none (Or.inl rfl)).1.mpr
  exact ⟨[], ipBad4, [ipOnly4], rfl, by simp, Or.inl (by decide)⟩

/-! ### C4 and C5: the interface reconciler -/

theorem find_key_isSome_iff {κ α : Type} [DecidableEq κ] (d : List (κ × α))
    (k : κ) :
    (d.find? (fun e => decide (e.1 = k))).isSome = true ↔
      k ∈ d.map (fun e => e.1) := by
  constructor
  · intro h
    rw [Option.isSome_iff_exists] at h
    obtain ⟨e, he⟩ := h
    have hp := List.find?_some he
    have hm := List.mem_of_find?_eq_some he
    simp only [decide_eq_true_eq] at hp
    exact List.mem_map.mpr ⟨e, hm, hp⟩
  · intro h
    obtain ⟨e, he, hk⟩ := List.mem_map.mp h
    have : d.find? (fun e => decide (e.1 = k)) ≠ none := by
      rw [Ne, List.find?_eq_none]
      intro hall
      exact (hall e he) (by simp [hk])
    rcases Option.ne_none_iff_exists'.mp this with ⟨e0, he0⟩
    rw [he0]
    rfl

theorem dset_fresh {κ α : Type} [DecidableEq κ] (d : List (κ × α)) (k : κ)
    (v : α) (h : k ∉ d.map (fun e => e.1)) : dset d k v = d ++ [(k, v)] := by
  unfold dset
  rw [if_neg]
  intro hs
  exact h ((find_key_isSome_iff d k).mp hs)

theorem dset_append_fresh {κ α : Type} [DecidableEq κ] (d : List (κ × α))
    (k : κ) (v w : α) (h : k ∉ d.map (fun e => e.1)) :
    dset (d ++ [(k, v)]) k w = d ++ [(k, w)] := by
  unfold dset
  rw [if_pos]
  · rw [List.map_append]
    congr 1
    · have h1 : ∀ e ∈ d, (if e.1 = k then (k, w) else e) = id e := by
        intro e he
        have : e.1 ≠ k := by
          intro hk
          exact h (List.mem_map.mpr ⟨e, he, hk⟩)
        simp [this]
      rw [List.map_congr_left h1, List.map_id]
    · simp
  · rw [find_key_isSome_iff]
    simp

theorem partitionOf_vp (t : Option String) :
    partitionOf t = "virtual" ∨ partitionOf t = "physical" := by
  unfold partitionOf
  by_cases h : strContains (t.getD "virtual") "virtual" = true
  · rw [if_pos h]
    exact Or.inl rfl
  · rw [if_neg h]
    exact Or.inr rfl

theorem filterMap_nodup_unique {α β : Type} (f : α → Option β) :
    ∀ (l : List α), (l.filterMap f).Nodup →
      ∀ (a1 a2 : α) (b : β), a1 ∈ l → a2 ∈ l →
        f a1 = some b → f a2 = some b → a1 = a2 := by
  intro l
  induction l with
  | nil => intro _ a1 a2 b h1; cases h1
  | cons x t ih =>
    intro hnd a1 a2 b h1 h2 hb1 hb2
    rcases List.mem_cons.mp h1 with h1x | h1t <;>
      rcases List.mem_cons.mp h2 with h2x | h2t
    · rw [h1x, h2x]
    · exfalso
      subst h1x
      rw [List.filterMap_cons, hb1, List.nodup_cons] at hnd
      exact hnd.1 (List.mem_filterMap.mpr ⟨a2, h2t, hb2⟩)
    · exfalso
      subst h2x
      rw [List.filterMap_cons, hb2, List.nodup_cons] at hnd
      exact hnd.1 (List.mem_filterMap.mpr ⟨a1, h1t, hb1⟩)
    · apply ih ?_ a1 a2 b h1t h2t hb1 hb2
      rw [List.filterMap_cons] at hnd
      cases hfx : f x with
      | none => rwa [hfx] at hnd
      | some c =>
        rw [hfx, List.nodup_cons] at hnd
        exact hnd.2

theorem nodup_of_filterMap_nodup {α β : Type} (f : α → Option β) :
    ∀ (l : List α), (∀ a ∈ l, (f a).isSome = true) →
      (l.filterMap f).Nodup → l.Nodup := by
  intro l
  induction l with
  | nil => intro _ _; exact List.nodup_nil
  | cons x t ih =>
    intro hall hnd
    have hx := hall x (List.mem_cons_self x t)
    rw [Option.isSome_iff_exists] at hx
    obtain ⟨b, hb⟩ := hx
    rw [List.filterMap_cons, hb, List.nodup_cons] at hnd
    rw [List.nodup_cons]
    constructor
    · intro hxt
      exact hnd.1 (List.mem_filterMap.mpr ⟨x, hxt, hb⟩)
    · exact ih (fun a ha => hall a (List.mem_cons_of_mem x ha)) hnd.2

theorem filterMap_name_erase (i0 : OIface) (k : String) :
    ∀ (l : List OIface), (∀ x ∈ l, (x.name).isSome = true) →
      (∀ x ∈ l, x.name = some k → x = i0) →
      i0.name = some k →
      (l.erase i0).filterMap (fun i => i.name) =
        (l.filterMap (fun i => i.name)).erase k := by
  intro l
  induction l with
  | nil => intro _ _ _; rfl
  | cons x t ih =>
    intro hall huniq hk
    by_cases hx : x = i0
    · subst hx
      rw [List.erase_cons_head, List.filterMap_cons, hk]
      rw [List.erase_cons_head]
    · rw [List.erase_cons_tail]
      · have hxs := hall x (List.mem_cons_self x t)
        rw [Option.isSome_iff_exists] at hxs
        obtain ⟨nx, hnx⟩ := hxs
        have hnxk : nx ≠ k := by
          intro hc
          subst hc
          exact hx (huniq x (List.mem_cons_self x t) hnx)
        rw [List.filterMap_cons, hnx, List.filterMap_cons, hnx]
        rw [List.erase_cons_tail]
        · rw [ih (fun a ha => hall a (List.mem_cons_of_mem x ha))
            (fun a ha hk2 => huniq a (List.mem_cons_of_mem x ha) hk2) hk]
        · simp [hnxk]
      · simp [hx]

theorem zip_snd_sublist {α β : Type} :
    ∀ (l1 : List α) (l2 : List β), ((l1.zip l2).map Prod.snd).Sublist l2 := by
  intro l1
  induction l1 with
  | nil => intro l2; simp
  | cons a as ih =>
    intro l2
    cases l2 with
    | nil => simp
    | cons b bs =>
      rw [List.zip_cons_cons, List.map_cons]
      exact List.Sublist.cons₂ b (ih bs)

theorem zip_fst_mem {α β : Type} (l1 : List α) (l2 : List β) (p : α × β)
    (h : p ∈ l1.zip l2) : p.1 ∈ l1 ∧ p.2 ∈ l2 := by
  exact List.of_mem_zip h

theorem except_pure_bind {ε α β : Type} (a : α) (f : α → Except ε β) :
    ((Except.ok a : Except ε α) >>= f) = f a := rfl

theorem except_error_bind {ε α β : Type} (e : ε) (f : α → Except ε β) :
    ((Except.error e : Except ε α) >>= f) = Except.error e := rfl

theorem buildCurrent_go (existing : List OIface) (dd : List (String × DIface))
    (hwf : IfWF existing dd) :
    ∀ (rem procd : List OIface) (st : IfMapBuild),
      existing = procd ++ rem → BuildInv existing procd st →
      ∃ b, rem.foldlM buildStep st = .ok b ∧ BuildInv existing existing b := by
  obtain ⟨hw1, hw2, hw3, hw4, hw5, -, -⟩ := hwf
  have hexnd : existing.Nodup :=
    nodup_of_filterMap_nodup (fun i => i.name) existing hw1 hw2
  intro rem
  induction rem with
  | nil =>
    intro procd st heq hinv
    refine ⟨st, rfl, ?_⟩
    have hpe : procd = existing := by rw [heq, List.append_nil]
    rwa [hpe] at hinv
  | cons i rest ih =>
    intro procd st heq hinv
    have hiex : i ∈ existing := by
      rw [heq]
      exact List.mem_append.mpr (Or.inr (List.mem_cons_self i rest))
    have hinotp : i ∉ procd := by
      intro hc
      rw [heq] at hexnd
      exact ((List.nodup_append.mp hexnd).2.2 hc) (List.mem_cons_self i rest)
    have hin := hw1 i hiex
    rw [Option.isSome_iff_exists] at hin
    obtain ⟨n, hname⟩ := hin
    have hnvp := hw3 i hiex n hname
    have hnnotmac : ∀ j ∈ existing, j.mac_address ≠ some n := hnvp.2.2.1
    -- the new name key is fresh among the prefix's names
    have hn_not_procd : ∀ i' ∈ procd, i'.name = some n → False := by
      intro i' hi' hn'
      have : i' = i :=
        filterMap_nodup_unique (fun x => x.name) existing hw2 i' i n
          (by rw [heq]; exact List.mem_append.mpr (Or.inl hi')) hiex hn' hname
      rw [this] at hi'
      exact hinotp hi'
    have hvp : partitionOf i.typef = "virtual" ∨ partitionOf i.typef = "physical" :=
      partitionOf_vp i.typef
    have hnpart : n ≠ partitionOf i.typef := by
      rcases hvp with h | h
      · rw [h]; exact hnvp.1
      · rw [h]; exact hnvp.2.1
    cases hmac : i.mac_address with
    | some m =>
      have hmvp := hw5 i hiex m hmac
      have hm_notname : ∀ j ∈ existing, j.name ≠ some m := by
        intro j hj hjm
        exact (hw3 j hj m hjm).2.2.1 i hiex hmac
      have hmn : m ≠ n := by
        intro hc
        exact hnnotmac i hiex (by rw [hmac, hc])
      have hmpart : m ≠ partitionOf i.typef := by
        rcases hvp with h | h
        · rw [h]; exact hmvp.1
        · rw [h]; exact hmvp.2.1
      obtain ⟨msub, hsub, hsound, hcompl⟩ := hinv.2.1 (partitionOf i.typef) hvp
      have hstep : buildStep st i = .ok
          ⟨dset (dset (dset st.current (partitionOf i.typef)
              (TopVal.sub (dset msub m i))) m (TopVal.itf i)) n (TopVal.itf i),
            st.names ++ [n]⟩ := by
        simp only [buildStep]
        rw [hmac, hsub, hname]
        rfl
      have hA : (st.names ++ [n]) = (procd ++ [i]).filterMap (fun x => x.name) := by
        rw [List.filterMap_append, hinv.1]
        congr 1
        simp [hname]
      have hB : ∀ part', (part' = "virtual" ∨ part' = "physical") →
          ∃ msub', dget (dset (dset (dset st.current (partitionOf i.typef)
              (TopVal.sub (dset msub m i))) m (TopVal.itf i)) n (TopVal.itf i))
                part' = some (TopVal.sub msub') ∧
            (∀ m' i', dget msub' m' = some i' →
              i' ∈ procd ++ [i] ∧ i'.mac_address = some m' ∧
                partitionOf i'.typef = part') ∧
            (∀ i' ∈ procd ++ [i], ∀ m', i'.mac_address = some m' →
              partitionOf i'.typef = part' → (dget msub' m').isSome = true) := by
        intro part' hvp'
        have hnp : part' ≠ n := by
          intro hc
          rcases hvp' with h | h
          · exact hnvp.1 (by rw [← hc, h])
          · exact hnvp.2.1 (by rw [← hc, h])
        have hmp : part' ≠ m := by
          intro hc
          rcases hvp' with h | h
          · exact hmvp.1 (by rw [← hc, h])
          · exact hmvp.2.1 (by rw [← hc, h])
        by_cases hpp : part' = partitionOf i.typef
        · refine ⟨dset msub m i, ?_, ?_, ?_⟩
          · rw [dget_dset_ne _ _ _ _ hnp, dget_dset_ne _ _ _ _ hmp, hpp,
              dget_dset_self]
          · intro m' i' h'
            by_cases hm' : m' = m
            · subst hm'
              rw [dget_dset_self] at h'
              have : i' = i := ((Option.some.injEq _ _).mp h').symm
              subst this
              exact ⟨List.mem_append.mpr (Or.inr (List.mem_singleton.mpr rfl)),
                hmac, hpp.symm⟩
            · rw [dget_dset_ne _ _ _ _ hm'] at h'
              obtain ⟨h1, h2, h3⟩ := hsound m' i' h'
              exact ⟨List.mem_append.mpr (Or.inl h1), h2, by rw [h3, hpp]⟩
          · intro i' hi' m' hmac' hpart'
            rcases List.mem_append.mp hi' with hip | hii
            · by_cases hm' : m' = m
              · subst hm'
                rw [dget_dset_self]
                rfl
              · rw [dget_dset_ne _ _ _ _ hm']
                exact hcompl i' hip m' hmac' (by rw [hpart', hpp])
            · have : i' = i := List.mem_singleton.mp hii
              subst this
              have hm' : m' = m := by
                rw [hmac] at hmac'
                exact ((Option.some.injEq _ _).mp hmac'.symm)
              subst hm'
              rw [dget_dset_self]
              rfl
        · obtain ⟨msub', hsub', hsound', hcompl'⟩ := hinv.2.1 part' hvp'
          refine ⟨msub', ?_, ?_, ?_⟩
          · rw [dget_dset_ne _ _ _ _ hnp, dget_dset_ne _ _ _ _ hmp,
              dget_dset_ne _ _ _ _ hpp, hsub']
          · intro m' i' h'
            obtain ⟨h1, h2, h3⟩ := hsound' m' i' h'
            exact ⟨List.mem_append.mpr (Or.inl h1), h2, h3⟩
          · intro i' hi' m' hmac' hpart'
            rcases List.mem_append.mp hi' with hip | hii
            · exact hcompl' i' hip m' hmac' hpart'
            · exfalso
              have : i' = i := List.mem_singleton.mp hii
              subst this
              exact hpp (by rw [← hpart'])
      have hC : ∀ i' ∈ procd ++ [i], ∀ n', i'.name = some n' →
          dget (dset (dset (dset st.current (partitionOf i.typef)
              (TopVal.sub (dset msub m i))) m (TopVal.itf i)) n (TopVal.itf i))
            n' = some (TopVal.itf i') := by
        intro i' hi' n' hn'
        rcases List.mem_append.mp hi' with hip | hii
        · have hi'ex : i' ∈ existing := by
            rw [heq]
            exact List.mem_append.mpr (Or.inl hip)
          have hn'vp := hw3 i' hi'ex n' hn'
          have hn'm : n' ≠ m := by
            intro hc
            exact hn'vp.2.2.1 i hiex (by rw [hmac, hc])
          have hn'n : n' ≠ n := by
            intro hc
            subst hc
            exact hn_not_procd i' hip hn'
          have hn'part : n' ≠ partitionOf i.typef := by
            rcases hvp with h | h
            · rw [h]; exact hn'vp.1
            · rw [h]; exact hn'vp.2.1
          rw [dget_dset_ne _ _ _ _ hn'n, dget_dset_ne _ _ _ _ hn'm,
            dget_dset_ne _ _ _ _ hn'part]
          exact hinv.2.2.1 i' hip n' hn'
        · have : i' = i := List.mem_singleton.mp hii
          subst this
          have : n' = n := by
            rw [hname] at hn'
            exact (Option.some.injEq _ _).mp hn'.symm
          subst this
          rw [dget_dset_self]
      have hD : ∀ m', m' ≠ "virtual" → m' ≠ "physical" →
          (∀ j ∈ existing, j.name ≠ some m') →
          (∀ tv, dget (dset (dset (dset st.current (partitionOf i.typef)
              (TopVal.sub (dset msub m i))) m (TopVal.itf i)) n (TopVal.itf i))
                m' = some tv →
            ∃ i'', tv = TopVal.itf i'' ∧ i'' ∈ procd ++ [i] ∧
              i''.mac_address = some m') ∧
          (∀ i' ∈ procd ++ [i], i'.mac_address = some m' →
            (dget (dset (dset (dset st.current (partitionOf i.typef)
              (TopVal.sub (dset msub m i))) m (TopVal.itf i)) n (TopVal.itf i))
                m').isSome = true) := by
        intro m' hv hp hnm
        have hm'n : m' ≠ n := by
          intro hc
          exact hnm i hiex (by rw [hname, hc])
        have hm'part : m' ≠ partitionOf i.typef := by
          rcases hvp with h | h
          · rw [h]; exact hv
          · rw [h]; exact hp
        by_cases hmm : m' = m
        · subst hmm
          constructor
          · intro tv htv
            rw [dget_dset_ne _ _ _ _ hm'n, dget_dset_self] at htv
            have : tv = TopVal.itf i := ((Option.some.injEq _ _).mp htv).symm
            exact ⟨i, this,
              List.mem_append.mpr (Or.inr (List.mem_singleton.mpr rfl)), hmac⟩
          · intro i' hi' hmac'
            rw [dget_dset_ne _ _ _ _ hm'n, dget_dset_self]
            rfl
        · obtain ⟨hsold, hcold⟩ := hinv.2.2.2 m' hv hp hnm
          constructor
          · intro tv htv
            rw [dget_dset_ne _ _ _ _ hm'n, dget_dset_ne _ _ _ _ hmm,
              dget_dset_ne _ _ _ _ hm'part] at htv
            obtain ⟨i'', h1, h2, h3⟩ := hsold tv htv
            exact ⟨i'', h1, List.mem_append.mpr (Or.inl h2), h3⟩
          · intro i' hi' hmac'
            rw [dget_dset_ne _ _ _ _ hm'n, dget_dset_ne _ _ _ _ hmm,
              dget_dset_ne _ _ _ _ hm'part]
            rcases List.mem_append.mp hi' with hip | hii
            · exact hcold i' hip hmac'
            · exfalso
              have : i' = i := List.mem_singleton.mp hii
              subst this
              rw [hmac] at hmac'
              exact hmm ((Option.some.injEq _ _).mp hmac'.symm)
      have hnext := ih (procd ++ [i])
        ⟨dset (dset (dset st.current (partitionOf i.typef)
            (TopVal.sub (dset msub m i))) m (TopVal.itf i)) n (TopVal.itf i),
          st.names ++ [n]⟩
        (by rw [heq, List.append_assoc]; rfl)
        ⟨hA, hB, hC, hD⟩
      obtain ⟨b, hb1, hb2⟩ := hnext
      refine ⟨b, ?_, hb2⟩
      rw [List.foldlM_cons, hstep, except_pure_bind]
      exact hb1
    | none =>
      have hstep : buildStep st i = .ok
          ⟨dset st.current n (TopVal.itf i), st.names ++ [n]⟩ := by
        simp only [buildStep]
        rw [hmac, hname]
        rfl
      have hA : (st.names ++ [n]) = (procd ++ [i]).filterMap (fun x => x.name) := by
        rw [List.filterMap_append, hinv.1]
        congr 1
        simp [hname]
      have hB : ∀ part', (part' = "virtual" ∨ part' = "physical") →
          ∃ msub', dget (dset st.current n (TopVal.itf i)) part' =
              some (TopVal.sub msub') ∧
            (∀ m' i', dget msub' m' = some i' →
              i' ∈ procd ++ [i] ∧ i'.mac_address = some m' ∧
                partitionOf i'.typef = part') ∧
            (∀ i' ∈ procd ++ [i], ∀ m', i'.mac_address = some m' →
              partitionOf i'.typef = part' → (dget msub' m').isSome = true) := by
        intro part' hvp'
        have hnp : part' ≠ n := by
          intro hc
          rcases hvp' with h | h
          · exact hnvp.1 (by rw [← hc, h])
          · exact hnvp.2.1 (by rw [← hc, h])
        obtain ⟨msub', hsub', hsound', hcompl'⟩ := hinv.2.1 part' hvp'
        refine ⟨msub', ?_, ?_, ?_⟩
        · rw [dget_dset_ne _ _ _ _ hnp, hsub']
        · intro m' i' h'
          obtain ⟨h1, h2, h3⟩ := hsound' m' i' h'
          exact ⟨List.mem_append.mpr (Or.inl h1), h2, h3⟩
        · intro i' hi' m' hmac' hpart'
          rcases List.mem_append.mp hi' with hip | hii
          · exact hcompl' i' hip m' hmac' hpart'
          · exfalso
            have : i' = i := List.mem_singleton.mp hii
            subst this
            rw [hmac] at hmac'
            cases hmac'
      have hC : ∀ i' ∈ procd ++ [i], ∀ n', i'.name = some n' →
          dget (dset st.current n (TopVal.itf i)) n' = some (TopVal.itf i') := by
        intro i' hi' n' hn'
        rcases List.mem_append.mp hi' with hip | hii
        · have hn'n : n' ≠ n := by
            intro hc
            subst hc
            exact hn_not_procd i' hip hn'
          rw [dget_dset_ne _ _ _ _ hn'n]
          exact hinv.2.2.1 i' hip n' hn'
        · have : i' = i := List.mem_singleton.mp hii
          subst this
          have : n' = n := by
            rw [hname] at hn'
            exact (Option.some.injEq _ _).mp hn'.symm
          subst this
          rw [dget_dset_self]
      have hD : ∀ m', m' ≠ "virtual" → m' ≠ "physical" →
          (∀ j ∈ existing, j.name ≠ some m') →
          (∀ tv, dget (dset st.current n (TopVal.itf i)) m' = some tv →
            ∃ i'', tv = TopVal.itf i'' ∧ i'' ∈ procd ++ [i] ∧
              i''.mac_address = some m') ∧
          (∀ i' ∈ procd ++ [i], i'.mac_address = some m' →
            (dget (dset st.current n (TopVal.itf i)) m').isSome = true) := by
        intro m' hv hp hnm
        have hm'n : m' ≠ n := by
          intro hc
          exact hnm i hiex (by rw [hname, hc])
        obtain ⟨hsold, hcold⟩ := hinv.2.2.2 m' hv hp hnm
        constructor
        · intro tv htv
          rw [dget_dset_ne _ _ _ _ hm'n] at htv
          obtain ⟨i'', h1, h2, h3⟩ := hsold tv htv
          exact ⟨i'', h1, List.mem_append.mpr (Or.inl h2), h3⟩
        · intro i' hi' hmac'
          rw [dget_dset_ne _ _ _ _ hm'n]
          rcases List.mem_append.mp hi' with hip | hii
          · exact hcold i' hip hmac'
          · exfalso
            have : i' = i := List.mem_singleton.mp hii
            subst this
            rw [hmac] at hmac'
            cases hmac'
      have hnext := ih (procd ++ [i])
        ⟨dset st.current n (TopVal.itf i), st.names ++ [n]⟩
        (by rw [heq, List.append_assoc]; rfl)
        ⟨hA, hB, hC, hD⟩
      obtain ⟨b, hb1, hb2⟩ := hnext
      refine ⟨b, ?_, hb2⟩
      rw [List.foldlM_cons, hstep, except_pure_bind]
      exact hb1

theorem buildCurrent_spec (existing : List OIface) (dd : List (String × DIface))
    (hwf : IfWF existing dd) :
    ∃ b, buildCurrent existing = .ok b ∧ BuildInv existing existing b := by
  apply buildCurrent_go existing dd hwf existing []
    ⟨[("virtual", TopVal.sub []), ("physical", TopVal.sub [])], []⟩ rfl
  refine ⟨rfl, ?_, ?_, ?_⟩
  · intro part hvp
    refine ⟨[], ?_, ?_, ?_⟩
    · rcases hvp with h | h <;> subst h <;> rfl
    · intro m i h
      cases h
    · intro i hi
      cases hi
  · intro i hi
    cases hi
  · intro m hv hp _
    have hnone : dget [("virtual", TopVal.sub []), ("physical", TopVal.sub [])] m
        = none := by
      unfold dget
      have hfind : List.find? (fun e : String × TopVal => decide (e.1 = m))
          [("virtual", TopVal.sub []), ("physical", TopVal.sub [])] = none := by
        rw [List.find?_eq_none]
        intro x hx
        simp only [List.mem_cons, List.mem_singleton, List.not_mem_nil] at hx
        rcases hx with hx | hx | hx
        · subst hx
          simp only [decide_eq_true_eq]
          exact fun hc => hv hc.symm
        · subst hx
          simp only [decide_eq_true_eq]
          exact fun hc => hp hc.symm
        · cases hx
      rw [hfind]
      rfl
    constructor
    · intro tv htv
      rw [hnone] at htv
      cases htv
    · intro i hi
      cases hi

theorem loopInv_claim (existing : List OIface) (pre : List (String × DIface))
    (k : String) (d : DIface) (src : IfMapLoop) (spc : CascadeState)
    (hli : LoopInv existing pre src spc)
    (hw1 : ∀ i ∈ existing, i.name.isSome = true)
    (hw2 : (existing.filterMap (fun i => i.name)).Nodup)
    (hexnd : existing.Nodup)
    (i0 : OIface) (n0 : String) (hi0av : i0 ∈ spc.avail)
    (hi0n : i0.name = some n0)
    (hkfresh : k ∉ src.return_data.map (fun e => e.1)) :
    LoopInv existing (pre ++ [(k, d)])
      ⟨dset (dset src.return_data k none) k (some i0), src.names.erase n0,
        src.unmatched⟩
      ⟨spc.assigned ++ [(k, some i0)], spc.avail.erase i0, spc.deferred⟩ := by
  obtain ⟨hL1, hL2, hL3, hL4, hL5, hL6⟩ := hli
  have havnd : spc.avail.Nodup := hL4.nodup hexnd
  refine ⟨?_, hL2, ?_, ?_, ?_, ?_⟩
  · show dset (dset src.return_data k none) k (some i0) = _
    rw [dset_fresh _ _ _ hkfresh, dset_append_fresh _ _ _ _ hkfresh, hL1]
  · show src.names.erase n0 = _
    have hall : ∀ x ∈ spc.avail, x.name.isSome = true :=
      fun x hx => hw1 x (hL4.subset hx)
    have huniq : ∀ x ∈ spc.avail, x.name = some n0 → x = i0 := fun x hx hxn =>
      filterMap_nodup_unique _ existing hw2 x i0 n0 (hL4.subset hx)
        (hL4.subset hi0av) hxn hi0n
    rw [hL3, ← filterMap_name_erase i0 n0 spc.avail hall huniq hi0n]
  · exact (List.erase_sublist i0 spc.avail).trans hL4
  · intro i hi
    show some i ∈ (dset (dset src.return_data k none) k (some i0)).map
        (fun e => e.2) ↔ _
    rw [dset_fresh _ _ _ hkfresh, dset_append_fresh _ _ _ _ hkfresh,
      List.map_append]
    rw [List.mem_append]
    simp only [List.map_cons, List.map_nil, List.mem_singleton]
    by_cases hii : i = i0
    · subst hii
      constructor
      · intro _
        rw [havnd.mem_erase_iff]
        intro hc
        exact hc.1 rfl
      · intro _
        exact Or.inr rfl
    · constructor
      · intro h
        rcases h with h | h
        · rw [havnd.mem_erase_iff]
          intro hc
          exact ((hL5 i hi).mp h) hc.2
        · exact absurd ((Option.some.injEq _ _).mp h) hii
      · intro h
        rw [havnd.mem_erase_iff] at h
        have : i ∉ spc.avail := fun hc => h ⟨hii, hc⟩
        exact Or.inl ((hL5 i hi).mpr this)
  · show (dset (dset src.return_data k none) k (some i0)).map (fun e => e.1) = _
    rw [dset_fresh _ _ _ hkfresh, dset_append_fresh _ _ _ _ hkfresh,
      List.map_append, List.map_append, hL6]
    simp

theorem loopInv_defer (existing : List OIface) (pre : List (String × DIface))
    (k : String) (d : DIface) (src : IfMapLoop) (spc : CascadeState)
    (hli : LoopInv existing pre src spc)
    (hkfresh : k ∉ src.return_data.map (fun e => e.1)) :
    LoopInv existing (pre ++ [(k, d)])
      ⟨dset src.return_data k none, src.names, src.unmatched ++ [k]⟩
      ⟨spc.assigned ++ [(k, none)], spc.avail, spc.deferred ++ [k]⟩ := by
  obtain ⟨hL1, hL2, hL3, hL4, hL5, hL6⟩ := hli
  refine ⟨?_, ?_, hL3, hL4, ?_, ?_⟩
  · show dset src.return_data k none = _
    rw [dset_fresh _ _ _ hkfresh, hL1]
  · show src.unmatched ++ [k] = _
    rw [hL2]
  · intro i hi
    show some i ∈ (dset src.return_data k none).map (fun e => e.2) ↔ _
    rw [dset_fresh _ _ _ hkfresh, List.map_append, List.mem_append]
    simp only [List.map_cons, List.map_nil, List.mem_singleton]
    constructor
    · intro h
      rcases h with h | h
      · exact (hL5 i hi).mp h
      · cases h
    · intro h
      exact Or.inl ((hL5 i hi).mpr h)
  · show (dset src.return_data k none).map (fun e => e.1) = _
    rw [dset_fresh _ _ _ hkfresh, List.map_append, List.map_append, hL6]
    simp

theorem matchStep_equiv (existing : List OIface) (dd : List (String × DIface))
    (hwf : IfWF existing dd) (b : IfMapBuild)
    (hbi : BuildInv existing existing b)
    (pre : List (String × DIface)) (k : String) (d : DIface)
    (rem : List (String × DIface)) (hdd : dd = pre ++ (k, d) :: rem)
    (src : IfMapLoop) (spc : CascadeState)
    (hli : LoopInv existing pre src spc)
    (st1 : IfMapLoop) (hok : matchStep b.current src k d = .ok st1) :
    LoopInv existing (pre ++ [(k, d)]) st1 (specStep spc k d) := by
  obtain ⟨hw1, hw2, hw3, hw4, hw5, hw6, hw7⟩ := hwf
  obtain ⟨hL1, hL2, hL3, hL4, hL5, hL6⟩ := hli
  have hkv : ((k, d) : String × DIface) ∈ dd := by
    rw [hdd]
    exact List.mem_append.mpr (Or.inr (List.mem_cons_self _ _))
  have hexnd : existing.Nodup :=
    nodup_of_filterMap_nodup (fun i => i.name) existing hw1 hw2
  have hkfresh : k ∉ src.return_data.map (fun e => e.1) := by
    rw [hL6]
    intro hc
    have hnd := hw7
    rw [hdd, List.map_append] at hnd
    exact (List.nodup_append.mp hnd).2.2 hc (by simp)
  have hmacvp := hw6 (k, d) hkv
  have hmac_notname :
      ∀ j ∈ existing, j.name ≠ some (d.mac_address.getD sentinelMac) := by
    intro j hj hjn
    exact (hw3 j hj _ hjn).2.2.2 (k, d) hkv rfl
  have hvp := partitionOf_vp d.dtype
  obtain ⟨msub, hsub, hsound, hcompl⟩ := hbi.2.1 (partitionOf d.dtype) hvp
  have hB3 := hbi.2.2.1
  have hB4 := hbi.2.2.2
  by_cases hcase : k ∈ src.names
  · -- strategy 1: name match
    have hk' : ∃ x ∈ spc.avail, x.name = some k := by
      rw [hL3] at hcase
      obtain ⟨x, hx, hxn⟩ := List.mem_filterMap.mp hcase
      exact ⟨x, hx, hxn⟩
    obtain ⟨i0, hi0av, hi0n⟩ := hk'
    have hdgetk : dget b.current k = some (TopVal.itf i0) :=
      hB3 i0 (hL4.subset hi0av) k hi0n
    have hstep : matchStep b.current src k d = .ok
        ⟨dset (dset src.return_data k none) k (some i0), src.names.erase k,
          src.unmatched⟩ := by
      simp only [matchStep]
      rw [if_pos hcase, hdgetk]
      simp [hi0n, hcase]
    have hfind : spc.avail.find? (fun i => decide (i.name = some k)) = some i0 := by
      have hs : (spc.avail.find? (fun i => decide (i.name = some k))).isSome = true :=
        List.find?_isSome.mpr ⟨i0, hi0av, by simp [hi0n]⟩
      rw [Option.isSome_iff_exists] at hs
      obtain ⟨x, hx⟩ := hs
      have hxmem := List.mem_of_find?_eq_some hx
      have hxp := List.find?_some hx
      simp only [decide_eq_true_eq] at hxp
      have hxi : x = i0 := filterMap_nodup_unique _ existing hw2 x i0 k
        (hL4.subset hxmem) (hL4.subset hi0av) hxp hi0n
      rw [hx, hxi]
    have hspec : specStep spc k d =
        ⟨spc.assigned ++ [(k, some i0)], spc.avail.erase i0, spc.deferred⟩ := by
      simp only [specStep, specPick]
      rw [hfind]
    have hst1 : st1 = ⟨dset (dset src.return_data k none) k (some i0),
        src.names.erase k, src.unmatched⟩ := by
      rw [hstep] at hok
      exact ((Except.ok.injEq _ _).mp hok).symm
    rw [hst1, hspec]
    exact loopInv_claim existing pre k d src spc ⟨hL1, hL2, hL3, hL4, hL5, hL6⟩
      hw1 hw2 hexnd i0 k hi0av hi0n hkfresh
  · -- no name match
    have hfindname :
        spc.avail.find? (fun i => decide (i.name = some k)) = none := by
      rw [List.find?_eq_none]
      intro x hx
      simp only [decide_eq_true_eq]
      intro hxn
      apply hcase
      rw [hL3]
      exact List.mem_filterMap.mpr ⟨x, hx, hxn⟩
    cases hs2 : dget msub (d.mac_address.getD sentinelMac) with
    | some i1 =>
      obtain ⟨hi1ex, hi1mac, hi1part⟩ := hsound _ i1 hs2
      have hi1ns := hw1 i1 hi1ex
      rw [Option.isSome_iff_exists] at hi1ns
      obtain ⟨n1, hn1⟩ := hi1ns
      by_cases hn1in : n1 ∈ src.names
      · have hi1av : i1 ∈ spc.avail := by
          rw [hL3] at hn1in
          obtain ⟨x, hxav, hxn⟩ := List.mem_filterMap.mp hn1in
          have hxi : x = i1 := filterMap_nodup_unique _ existing hw2 x i1 n1
            (hL4.subset hxav) hi1ex hxn hn1
          rwa [hxi] at hxav
        have hstep : matchStep b.current src k d = .ok
            ⟨dset (dset src.return_data k none) k (some i1),
              src.names.erase n1, src.unmatched⟩ := by
          simp only [matchStep]
          rw [if_neg hcase, hsub]
          simp [hs2, hn1, hn1in]
        have hfindmp : spc.avail.find? (fun i =>
            decide (i.mac_address = some (d.mac_address.getD sentinelMac)) &&
            decide (partitionOf i.typef = partitionOf d.dtype)) = some i1 := by
          have hs : (spc.avail.find? (fun i =>
              decide (i.mac_address = some (d.mac_address.getD sentinelMac)) &&
              decide (partitionOf i.typef = partitionOf d.dtype))).isSome = true :=
            List.find?_isSome.mpr ⟨i1, hi1av, by simp [hi1mac, hi1part]⟩
          rw [Option.isSome_iff_exists] at hs
          obtain ⟨x, hx⟩ := hs
          have hxmem := List.mem_of_find?_eq_some hx
          have hxp := List.find?_some hx
          simp only [Bool.and_eq_true, decide_eq_true_eq] at hxp
          have hxi : x = i1 := filterMap_nodup_unique (fun i => i.mac_address)
            existing hw4 x i1 _ (hL4.subset hxmem) hi1ex hxp.1 hi1mac
          rw [hx, hxi]
        have hspec : specStep spc k d =
            ⟨spc.assigned ++ [(k, some i1)], spc.avail.erase i1, spc.deferred⟩ := by
          simp only [specStep, specPick]
          rw [hfindname, hfindmp]
        have hst1 : st1 = ⟨dset (dset src.return_data k none) k (some i1),
            src.names.erase n1, src.unmatched⟩ := by
          rw [hstep] at hok
          exact ((Except.ok.injEq _ _).mp hok).symm
        rw [hst1, hspec]
        exact loopInv_claim existing pre k d src spc
          ⟨hL1, hL2, hL3, hL4, hL5, hL6⟩ hw1 hw2 hexnd i1 n1 hi1av hn1 hkfresh
      · exfalso
        have hstep : matchStep b.current src k d = .error .valueError := by
          simp only [matchStep]
          rw [if_neg hcase, hsub]
          simp [hs2, hn1, hn1in]
        rw [hstep] at hok
        cases hok
    | none =>
      have hfindmp : spc.avail.find? (fun i =>
          decide (i.mac_address = some (d.mac_address.getD sentinelMac)) &&
          decide (partitionOf i.typef = partitionOf d.dtype)) = none := by
        rw [List.find?_eq_none]
        intro x hx
        simp only [Bool.and_eq_true, decide_eq_true_eq, not_and]
        intro hxm hxp
        have := hcompl x (hL4.subset hx) _ hxm hxp
        rw [hs2] at this
        cases this
      obtain ⟨hB4s, hB4c⟩ := hB4 (d.mac_address.getD sentinelMac)
        hmacvp.1 hmacvp.2 hmac_notname
      cases hs3 : dget b.current (d.mac_address.getD sentinelMac) with
      | some tv =>
        obtain ⟨i2, htv, hi2ex, hi2mac⟩ := hB4s tv hs3
        subst htv
        by_cases hclaim : (some i2) ∈
            (dset src.return_data k none).map (fun e => e.2)
        · have hi2notav : i2 ∉ spc.avail := by
            apply (hL5 i2 hi2ex).mp
            rw [dset_fresh _ _ _ hkfresh, List.map_append] at hclaim
            rcases List.mem_append.mp hclaim with h | h
            · exact h
            · simp at h
          have hstep : matchStep b.current src k d = .ok
              ⟨dset src.return_data k none, src.names, src.unmatched ++ [k]⟩ := by
            simp only [matchStep]
            rw [if_neg hcase, hsub]
            simp [hs2, hs3, hclaim]
          have hfindmac : spc.avail.find? (fun i =>
              decide (i.mac_address = some (d.mac_address.getD sentinelMac))) =
              none := by
            rw [List.find?_eq_none]
            intro x hx
            simp only [decide_eq_true_eq]
            intro hxm
            have hxi : x = i2 := filterMap_nodup_unique (fun i => i.mac_address)
              existing hw4 x i2 _ (hL4.subset hx) hi2ex hxm hi2mac
            rw [hxi] at hx
            exact hi2notav hx
          have hspec : specStep spc k d =
              ⟨spc.assigned ++ [(k, none)], spc.avail, spc.deferred ++ [k]⟩ := by
            simp only [specStep, specPick]
            rw [hfindname, hfindmp, hfindmac]
          have hst1 : st1 = ⟨dset src.return_data k none, src.names,
              src.unmatched ++ [k]⟩ := by
            rw [hstep] at hok
            exact ((Except.ok.injEq _ _).mp hok).symm
          rw [hst1, hspec]
          exact loopInv_defer existing pre k d src spc
            ⟨hL1, hL2, hL3, hL4, hL5, hL6⟩ hkfresh
        · have hi2av : i2 ∈ spc.avail := by
            by_contra hc
            apply hclaim
            rw [dset_fresh _ _ _ hkfresh, List.map_append]
            exact List.mem_append.mpr (Or.inl ((hL5 i2 hi2ex).mpr hc))
          have hi2ns := hw1 i2 hi2ex
          rw [Option.isSome_iff_exists] at hi2ns
          obtain ⟨n2, hn2⟩ := hi2ns
          have hn2in : n2 ∈ src.names := by
            rw [hL3]
            exact List.mem_filterMap.mpr ⟨i2, hi2av, hn2⟩
          have hstep : matchStep b.current src k d = .ok
              ⟨dset (dset src.return_data k none) k (some i2),
                src.names.erase n2, src.unmatched⟩ := by
            simp only [matchStep]
            rw [if_neg hcase, hsub]
            simp [hs2, hs3, hclaim, hn2, hn2in]
          have hfindmac : spc.avail.find? (fun i =>
              decide (i.mac_address = some (d.mac_address.getD sentinelMac))) =
              some i2 := by
            have hs : (spc.avail.find? (fun i =>
                decide (i.mac_address =
                  some (d.mac_address.getD sentinelMac)))).isSome = true :=
              List.find?_isSome.mpr ⟨i2, hi2av, by simp [hi2mac]⟩
            rw [Option.isSome_iff_exists] at hs
            obtain ⟨x, hx⟩ := hs
            have hxmem := List.mem_of_find?_eq_some hx
            have hxp := List.find?_some hx
            simp only [decide_eq_true_eq] at hxp
            have hxi : x = i2 := filterMap_nodup_unique (fun i => i.mac_address)
              existing hw4 x i2 _ (hL4.subset hxmem) hi2ex hxp hi2mac
            rw [hx, hxi]
          have hspec : specStep spc k d =
              ⟨spc.assigned ++ [(k, some i2)], spc.avail.erase i2,
                spc.deferred⟩ := by
            simp only [specStep, specPick]
            rw [hfindname, hfindmp, hfindmac]
          have hst1 : st1 = ⟨dset (dset src.return_data k none) k (some i2),
              src.names.erase n2, src.unmatched⟩ := by
            rw [hstep] at hok
            exact ((Except.ok.injEq _ _).mp hok).symm
          rw [hst1, hspec]
          exact loopInv_claim existing pre k d src spc
            ⟨hL1, hL2, hL3, hL4, hL5, hL6⟩ hw1 hw2 hexnd i2 n2 hi2av hn2 hkfresh
      | none =>
        have hstep : matchStep b.current src k d = .ok
            ⟨dset src.return_data k none, src.names, src.unmatched ++ [k]⟩ := by
          simp only [matchStep]
          rw [if_neg hcase, hsub]
          simp [hs2, hs3]
        have hfindmac : spc.avail.find? (fun i =>
            decide (i.mac_address = some (d.mac_address.getD sentinelMac))) =
            none := by
          rw [List.find?_eq_none]
          intro x hx
          simp only [decide_eq_true_eq]
          intro hxm
          have := hB4c x (hL4.subset hx) hxm
          rw [hs3] at this
          cases this
        have hspec : specStep spc k d =
            ⟨spc.assigned ++ [(k, none)], spc.avail, spc.deferred ++ [k]⟩ := by
          simp only [specStep, specPick]
          rw [hfindname, hfindmp, hfindmac]
        have hst1 : st1 = ⟨dset src.return_data k none, src.names,
            src.unmatched ++ [k]⟩ := by
          rw [hstep] at hok
          exact ((Except.ok.injEq _ _).mp hok).symm
        rw [hst1, hspec]
        exact loopInv_defer existing pre k d src spc
          ⟨hL1, hL2, hL3, hL4, hL5, hL6⟩ hkfresh

theorem matchLoop_go (existing : List OIface) (dd : List (String × DIface))
    (hwf : IfWF existing dd) (b : IfMapBuild)
    (hbi : BuildInv existing existing b) :
    ∀ (rem pre : List (String × DIface)) (src : IfMapLoop) (spc : CascadeState)
      (out : IfMapLoop),
      dd = pre ++ rem →
      LoopInv existing pre src spc →
      rem.foldlM (fun st kv => matchStep b.current st kv.1 kv.2) src = .ok out →
      LoopInv existing dd out
        (rem.foldl (fun st kv => specStep st kv.1 kv.2) spc) := by
  intro rem
  induction rem with
  | nil =>
    intro pre src spc out hdd hli hfold
    have hso : src = out := (Except.ok.injEq _ _).mp hfold
    subst hso
    simp only [List.foldl_nil]
    rw [List.append_nil] at hdd
    rw [hdd]
    exact hli
  | cons kv rem' ih =>
    intro pre src spc out hdd hli hfold
    obtain ⟨k, d⟩ := kv
    rw [List.foldlM_cons] at hfold
    have hbeta : matchStep b.current src ((k, d) : String × DIface).1
        ((k, d) : String × DIface).2 = matchStep b.current src k d := rfl
    rw [hbeta] at hfold
    cases hstep : matchStep b.current src k d with
    | error e =>
      rw [hstep, except_error_bind] at hfold
      cases hfold
    | ok st1 =>
      rw [hstep, except_pure_bind] at hfold
      have hli1 := matchStep_equiv existing dd hwf b hbi pre k d rem' hdd src
        spc hli st1 hstep
      rw [List.foldl_cons]
      have hbeta2 : specStep spc ((k, d) : String × DIface).1
          ((k, d) : String × DIface).2 = specStep spc k d := rfl
      rw [hbeta2]
      exact ih (pre ++ [(k, d)]) st1 (specStep spc k d) out
        (by rw [hdd, List.append_assoc]; rfl) hli1 hfold

theorem positional_equiv (existing : List OIface) (b : IfMapBuild)
    (hB3 : ∀ i ∈ existing, ∀ n, i.name = some n →
      dget b.current n = some (TopVal.itf i))
    (hw2 : (existing.filterMap (fun i => i.name)).Nodup) :
    ∀ (pairs : List (String × String)) (rd : List (String × Option OIface)),
      (∀ p ∈ pairs, ∃ i ∈ existing, i.name = some p.2) →
      pairs.foldlM
        (fun rd p =>
          match dget b.current p.2 with
          | some (TopVal.itf i) => Except.ok (dset rd p.1 (some i))
          | _ => Except.error PyErr.typeError) rd =
      .ok (pairs.foldl
        (fun rd p =>
          match existing.find? (fun i => decide (i.name = some p.2)) with
          | some i => dset rd p.1 (some i)
          | none => rd) rd) := by
  intro pairs
  induction pairs with
  | nil => intro rd _; rfl
  | cons p pairs' ih =>
    intro rd hcond
    obtain ⟨i, hiex, hin⟩ := hcond p (List.mem_cons_self p pairs')
    have hdget : dget b.current p.2 = some (TopVal.itf i) := hB3 i hiex p.2 hin
    have hfind : existing.find? (fun x => decide (x.name = some p.2)) = some i := by
      have hs : (existing.find? (fun x => decide (x.name = some p.2))).isSome
          = true := List.find?_isSome.mpr ⟨i, hiex, by simp [hin]⟩
      rw [Option.isSome_iff_exists] at hs
      obtain ⟨x, hx⟩ := hs
      have hxmem := List.mem_of_find?_eq_some hx
      have hxp := List.find?_some hx
      simp only [decide_eq_true_eq] at hxp
      have hxi : x = i :=
        filterMap_nodup_unique _ existing hw2 x i p.2 hxmem hiex hxp hin
      rw [hx, hxi]
    rw [List.foldlM_cons, List.foldl_cons]
    have hred : (match dget b.current p.2 with
        | some (TopVal.itf i) => Except.ok (dset rd p.1 (some i))
        | _ => Except.error PyErr.typeError) =
        Except.ok (dset rd p.1 (some i)) := by
      rw [hdget]
    rw [hred, except_pure_bind]
    have hred2 : (match existing.find? (fun i => decide (i.name = some p.2)) with
        | some i => dset rd p.1 (some i)
        | none => rd) = dset rd p.1 (some i) := by
      rw [hfind]
    rw [hred2]
    exact ih (dset rd p.1 (some i))
      (fun q hq => hcond q (List.mem_cons_of_mem p hq))

theorem mapper_eq_specCascade (existing : List OIface)
    (dd : List (String × DIface)) (hwf : IfWF existing dd)
    (m : List (String × Option OIface))
    (h : map_object_interfaces_to_current_interfaces existing dd = .ok m) :
    m = specCascade existing dd := by
  obtain ⟨b, hb, hbi⟩ := buildCurrent_spec existing dd hwf
  unfold map_object_interfaces_to_current_interfaces at h
  rw [hb, except_bind_ok] at h
  cases hfold : dd.foldlM (fun st kv => matchStep b.current st kv.1 kv.2)
      (⟨[], b.names, []⟩ : IfMapLoop) with
  | error e =>
    rw [hfold, except_bind_error] at h
    cases h
  | ok stf =>
    rw [hfold, except_bind_ok] at h
    have hli0 : LoopInv existing [] ⟨[], b.names, []⟩ ⟨[], existing, []⟩ := by
      refine ⟨rfl, rfl, hbi.1, List.Sublist.refl _, ?_, rfl⟩
      intro i hi
      constructor
      · intro hmem
        simp at hmem
      · intro hnav
        exact absurd hi hnav
    have hlif := matchLoop_go existing dd hwf b hbi dd [] ⟨[], b.names, []⟩
      ⟨[], existing, []⟩ stf rfl hli0 hfold
    obtain ⟨hF1, hF2, hF3, hF4, hF5, hF6⟩ := hlif
    unfold positionalPass at h
    have hcond : ∀ p ∈ (sortStr stf.unmatched).zip (sortStr stf.names),
        ∃ i ∈ existing, i.name = some p.2 := by
      intro p hp
      have hp2 : p.2 ∈ sortStr stf.names := (zip_fst_mem _ _ p hp).2
      have hp3 : p.2 ∈ stf.names :=
        (List.perm_insertionSort strLe stf.names).mem_iff.mp hp2
      rw [hF3] at hp3
      obtain ⟨x, hxav, hxn⟩ := List.mem_filterMap.mp hp3
      exact ⟨x, hF4.subset hxav, hxn⟩
    rw [positional_equiv existing b hbi.2.2.1 hwf.2.1 _ _ hcond] at h
    have hm := (Except.ok.injEq _ _).mp h
    rw [← hm]
    simp only [specCascade]
    rw [hF1, hF2, hF3]

theorem specPick_mem (avail : List OIface) (k : String) (d : DIface)
    (j : OIface) (h : specPick avail k d = some j) : j ∈ avail := by
  simp only [specPick] at h
  cases h1 : avail.find? (fun i => decide (i.name = some k)) with
  | some x =>
    rw [h1] at h
    have h' : some x = some j := h
    have hx : x = j := (Option.some.injEq _ _).mp h'
    rw [← hx]
    exact List.mem_of_find?_eq_some h1
  | none =>
    rw [h1] at h
    cases h2 : avail.find?
        (fun i => decide (i.mac_address = some (d.mac_address.getD sentinelMac))
          && decide (partitionOf i.typef = partitionOf d.dtype)) with
    | some x =>
      rw [h2] at h
      have h' : some x = some j := h
      have hx : x = j := (Option.some.injEq _ _).mp h'
      rw [← hx]
      exact List.mem_of_find?_eq_some h2
    | none =>
      rw [h2] at h
      have h' : avail.find?
          (fun i => decide (i.mac_address =
            some (d.mac_address.getD sentinelMac))) = some j := h
      exact List.mem_of_find?_eq_some h'

theorem specStep_cases (st : CascadeState) (k : String) (d : DIface) :
    (specPick st.avail k d = none ∧
      specStep st k d =
        ⟨st.assigned ++ [(k, none)], st.avail, st.deferred ++ [k]⟩) ∨
    (∃ i, specPick st.avail k d = some i ∧ i ∈ st.avail ∧
      specStep st k d =
        ⟨st.assigned ++ [(k, some i)], st.avail.erase i, st.deferred⟩) := by
  cases hp : specPick st.avail k d with
  | none =>
    left
    refine ⟨rfl, ?_⟩
    simp only [specStep]
    rw [hp]
  | some i =>
    right
    refine ⟨i, rfl, specPick_mem st.avail k d i hp, ?_⟩
    simp only [specStep]
    rw [hp]

theorem specPhase1_keys (dd' : List (String × DIface)) :
    ∀ st : CascadeState,
      ((dd'.foldl (fun st kv => specStep st kv.1 kv.2) st).assigned.map
          (fun e => e.1) =
        st.assigned.map (fun e => e.1) ++ dd'.map (fun e => e.1)) ∧
      (∀ x ∈ (dd'.foldl (fun st kv => specStep st kv.1 kv.2) st).deferred,
        x ∈ st.deferred ∨ x ∈ dd'.map (fun e => e.1)) := by
  induction dd' with
  | nil =>
    intro st
    exact ⟨by simp, fun x hx => Or.inl hx⟩
  | cons kv rest ih =>
    intro st
    obtain ⟨k, d⟩ := kv
    rw [List.foldl_cons]
    have hbeta : specStep st ((k, d) : String × DIface).1
        ((k, d) : String × DIface).2 = specStep st k d := rfl
    rw [hbeta]
    have hsh : (∃ v, (specStep st k d).assigned = st.assigned ++ [(k, v)]) ∧
        ((specStep st k d).deferred = st.deferred ∨
          (specStep st k d).deferred = st.deferred ++ [k]) := by
      rcases specStep_cases st k d with ⟨_, hs⟩ | ⟨i, _, _, hs⟩
      · rw [hs]
        exact ⟨⟨none, rfl⟩, Or.inr rfl⟩
      · rw [hs]
        exact ⟨⟨some i, rfl⟩, Or.inl rfl⟩
    obtain ⟨⟨v, hva⟩, hvd⟩ := hsh
    have h1 := (ih (specStep st k d)).1
    have h2 := (ih (specStep st k d)).2
    constructor
    · rw [h1, hva]
      simp
    · intro x hx
      rcases h2 x hx with hx1 | hx1
      · rcases hvd with hd | hd
        · rw [hd] at hx1
          exact Or.inl hx1
        · rw [hd] at hx1
          rcases List.mem_append.mp hx1 with hx2 | hx2
          · exact Or.inl hx2
          · simp only [List.mem_singleton] at hx2
            subst hx2
            right
            simp
      · right
        simp [hx1]

theorem dset_keys_mem {κ α : Type} [DecidableEq κ] (d : List (κ × α)) (k : κ)
    (v : α) (h : k ∈ d.map (fun e => e.1)) :
    (dset d k v).map (fun e => e.1) = d.map (fun e => e.1) := by
  rw [dset_keys, if_pos ((find_key_isSome_iff d k).mpr h)]

theorem phase2_keys (existing : List OIface) :
    ∀ (pairs : List (String × String)) (rd : List (String × Option OIface)),
      (∀ p ∈ pairs, p.1 ∈ rd.map (fun e => e.1)) →
      ((pairs.foldl
          (fun rd p =>
            match existing.find? (fun i => decide (i.name = some p.2)) with
            | some i => dset rd p.1 (some i)
            | none => rd) rd).map (fun e => e.1)) =
        rd.map (fun e => e.1) := by
  intro pairs
  induction pairs with
  | nil => intro rd _; rfl
  | cons p pairs' ih =>
    intro rd hcond
    have hstep : ∃ rd1,
        (match existing.find? (fun i => decide (i.name = some p.2)) with
          | some i => dset rd p.1 (some i)
          | none => rd) = rd1 ∧
        rd1.map (fun e => e.1) = rd.map (fun e => e.1) := by
      cases hf : existing.find? (fun i => decide (i.name = some p.2)) with
      | some i =>
        exact ⟨dset rd p.1 (some i), rfl,
          dset_keys_mem rd p.1 (some i) (hcond p (List.mem_cons_self p pairs'))⟩
      | none => exact ⟨rd, rfl, rfl⟩
    obtain ⟨rd1, hrd1, hkeys⟩ := hstep
    rw [List.foldl_cons, hrd1, ih rd1 (fun q hq => by
      rw [hkeys]
      exact hcond q (List.mem_cons_of_mem p hq)), hkeys]

theorem specCascade_keys (existing : List OIface)
    (dd : List (String × DIface)) :
    (specCascade existing dd).map (fun e => e.1) = dd.map (fun e => e.1) := by
  simp only [specCascade]
  have h1 := specPhase1_keys dd ⟨[], existing, []⟩
  rw [phase2_keys]
  · rw [h1.1]
    rfl
  · intro p hp
    have hp1 : p.1 ∈
        sortStr (dd.foldl (fun st kv => specStep st kv.1 kv.2)
          ⟨[], existing, []⟩ : CascadeState).deferred :=
      (zip_fst_mem _ _ p hp).1
    have hp2 : p.1 ∈ (dd.foldl (fun st kv => specStep st kv.1 kv.2)
        (⟨[], existing, []⟩ : CascadeState)).deferred :=
      (List.perm_insertionSort strLe _).mem_iff.mp hp1
    rcases h1.2 p.1 hp2 with hd | hd
    · cases hd
    · rw [h1.1]
      simpa using hd

/-- Claim C4 (amended): whenever the reconciler completes without raising on a
well-formed input (existing interfaces all named, names unique, names and MACs
colliding neither with the two partition keys nor with each other nor with the
fallback MAC, discovered keys unique), its result is exactly the cascade the
spec words describe — exact name match first (winning even when the MACs
differ), then MAC match within the physical/virtual partition, then MAC match
ignoring partition, a matched existing interface leaving availability, then
the positional pass pairing the lexicographically sorted leftover discovered
names with the sorted leftover existing names, leftovers beyond the existing
count keeping `none` — and its key set is exactly the discovered dict's key
set.  Unqualified the claim is false: the procedure can raise `ValueError`
instead of returning any mapping (`C4_counterexample`). -/
theorem C4_interface_cascade (existing : List OIface)
    (dd : List (String × DIface)) (m : List (String × Option OIface))
    (hwf : IfWF existing dd)
    (h : map_object_interfaces_to_current_interfaces existing dd = .ok m) :
    m = specCascade existing dd ∧
    m.map (fun e => e.1) = dd.map (fun e => e.1) := by
  have he := mapper_eq_specCascade existing dd hwf m h
  refine ⟨he, ?_⟩
  rw [he]
  exact specCascade_keys existing dd

/-- The literal claim fails: a discovered dict whose first entry takes an
existing interface by name and whose second entry reaches the same interface
through the by-partition MAC index makes the second `remove` of lines 476-478
raise `ValueError`, so no mapping over the discovered keys is returned at
all. -/
theorem C4_counterexample :
    map_object_interfaces_to_current_interfaces [ceC4Iface] ceC4Dd =
      .error .valueError := by decide

theorem C4_witness :
    IfWF [wfIface] wfDd ∧
    map_object_interfaces_to_current_interfaces [wfIface] wfDd =
      .ok [("eth0", some wfIface), ("eth9", none)] ∧
    [("eth0", some wfIface), ("eth9", none)] = specCascade [wfIface] wfDd ∧
    ([("eth0", some wfIface), ("eth9", none)] :
        List (String × Option OIface)).map (fun e => e.1) =
      wfDd.map (fun e => e.1) := by
  have hm : map_object_interfaces_to_current_interfaces [wfIface] wfDd =
      .ok [("eth0", some wfIface), ("eth9", none)] := by decide
  have hc := C4_interface_cascade [wfIface] wfDd
    [("eth0", some wfIface), ("eth9", none)] (by decide) hm
  exact ⟨by decide, hm, hc.1, hc.2⟩

theorem mem_dset {κ α : Type} [DecidableEq κ] (d : List (κ × α)) (k : κ)
    (v : α) (x : κ × α) (h : x ∈ dset d k v) :
    (x.1 ≠ k ∧ x ∈ d) ∨ x = (k, v) := by
  unfold dset at h
  by_cases hf : (d.find? (fun e => decide (e.1 = k))).isSome = true
  · rw [if_pos hf] at h
    obtain ⟨e, he, hx⟩ := List.mem_map.mp h
    by_cases hek : e.1 = k
    · right
      rw [← hx, if_pos hek]
    · left
      rw [← hx, if_neg hek]
      exact ⟨hek, he⟩
  · rw [if_neg hf] at h
    rcases List.mem_append.mp h with hm | hm
    · left
      refine ⟨?_, hm⟩
      intro hc
      apply hf
      exact (find_key_isSome_iff d k).mpr (List.mem_map.mpr ⟨x, hm, hc⟩)
    · right
      exact List.mem_singleton.mp hm

theorem specPhase1_inj (existing : List OIface) (hexnd : existing.Nodup) :
    ∀ (dd' : List (String × DIface)) (st : CascadeState),
      st.avail.Sublist existing →
      (∀ k i, (k, some i) ∈ st.assigned → i ∈ existing ∧ i ∉ st.avail) →
      (∀ k1 k2 i, (k1, some i) ∈ st.assigned → (k2, some i) ∈ st.assigned →
        k1 = k2) →
      ((dd'.foldl (fun st kv => specStep st kv.1 kv.2) st).avail.Sublist
          existing ∧
        (∀ k i, (k, some i) ∈
            (dd'.foldl (fun st kv => specStep st kv.1 kv.2) st).assigned →
          i ∈ existing ∧
            i ∉ (dd'.foldl (fun st kv => specStep st kv.1 kv.2) st).avail) ∧
        (∀ k1 k2 i,
          (k1, some i) ∈
            (dd'.foldl (fun st kv => specStep st kv.1 kv.2) st).assigned →
          (k2, some i) ∈
            (dd'.foldl (fun st kv => specStep st kv.1 kv.2) st).assigned →
          k1 = k2)) := by
  intro dd'
  induction dd' with
  | nil => intro st h1 h2 h3; exact ⟨h1, h2, h3⟩
  | cons kv rest ih =>
    intro st h1 h2 h3
    obtain ⟨k, d⟩ := kv
    rw [List.foldl_cons]
    have hbeta : specStep st ((k, d) : String × DIface).1
        ((k, d) : String × DIface).2 = specStep st k d := rfl
    rw [hbeta]
    rcases specStep_cases st k d with ⟨_, hs⟩ | ⟨i, _, hiav, hs⟩
    · apply ih (specStep st k d)
      · rw [hs]
        exact h1
      · rw [hs]
        intro k0 i0 hmem
        rcases List.mem_append.mp hmem with hm | hm
        · exact h2 k0 i0 hm
        · exfalso
          have hm' := List.mem_singleton.mp hm
          have := congrArg Prod.snd hm'
          cases this
      · rw [hs]
        intro k1 k2 i0 ha hb
        rcases List.mem_append.mp ha with ha1 | ha1 <;>
          rcases List.mem_append.mp hb with hb1 | hb1
        · exact h3 k1 k2 i0 ha1 hb1
        · exact absurd (congrArg Prod.snd (List.mem_singleton.mp hb1))
            (by intro hc; cases hc)
        · exact absurd (congrArg Prod.snd (List.mem_singleton.mp ha1))
            (by intro hc; cases hc)
        · exact absurd (congrArg Prod.snd (List.mem_singleton.mp ha1))
            (by intro hc; cases hc)
    · have havnd : st.avail.Nodup := List.Nodup.sublist h1 hexnd
      apply ih (specStep st k d)
      · rw [hs]
        exact List.Sublist.trans (List.erase_sublist i st.avail) h1
      · rw [hs]
        intro k0 i0 hmem
        rcases List.mem_append.mp hmem with hm | hm
        · refine ⟨(h2 k0 i0 hm).1, ?_⟩
          intro hc
          exact (h2 k0 i0 hm).2 ((List.erase_sublist i st.avail).subset hc)
        · have hm' := List.mem_singleton.mp hm
          have hi0 : i0 = i := (Option.some.injEq _ _).mp (congrArg Prod.snd hm')
          subst hi0
          refine ⟨h1.subset hiav, ?_⟩
          intro hc
          exact ((List.Nodup.mem_erase_iff havnd).mp hc).1 rfl
      · rw [hs]
        intro k1 k2 i0 ha hb
        rcases List.mem_append.mp ha with ha1 | ha1 <;>
          rcases List.mem_append.mp hb with hb1 | hb1
        · exact h3 k1 k2 i0 ha1 hb1
        · have hb' := List.mem_singleton.mp hb1
          have hi0 : i0 = i := (Option.some.injEq _ _).mp (congrArg Prod.snd hb')
          subst hi0
          exact absurd hiav (h2 k1 i0 ha1).2
        · have ha' := List.mem_singleton.mp ha1
          have hi0 : i0 = i := (Option.some.injEq _ _).mp (congrArg Prod.snd ha')
          subst hi0
          exact absurd hiav (h2 k2 i0 hb1).2
        · have hk1 : k1 = k := congrArg Prod.fst (List.mem_singleton.mp ha1)
          have hk2 : k2 = k := congrArg Prod.fst (List.mem_singleton.mp hb1)
          rw [hk1, hk2]

theorem positional_inj (existing : List OIface) :
    ∀ (rem : List (String × String)) (rd : List (String × Option OIface)),
      (rem.map (fun p => p.2)).Nodup →
      (∀ p ∈ rem, ∃ x ∈ existing, x.name = some p.2) →
      (∀ p ∈ rem, p.1 ∈ rd.map (fun e => e.1)) →
      (∀ k i, (k, some i) ∈ rd → ∀ p ∈ rem, i.name ≠ some p.2) →
      (∀ k1 k2 i, (k1, some i) ∈ rd → (k2, some i) ∈ rd → k1 = k2) →
      ∀ k1 k2 i,
        (k1, some i) ∈ rem.foldl
          (fun rd p =>
            match existing.find? (fun i => decide (i.name = some p.2)) with
            | some i => dset rd p.1 (some i)
            | none => rd) rd →
        (k2, some i) ∈ rem.foldl
          (fun rd p =>
            match existing.find? (fun i => decide (i.name = some p.2)) with
            | some i => dset rd p.1 (some i)
            | none => rd) rd →
        k1 = k2 := by
  intro rem
  induction rem with
  | nil =>
    intro rd _ _ _ _ hinj k1 k2 i h1 h2
    exact hinj k1 k2 i h1 h2
  | cons p rem' ih =>
    intro rd hnd hcond hkeys hfresh hinj k1 k2 i h1 h2
    obtain ⟨x, hxex, hxn⟩ := hcond p (List.mem_cons_self p rem')
    have hfs : (existing.find? (fun i => decide (i.name = some p.2))).isSome
        = true := List.find?_isSome.mpr ⟨x, hxex, by simp [hxn]⟩
    rw [Option.isSome_iff_exists] at hfs
    obtain ⟨ip, hf⟩ := hfs
    have hipn : ip.name = some p.2 := by
      have := List.find?_some hf
      simpa using this
    have hrd1 : (match existing.find? (fun i => decide (i.name = some p.2)) with
        | some i => dset rd p.1 (some i)
        | none => rd) = dset rd p.1 (some ip) := by
      rw [hf]
    rw [List.foldl_cons, hrd1] at h1 h2
    have hndt := List.nodup_cons.mp hnd
    apply ih (dset rd p.1 (some ip)) hndt.2
      (fun q hq => hcond q (List.mem_cons_of_mem p hq))
      (fun q hq => by
        rw [dset_keys_mem rd p.1 (some ip)
          (hkeys p (List.mem_cons_self p rem'))]
        exact hkeys q (List.mem_cons_of_mem p hq))
      ?_ ?_ k1 k2 i h1 h2
    · intro k0 i0 hmem q hq hname
      rcases mem_dset rd p.1 (some ip) (k0, some i0) hmem with ⟨_, hold⟩ | heq
      · exact hfresh k0 i0 hold q (List.mem_cons_of_mem p hq) hname
      · have hi0 : i0 = ip :=
          (Option.some.injEq _ _).mp (congrArg Prod.snd heq)
        rw [hi0, hipn] at hname
        have hp2 : p.2 = q.2 := (Option.some.injEq _ _).mp hname
        apply hndt.1
        show p.2 ∈ List.map (fun p => p.2) rem'
        rw [hp2]
        exact List.mem_map.mpr ⟨q, hq, rfl⟩
    · intro j1 j2 i0 hm1 hm2
      rcases mem_dset rd p.1 (some ip) (j1, some i0) hm1 with ⟨_, ho1⟩ | he1 <;>
        rcases mem_dset rd p.1 (some ip) (j2, some i0) hm2 with ⟨_, ho2⟩ | he2
      · exact hinj j1 j2 i0 ho1 ho2
      · have hi0 : i0 = ip :=
          (Option.some.injEq _ _).mp (congrArg Prod.snd he2)
        exfalso
        rw [hi0] at ho1
        exact hfresh j1 ip ho1 p (List.mem_cons_self p rem') hipn
      · have hi0 : i0 = ip :=
          (Option.some.injEq _ _).mp (congrArg Prod.snd he1)
        exfalso
        rw [hi0] at ho2
        exact hfresh j2 ip ho2 p (List.mem_cons_self p rem') hipn
      · have hj1 : j1 = p.1 := congrArg Prod.fst he1
        have hj2 : j2 = p.1 := congrArg Prod.fst he2
        rw [hj1, hj2]

theorem specCascade_inj (existing : List OIface) (dd : List (String × DIface))
    (hwf : IfWF existing dd) :
    ∀ k1 k2 i, (k1, some i) ∈ specCascade existing dd →
      (k2, some i) ∈ specCascade existing dd → k1 = k2 := by
  have hexnd : existing.Nodup :=
    nodup_of_filterMap_nodup (fun i => i.name) existing hwf.1 hwf.2.1
  have hp1 := specPhase1_inj existing hexnd dd ⟨[], existing, []⟩
    (List.Sublist.refl _) (fun k i hm => absurd hm (List.not_mem_nil _))
    (fun k1 k2 i hm _ => absurd hm (List.not_mem_nil _))
  have hpk := specPhase1_keys dd ⟨[], existing, []⟩
  obtain ⟨hA, hB, hC⟩ := hp1
  simp only [specCascade]
  intro k1 k2 i h1 h2
  have havnd : ((dd.foldl (fun st kv => specStep st kv.1 kv.2)
      (⟨[], existing, []⟩ : CascadeState)).avail.filterMap
        (fun i => i.name)).Nodup :=
    List.Nodup.sublist (hA.filterMap (fun i => i.name)) hwf.2.1
  refine positional_inj existing _ _ ?_ ?_ ?_ ?_ hC k1 k2 i h1 h2
  · exact List.Nodup.sublist (zip_snd_sublist _ _)
      ((List.perm_insertionSort strLe _).nodup_iff.mpr havnd)
  · intro p hp
    have hp2 := (zip_fst_mem _ _ p hp).2
    have hp3 := (List.perm_insertionSort strLe _).mem_iff.mp hp2
    obtain ⟨x, hxav, hxn⟩ := List.mem_filterMap.mp hp3
    exact ⟨x, hA.subset hxav, hxn⟩
  · intro p hp
    have hp2 := (zip_fst_mem _ _ p hp).1
    have hp3 := (List.perm_insertionSort strLe _).mem_iff.mp hp2
    rcases hpk.2 p.1 hp3 with hd | hd
    · exact absurd hd (List.not_mem_nil _)
    · rw [hpk.1]
      exact List.mem_append.mpr (Or.inr hd)
  · intro k i hm p hp hname
    have hia := hB k i hm
    have hp2 := (zip_fst_mem _ _ p hp).2
    have hp3 := (List.perm_insertionSort strLe _).mem_iff.mp hp2
    obtain ⟨x, hxav, hxn⟩ := List.mem_filterMap.mp hp3
    have hix : i = x :=
      filterMap_nodup_unique (fun i => i.name) existing hwf.2.1 i x p.2
        hia.1 (hA.subset hxav) hname hxn
    rw [hix] at hia
    exact hia.2 hxav

/-- Claim C5 (amended): on a well-formed input (existing interfaces all named,
names unique and colliding neither with the partition keys nor with any MAC,
stored MACs unique, discovered keys unique), whenever
`map_object_interfaces_to_current_interfaces` returns a mapping, no existing
interface record is assigned to two different discovered keys: any two entries
holding the same existing record have the same key.  Without the
well-formedness qualification the claim is false: duplicate existing interface
names make the name dict shadow one holder while the availability list still
carries both entries, and one record is then handed out twice
(`C5_counterexample`). -/
theorem C5_no_interface_reuse (existing : List OIface)
    (dd : List (String × DIface)) (m : List (String × Option OIface))
    (hwf : IfWF existing dd)
    (h : map_object_interfaces_to_current_interfaces existing dd = .ok m) :
    ∀ k1 k2 i, (k1, some i) ∈ m → (k2, some i) ∈ m → k1 = k2 := by
  have he := mapper_eq_specCascade existing dd hwf m h
  rw [he]
  exact specCascade_inj existing dd hwf

/-- The literal claim fails: with two existing interfaces both named `eth0`,
the discovered key `eth0` takes the later one through the name dict while the
earlier one stays in the name list, and the positional pass then hands the
same record to `zzz` — two distinct returned keys holding one existing
record. -/
theorem C5_counterexample :
    map_object_interfaces_to_current_interfaces [ceC5IfaceA, ceC5IfaceB]
        ceC5Dd =
      .ok [("eth0", some ceC5IfaceB), ("zzz", some ceC5IfaceB)] ∧
    ("eth0" : String) ≠ "zzz" := by
  exact ⟨by decide, by decide⟩

theorem C5_witness :
    IfWF [wfIfaceP1, wfIfaceP2] wfDdP ∧
    map_object_interfaces_to_current_interfaces [wfIfaceP1, wfIfaceP2] wfDdP =
      .ok [("eth1", some wfIfaceP1), ("eth0", some wfIfaceP2)] ∧
    ∀ k1 k2 i,
      (k1, some i) ∈ [("eth1", some wfIfaceP1), ("eth0", some wfIfaceP2)] →
      (k2, some i) ∈ [("eth1", some wfIfaceP1), ("eth0", some wfIfaceP2)] →
      k1 = k2 := by
  have hm : map_object_interfaces_to_current_interfaces [wfIfaceP1, wfIfaceP2]
      wfDdP = .ok [("eth1", some wfIfaceP1), ("eth0", some wfIfaceP2)] := by
    decide
  exact ⟨by decide, hm,
    C5_no_interface_reuse [wfIfaceP1, wfIfaceP2] wfDdP _ (by decide) hm⟩

/-- Claim C8: the data dict handed to the device create/update never contains
the keys `serial`, `asset_tag` or `platform` — its key set is exactly the six
keys of lines 639-652 — even when a serial number was successfully extracted
from the host's identifiers (lines 601-607): the three conditional additions
at lines 654-660 are annotation statements, not assignments, and leave
`host_data` unchanged. -/
theorem C8_annotation_statements_add_no_keys (cfg : Config) (obj : HostObj)
    (s : String)
    (hser : findSerial (buildIdentifierDict obj.identifiers) = some s) :
    (hostDataFor cfg obj).map (fun e => e.1) =
      ["name", "device_role", "device_type", "site", "cluster", "status"] ∧
    dget (hostDataFor cfg obj) "serial" = none ∧
    dget (hostDataFor cfg obj) "asset_tag" = none ∧
    dget (hostDataFor cfg obj) "platform" = none := by
  exact ⟨rfl, rfl, rfl, rfl⟩

theorem C8_witness :
    findSerial (buildIdentifierDict hostW.identifiers) = some "SN-123" ∧
    ((hostDataFor CFG0 hostW).map (fun e => e.1) =
        ["name", "device_role", "device_type", "site", "cluster", "status"] ∧
      dget (hostDataFor CFG0 hostW) "serial" = none ∧
      dget (hostDataFor CFG0 hostW) "asset_tag" = none ∧
      dget (hostDataFor CFG0 hostW) "platform" = none) := by
  have hser : findSerial (buildIdentifierDict hostW.identifiers) =
      some "SN-123" := by decide
  exact ⟨hser, C8_annotation_statements_add_no_keys CFG0 hostW "SN-123" hser⟩

theorem recordEvents_append (l1 l2 : List Event) :
    recordEvents (l1 ++ l2) = recordEvents l1 ++ recordEvents l2 := by
  simp [recordEvents, List.filter_append]

theorem queryEvents_append (l1 l2 : List Event) :
    queryEvents (l1 ++ l2) = queryEvents l1 ++ queryEvents l2 := by
  simp [queryEvents, List.filter_append]

/-- Claim C3: (first conjunct) during the first VM pass an offline VM is
skipped entirely — the call returns without error, neither processed list
changes, and no record event and no resolver query is emitted; (second
conjunct) on the second pass (`parsing_vms_the_first_time = false`) the same
still-offline VM, when its gates pass (fresh UUID, filter, cluster present,
fresh name), is carried through the resolution chain: both processed lists
gain its identifiers, the VM record events gain exactly the VM's UUID as a
new key, and exactly one record event — a create or an update — is
emitted. -/
theorem C3_offline_vm_two_pass :
    (∀ (inv : Inventory) (cfg : Config) (st : SyncState) (obj : VMObj),
      st.parsing_vms_the_first_time = true →
      vmStatusOf obj = "offline" →
      ∃ st', add_virtual_machine inv cfg st obj = .ok st' ∧
        st'.processed_vm_uuid = st.processed_vm_uuid ∧
        st'.processed_vm_names = st.processed_vm_names ∧
        recordEvents st'.events = recordEvents st.events ∧
        queryEvents st'.events = queryEvents st.events) ∧
    (∀ (inv : Inventory) (cfg : Config) (st : SyncState) (obj : VMObj)
      (u : String) (c : String) (st' : SyncState),
      st.parsing_vms_the_first_time = false →
      obj.uuid = some u →
      u ∉ st.processed_vm_uuid →
      passes_filter (get_string_or_none obj.name) cfg.vm_include_filter
        cfg.vm_exclude_filter = true →
      get_string_or_none obj.clusterName = some c →
      get_string_or_none obj.name ∉ st.processed_vm_names →
      add_virtual_machine inv cfg st obj = .ok st' →
      st'.processed_vm_uuid = st.processed_vm_uuid ++ [u] ∧
      st'.processed_vm_names = st.processed_vm_names ++
        [get_string_or_none obj.name] ∧
      st'.events.filterMap vmUuidOf = st.events.filterMap vmUuidOf ++ [u] ∧
      (recordEvents st'.events).length =
        (recordEvents st.events).length + 1) := by
  constructor
  · intro inv cfg st obj hfirst hoff
    simp only [add_virtual_machine]
    cases huuid : obj.uuid with
    | none => exact ⟨st, rfl, rfl, rfl, rfl, rfl⟩
    | some u =>
      simp only []
      by_cases hmem : u ∈ st.processed_vm_uuid
      · rw [if_pos hmem]
        exact ⟨st, rfl, rfl, rfl, rfl, rfl⟩
      · rw [if_neg hmem, if_pos ⟨hfirst, hoff⟩]
        refine ⟨_, rfl, rfl, rfl, ?_, ?_⟩
        · simp [recordEvents, List.filter_append, isRecordEvent]
        · simp [queryEvents, List.filter_append, isQueryEvent]
  · intro inv cfg st obj u c st' hfirst huuid hfresh hfilter hclu hname h
    simp only [add_virtual_machine, huuid, hclu] at h
    rw [if_neg hfresh] at h
    rw [if_neg (fun hc => by rw [hfirst] at hc; exact Bool.noConfusion hc.1)] at h
    rw [if_neg (by rw [hfilter]; exact fun hc => Bool.noConfusion hc)] at h
    rw [if_neg hname] at h
    split at h
    · rw [Except.ok.injEq] at h
      subst h
      refine ⟨rfl, rfl, ?_, ?_⟩ <;>
        simp [recordEvents, List.filterMap_append, List.filter_append,
          isRecordEvent, vmUuidOf]
    · cases hr2 : get_object_based_on_macs inv NBType.NBVMs obj.nicMacs with
      | error e =>
        rw [hr2, except_bind_error] at h
        cases h
      | ok r2 =>
        rw [hr2, except_bind_ok] at h
        cases r2 with
        | some vmo =>
          simp only [] at h
          rw [Except.ok.injEq] at h
          subst h
          refine ⟨rfl, rfl, ?_, ?_⟩ <;>
        simp [recordEvents, List.filterMap_append, List.filter_append,
          isRecordEvent, vmUuidOf]
        | none =>
          simp only [] at h
          cases hr3 : get_object_based_on_primary_ip inv NBType.NBVMs
              obj.vmPrimaryIp4 obj.vmPrimaryIp6 with
          | error e =>
            rw [hr3, except_bind_error] at h
            cases h
          | ok r3 =>
            rw [hr3, except_bind_ok] at h
            cases r3 with
            | some vmo =>
              simp only [] at h
              rw [Except.ok.injEq] at h
              subst h
              refine ⟨rfl, rfl, ?_, ?_⟩ <;>
        simp [recordEvents, List.filterMap_append, List.filter_append,
          isRecordEvent, vmUuidOf]
            | none =>
              simp only [] at h
              rw [Except.ok.injEq] at h
              subst h
              refine ⟨rfl, rfl, ?_, ?_⟩ <;>
        simp [recordEvents, List.filterMap_append, List.filter_append,
          isRecordEvent, vmUuidOf]

theorem C3_witness :
    (initialState.parsing_vms_the_first_time = true ∧
      vmStatusOf vmOff = "offline" ∧
      (∃ st', add_virtual_machine INV0 CFG0 initialState vmOff = .ok st' ∧
        st'.processed_vm_uuid = initialState.processed_vm_uuid ∧
        st'.processed_vm_names = initialState.processed_vm_names ∧
        recordEvents st'.events = recordEvents initialState.events ∧
        queryEvents st'.events = queryEvents initialState.events)) ∧
    (stC3.parsing_vms_the_first_time = false ∧
      vmStatusOf vmOff = "offline" ∧
      vmOff.uuid = some "uuid-1" ∧
      add_virtual_machine INV0 CFG0 stC3 vmOff = .ok stC3done ∧
      (stC3done.processed_vm_uuid = stC3.processed_vm_uuid ++ ["uuid-1"] ∧
        stC3done.processed_vm_names = stC3.processed_vm_names ++
          [get_string_or_none vmOff.name] ∧
        stC3done.events.filterMap vmUuidOf =
          stC3.events.filterMap vmUuidOf ++ ["uuid-1"] ∧
        (recordEvents stC3done.events).length =
          (recordEvents stC3.events).length + 1)) := by
  have hok : add_virtual_machine INV0 CFG0 stC3 vmOff = .ok stC3done := by rfl
  exact ⟨⟨rfl, by decide,
      C3_offline_vm_two_pass.1 INV0 CFG0 initialState vmOff rfl (by decide)⟩,
    rfl, by decide, rfl, hok,
    C3_offline_vm_two_pass.2 INV0 CFG0 stC3 vmOff "uuid-1" "cl1" stC3done rfl
      rfl (by decide) (by decide) (by decide) (by decide) hok⟩

theorem hostKeyOf_createdDevice_data (cfg : Config) (obj : HostObj) :
    hostKeyOf (Event.createdDevice (hostDataFor cfg obj)) =
      some (get_string_or_none obj.name) := by
  cases hn : get_string_or_none obj.name with
  | none =>
    simp only [hostKeyOf, hostDataFor, hn]
    rfl
  | some s =>
    simp only [hostKeyOf, hostDataFor, hn]
    rfl

theorem hostKeyOf_updatedDevice_data (cfg : Config) (obj : HostObj)
    (rid : Nat) :
    hostKeyOf (Event.updatedDevice rid (hostDataFor cfg obj)) =
      some (get_string_or_none obj.name) := by
  cases hn : get_string_or_none obj.name with
  | none =>
    simp only [hostKeyOf, hostDataFor, hn]
    rfl
  | some s =>
    simp only [hostKeyOf, hostDataFor, hn]
    rfl

theorem vmNameOf_createdVM_data (cfg : Config) (obj : VMObj) (u : String)
    (cl : String) :
    vmNameOf (Event.createdVM u (vmDataFor cfg obj cl)) =
      some (get_string_or_none obj.name) := by
  cases hn : get_string_or_none obj.name with
  | none =>
    simp only [vmNameOf, vmDataFor, hn]
    rfl
  | some s =>
    simp only [vmNameOf, vmDataFor, hn]
    rfl

theorem vmNameOf_updatedVM_data (cfg : Config) (obj : VMObj) (rid : Nat)
    (u : String) (cl : String) :
    vmNameOf (Event.updatedVM rid u (vmDataFor cfg obj cl)) =
      some (get_string_or_none obj.name) := by
  cases hn : get_string_or_none obj.name with
  | none =>
    simp only [vmNameOf, vmDataFor, hn]
    rfl
  | some s =>
    simp only [vmNameOf, vmDataFor, hn]
    rfl

theorem add_host_resolution (inv : Inventory) (cfg : Config) (st : SyncState)
    (obj : HostObj) (st' : SyncState)
    (hdup : get_string_or_none obj.name ∉ st.processed_host_names)
    (hfil : passes_filter (get_string_or_none obj.name) cfg.host_include_filter
      cfg.host_exclude_filter = true)
    (h : add_host inv cfg st obj = .ok st') :
    st'.processed_host_names =
      st.processed_host_names ++ [get_string_or_none obj.name] ∧
    st'.processed_vm_uuid = st.processed_vm_uuid ∧
    st'.processed_vm_names = st.processed_vm_names ∧
    ((∃ r, inv.get_by_data_dev (hostDataFor cfg obj) = some r ∧
        st'.events = st.events ++ [Event.logDebug, Event.logDebug,
          Event.updatedDevice r.rid (hostDataFor cfg obj)]) ∨
     (∃ r, inv.get_by_data_dev (hostDataFor cfg obj) = none ∧
        get_object_based_on_macs inv NBType.NBDevices obj.pnicMacs =
          .ok (some r) ∧
        st'.events = st.events ++ [Event.logDebug, Event.queriedHostByMacs,
          Event.updatedDevice r.rid (hostDataFor cfg obj)]) ∨
     (∃ r, inv.get_by_data_dev (hostDataFor cfg obj) = none ∧
        get_object_based_on_macs inv NBType.NBDevices obj.pnicMacs =
          .ok none ∧
        get_object_based_on_primary_ip inv NBType.NBDevices obj.hostPrimaryIp4
          obj.hostPrimaryIp6 = .ok (some r) ∧
        st'.events = st.events ++ [Event.logDebug, Event.queriedHostByMacs,
          Event.queriedHostByIp,
          Event.updatedDevice r.rid (hostDataFor cfg obj)]) ∨
     (inv.get_by_data_dev (hostDataFor cfg obj) = none ∧
        get_object_based_on_macs inv NBType.NBDevices obj.pnicMacs =
          .ok none ∧
        get_object_based_on_primary_ip inv NBType.NBDevices obj.hostPrimaryIp4
          obj.hostPrimaryIp6 = .ok none ∧
        st'.events = st.events ++ [Event.logDebug, Event.queriedHostByMacs,
          Event.queriedHostByIp,
          Event.createdDevice (hostDataFor cfg obj)])) := by
  simp only [add_host] at h
  rw [if_neg hdup] at h
  rw [if_neg (by rw [hfil]; exact fun hc => Bool.noConfusion hc)] at h
  by_cases hsa : hostClusterRaw obj = get_string_or_none obj.name
  · rw [if_pos hsa] at h
    cases hr1 : inv.get_by_data_dev (hostDataFor cfg obj) with
    | some r =>
      simp only [hr1] at h
      rw [Except.ok.injEq] at h
      subst h
      exact ⟨rfl, rfl, rfl, Or.inl ⟨r, rfl, by simp⟩⟩
    | none =>
      simp only [hr1] at h
      cases hr2 : get_object_based_on_macs inv NBType.NBDevices obj.pnicMacs with
      | error e =>
        rw [hr2, except_bind_error] at h
        cases h
      | ok r2 =>
        rw [hr2, except_bind_ok] at h
        cases r2 with
        | some r =>
          simp only [] at h
          rw [Except.ok.injEq] at h
          subst h
          exact ⟨rfl, rfl, rfl, Or.inr (Or.inl ⟨r, rfl, rfl, by simp⟩)⟩
        | none =>
          simp only [] at h
          cases hr3 : get_object_based_on_primary_ip inv NBType.NBDevices
              obj.hostPrimaryIp4 obj.hostPrimaryIp6 with
          | error e =>
            rw [hr3, except_bind_error] at h
            cases h
          | ok r3 =>
            rw [hr3, except_bind_ok] at h
            cases r3 with
            | some r =>
              simp only [] at h
              rw [Except.ok.injEq] at h
              subst h
              exact ⟨rfl, rfl, rfl,
                Or.inr (Or.inr (Or.inl ⟨r, rfl, rfl, rfl, by simp⟩))⟩
            | none =>
              simp only [] at h
              rw [Except.ok.injEq] at h
              subst h
              exact ⟨rfl, rfl, rfl,
                Or.inr (Or.inr (Or.inr ⟨rfl, rfl, rfl, by simp⟩))⟩
  · rw [if_neg hsa] at h
    cases hr1 : inv.get_by_data_dev (hostDataFor cfg obj) with
    | some r =>
      simp only [hr1] at h
      rw [Except.ok.injEq] at h
      subst h
      exact ⟨rfl, rfl, rfl, Or.inl ⟨r, rfl, by simp⟩⟩
    | none =>
      simp only [hr1] at h
      cases hr2 : get_object_based_on_macs inv NBType.NBDevices obj.pnicMacs with
      | error e =>
        rw [hr2, except_bind_error] at h
        cases h
      | ok r2 =>
        rw [hr2, except_bind_ok] at h
        cases r2 with
        | some r =>
          simp only [] at h
          rw [Except.ok.injEq] at h
          subst h
          exact ⟨rfl, rfl, rfl, Or.inr (Or.inl ⟨r, rfl, rfl, by simp⟩)⟩
        | none =>
          simp only [] at h
          cases hr3 : get_object_based_on_primary_ip inv NBType.NBDevices
              obj.hostPrimaryIp4 obj.hostPrimaryIp6 with
          | error e =>
            rw [hr3, except_bind_error] at h
            cases h
          | ok r3 =>
            rw [hr3, except_bind_ok] at h
            cases r3 with
            | some r =>
              simp only [] at h
              rw [Except.ok.injEq] at h
              subst h
              exact ⟨rfl, rfl, rfl,
                Or.inr (Or.inr (Or.inl ⟨r, rfl, rfl, rfl, by simp⟩))⟩
            | none =>
              simp only [] at h
              rw [Except.ok.injEq] at h
              subst h
              exact ⟨rfl, rfl, rfl,
                Or.inr (Or.inr (Or.inr ⟨rfl, rfl, rfl, by simp⟩))⟩

theorem add_vm_resolution (inv : Inventory) (cfg : Config) (st : SyncState)
    (obj : VMObj) (st' : SyncState) (u c : String)
    (huuid : obj.uuid = some u)
    (hfresh : u ∉ st.processed_vm_uuid)
    (hskip : ¬(st.parsing_vms_the_first_time = true ∧
      vmStatusOf obj = "offline"))
    (hfil : passes_filter (get_string_or_none obj.name) cfg.vm_include_filter
      cfg.vm_exclude_filter = true)
    (hclu : get_string_or_none obj.clusterName = some c)
    (hname : get_string_or_none obj.name ∉ st.processed_vm_names)
    (h : add_virtual_machine inv cfg st obj = .ok st') :
    st'.processed_host_names = st.processed_host_names ∧
    st'.processed_vm_uuid = st.processed_vm_uuid ++ [u] ∧
    st'.processed_vm_names =
      st.processed_vm_names ++ [get_string_or_none obj.name] ∧
    ((∃ r, inv.get_by_data_vm (vmDataFor cfg obj (vmClusterOf st c)) =
        some r ∧
      st'.events = st.events ++ [Event.logDebug, Event.logDebug,
        Event.updatedVM r.rid u (vmDataFor cfg obj (vmClusterOf st c))]) ∨
     (∃ r, inv.get_by_data_vm (vmDataFor cfg obj (vmClusterOf st c)) = none ∧
      get_object_based_on_macs inv NBType.NBVMs obj.nicMacs = .ok (some r) ∧
      st'.events = st.events ++ [Event.logDebug, Event.queriedVMByMacs,
        Event.updatedVM r.rid u (vmDataFor cfg obj (vmClusterOf st c))]) ∨
     (∃ r, inv.get_by_data_vm (vmDataFor cfg obj (vmClusterOf st c)) = none ∧
      get_object_based_on_macs inv NBType.NBVMs obj.nicMacs = .ok none ∧
      get_object_based_on_primary_ip inv NBType.NBVMs obj.vmPrimaryIp4
        obj.vmPrimaryIp6 = .ok (some r) ∧
      st'.events = st.events ++ [Event.logDebug, Event.queriedVMByMacs,
        Event.queriedVMByIp,
        Event.updatedVM r.rid u (vmDataFor cfg obj (vmClusterOf st c))]) ∨
     (inv.get_by_data_vm (vmDataFor cfg obj (vmClusterOf st c)) = none ∧
      get_object_based_on_macs inv NBType.NBVMs obj.nicMacs = .ok none ∧
      get_object_based_on_primary_ip inv NBType.NBVMs obj.vmPrimaryIp4
        obj.vmPrimaryIp6 = .ok none ∧
      st'.events = st.events ++ [Event.logDebug, Event.queriedVMByMacs,
        Event.queriedVMByIp,
        Event.createdVM u (vmDataFor cfg obj (vmClusterOf st c))])) := by
  simp only [add_virtual_machine, huuid, hclu] at h
  rw [if_neg hfresh] at h
  rw [if_neg hskip] at h
  rw [if_neg (by rw [hfil]; exact fun hc => Bool.noConfusion hc)] at h
  rw [if_neg hname] at h
  have hcl : vmClusterOf { st with
      processed_vm_uuid := st.processed_vm_uuid ++ [u],
      processed_vm_names := st.processed_vm_names ++
        [get_string_or_none obj.name],
      events := st.events ++ [Event.logDebug] } c = vmClusterOf st c := by
    simp [vmClusterOf]
  rw [hcl] at h
  cases hr1 : inv.get_by_data_vm (vmDataFor cfg obj (vmClusterOf st c)) with
  | some r =>
    simp only [hr1] at h
    rw [Except.ok.injEq] at h
    subst h
    exact ⟨rfl, rfl, rfl, Or.inl ⟨r, rfl, by simp⟩⟩
  | none =>
    simp only [hr1] at h
    cases hr2 : get_object_based_on_macs inv NBType.NBVMs obj.nicMacs with
    | error e =>
      rw [hr2, except_bind_error] at h
      cases h
    | ok r2 =>
      rw [hr2, except_bind_ok] at h
      cases r2 with
      | some r =>
        simp only [] at h
        rw [Except.ok.injEq] at h
        subst h
        exact ⟨rfl, rfl, rfl, Or.inr (Or.inl ⟨r, rfl, rfl, by simp⟩)⟩
      | none =>
        simp only [] at h
        cases hr3 : get_object_based_on_primary_ip inv NBType.NBVMs
            obj.vmPrimaryIp4 obj.vmPrimaryIp6 with
        | error e =>
          rw [hr3, except_bind_error] at h
          cases h
        | ok r3 =>
          rw [hr3, except_bind_ok] at h
          cases r3 with
          | some r =>
            simp only [] at h
            rw [Except.ok.injEq] at h
            subst h
            exact ⟨rfl, rfl, rfl,
              Or.inr (Or.inr (Or.inl ⟨r, rfl, rfl, rfl, by simp⟩))⟩
          | none =>
            simp only [] at h
            rw [Except.ok.injEq] at h
            subst h
            exact ⟨rfl, rfl, rfl,
              Or.inr (Or.inr (Or.inr ⟨rfl, rfl, rfl, by simp⟩))⟩

theorem add_host_shape (inv : Inventory) (cfg : Config) (st : SyncState)
    (obj : HostObj) (st' : SyncState)
    (h : add_host inv cfg st obj = .ok st') :
    st'.processed_vm_uuid = st.processed_vm_uuid ∧
    st'.processed_vm_names = st.processed_vm_names ∧
    st'.events.filterMap vmUuidOf = st.events.filterMap vmUuidOf ∧
    st'.events.filterMap vmNameOf = st.events.filterMap vmNameOf ∧
    ((st'.events.filterMap hostKeyOf = st.events.filterMap hostKeyOf ∧
      (st'.processed_host_names = st.processed_host_names ∨
        st'.processed_host_names =
          st.processed_host_names ++ [get_string_or_none obj.name])) ∨
     (get_string_or_none obj.name ∉ st.processed_host_names ∧
      st'.events.filterMap hostKeyOf =
        st.events.filterMap hostKeyOf ++ [get_string_or_none obj.name] ∧
      st'.processed_host_names =
        st.processed_host_names ++ [get_string_or_none obj.name])) := by
  by_cases hdup : get_string_or_none obj.name ∈ st.processed_host_names
  · simp only [add_host] at h
    rw [if_pos hdup] at h
    rw [Except.ok.injEq] at h
    subst h
    refine ⟨rfl, rfl, ?_, ?_, Or.inl ⟨?_, Or.inl rfl⟩⟩ <;>
      simp [List.filterMap_append, vmUuidOf, vmNameOf, hostKeyOf]
  · by_cases hfil : passes_filter (get_string_or_none obj.name)
        cfg.host_include_filter cfg.host_exclude_filter = false
    · simp only [add_host] at h
      rw [if_neg hdup, if_pos hfil] at h
      rw [Except.ok.injEq] at h
      subst h
      refine ⟨rfl, rfl, ?_, ?_, Or.inl ⟨?_, Or.inr rfl⟩⟩ <;>
        simp [List.filterMap_append, vmUuidOf, vmNameOf, hostKeyOf]
    · have hfil' : passes_filter (get_string_or_none obj.name)
          cfg.host_include_filter cfg.host_exclude_filter = true := by
        cases hb : passes_filter (get_string_or_none obj.name)
            cfg.host_include_filter cfg.host_exclude_filter with
        | false => exact absurd hb hfil
        | true => rfl
      obtain ⟨hp, hu, hn2, hcase⟩ :=
        add_host_resolution inv cfg st obj st' hdup hfil' h
      refine ⟨hu, hn2, ?_, ?_, Or.inr ⟨hdup, ?_, hp⟩⟩ <;>
        cases hn : get_string_or_none obj.name <;>
        rcases hcase with ⟨r, _, he⟩ | ⟨r, _, _, he⟩ | ⟨r, _, _, _, he⟩ |
          ⟨_, _, _, he⟩ <;>
        rw [he] <;>
        simp [List.filterMap_append, List.filterMap_cons, vmUuidOf, vmNameOf,
          hostKeyOf, hostDataFor, dget, ostr, hn]

theorem add_vm_shape (inv : Inventory) (cfg : Config) (st : SyncState)
    (obj : VMObj) (st' : SyncState)
    (h : add_virtual_machine inv cfg st obj = .ok st') :
    st'.processed_host_names = st.processed_host_names ∧
    st'.events.filterMap hostKeyOf = st.events.filterMap hostKeyOf ∧
    ((st'.events.filterMap vmUuidOf = st.events.filterMap vmUuidOf ∧
      st'.events.filterMap vmNameOf = st.events.filterMap vmNameOf ∧
      st'.processed_vm_uuid = st.processed_vm_uuid ∧
      st'.processed_vm_names = st.processed_vm_names) ∨
     (∃ u, obj.uuid = some u ∧ u ∉ st.processed_vm_uuid ∧
      get_string_or_none obj.name ∉ st.processed_vm_names ∧
      st'.events.filterMap vmUuidOf = st.events.filterMap vmUuidOf ++ [u] ∧
      st'.events.filterMap vmNameOf =
        st.events.filterMap vmNameOf ++ [get_string_or_none obj.name] ∧
      st'.processed_vm_uuid = st.processed_vm_uuid ++ [u] ∧
      st'.processed_vm_names =
        st.processed_vm_names ++ [get_string_or_none obj.name])) := by
  have h0 := h
  cases huuid : obj.uuid with
  | none =>
    simp only [add_virtual_machine, huuid] at h
    rw [Except.ok.injEq] at h
    subst h
    exact ⟨rfl, rfl, Or.inl ⟨rfl, rfl, rfl, rfl⟩⟩
  | some u =>
    simp only [add_virtual_machine, huuid] at h
    by_cases hdup : u ∈ st.processed_vm_uuid
    · rw [if_pos hdup] at h
      rw [Except.ok.injEq] at h
      subst h
      exact ⟨rfl, rfl, Or.inl ⟨rfl, rfl, rfl, rfl⟩⟩
    · rw [if_neg hdup] at h
      by_cases hskip : st.parsing_vms_the_first_time = true ∧
          vmStatusOf obj = "offline"
      · rw [if_pos hskip] at h
        rw [Except.ok.injEq] at h
        subst h
        refine ⟨rfl, ?_, Or.inl ⟨?_, ?_, rfl, rfl⟩⟩ <;>
          simp [List.filterMap_append, hostKeyOf, vmUuidOf, vmNameOf]
      · rw [if_neg hskip] at h
        by_cases hfil : passes_filter (get_string_or_none obj.name)
            cfg.vm_include_filter cfg.vm_exclude_filter = false
        · rw [if_pos hfil] at h
          rw [Except.ok.injEq] at h
          subst h
          refine ⟨rfl, ?_, Or.inl ⟨?_, ?_, rfl, rfl⟩⟩ <;>
            simp [List.filterMap_append, hostKeyOf, vmUuidOf, vmNameOf]
        · have hfil' : passes_filter (get_string_or_none obj.name)
              cfg.vm_include_filter cfg.vm_exclude_filter = true := by
            cases hb : passes_filter (get_string_or_none obj.name)
                cfg.vm_include_filter cfg.vm_exclude_filter with
            | false => exact absurd hb hfil
            | true => rfl
          rw [if_neg hfil] at h
          cases hclu : get_string_or_none obj.clusterName with
          | none =>
            simp only [hclu] at h
            rw [Except.ok.injEq] at h
            subst h
            refine ⟨rfl, ?_, Or.inl ⟨?_, ?_, rfl, rfl⟩⟩ <;>
              simp [List.filterMap_append, hostKeyOf, vmUuidOf, vmNameOf]
          | some c =>
            simp only [hclu] at h
            by_cases hnm : get_string_or_none obj.name ∈ st.processed_vm_names
            · rw [if_pos hnm] at h
              rw [Except.ok.injEq] at h
              subst h
              refine ⟨rfl, ?_, Or.inl ⟨?_, ?_, rfl, rfl⟩⟩ <;>
                simp [List.filterMap_append, hostKeyOf, vmUuidOf, vmNameOf]
            · obtain ⟨hph, hpu, hpn, hcase⟩ :=
                add_vm_resolution inv cfg st obj st' u c huuid hdup hskip
                  hfil' hclu hnm h0
              refine ⟨hph, ?_, Or.inr ⟨u, rfl, hdup, hnm, ?_, ?_, hpu, hpn⟩⟩ <;>
                rcases hcase with ⟨r, _, he⟩ | ⟨r, _, _, he⟩ |
                  ⟨r, _, _, _, he⟩ | ⟨_, _, _, he⟩ <;>
                rw [he] <;>
                cases hn : get_string_or_none obj.name <;>
                simp [List.filterMap_append, List.filterMap_cons, hostKeyOf,
                  vmUuidOf, vmNameOf, vmDataFor, dget, ostr, hn]

theorem nodup_concat_of_fresh {α : Type} (l : List α) (a : α)
    (hnd : l.Nodup) (hfresh : a ∉ l) : (l ++ [a]).Nodup := by
  refine List.nodup_append.mpr ⟨hnd, List.nodup_singleton _, ?_⟩
  intro x hx hxa
  rw [List.mem_singleton] at hxa
  subst hxa
  exact hfresh hx

theorem add_host_traceInv (inv : Inventory) (cfg : Config) (st : SyncState)
    (obj : HostObj) (st' : SyncState)
    (h : add_host inv cfg st obj = .ok st') (hi : TraceInv st) :
    TraceInv st' := by
  obtain ⟨h1, h2, h3, h4, hcase⟩ := add_host_shape inv cfg st obj st' h
  obtain ⟨i1, i2, i3, i4, i5, i6⟩ := hi
  rcases hcase with ⟨hk, hp⟩ | ⟨hfresh, hk, hp⟩
  · refine ⟨by rw [hk]; exact i1, ?_, by rw [h3]; exact i3,
      ?_, by rw [h4]; exact i5, ?_⟩
    · intro k hkm
      rw [hk] at hkm
      rcases hp with hp | hp <;> rw [hp]
      · exact i2 k hkm
      · exact List.mem_append.mpr (Or.inl (i2 k hkm))
    · intro v hv
      rw [h3] at hv
      rw [h1]
      exact i4 v hv
    · intro n hn
      rw [h4] at hn
      rw [h2]
      exact i6 n hn
  · have hnotin : get_string_or_none obj.name ∉ st.events.filterMap hostKeyOf :=
      fun hc => hfresh (i2 _ hc)
    refine ⟨by rw [hk]; exact nodup_concat_of_fresh _ _ i1 hnotin, ?_,
      by rw [h3]; exact i3, ?_, by rw [h4]; exact i5, ?_⟩
    · intro k hkm
      rw [hk] at hkm
      rw [hp]
      rcases List.mem_append.mp hkm with hm | hm
      · exact List.mem_append.mpr (Or.inl (i2 k hm))
      · exact List.mem_append.mpr (Or.inr hm)
    · intro v hv
      rw [h3] at hv
      rw [h1]
      exact i4 v hv
    · intro n hn
      rw [h4] at hn
      rw [h2]
      exact i6 n hn

theorem add_vm_traceInv (inv : Inventory) (cfg : Config) (st : SyncState)
    (obj : VMObj) (st' : SyncState)
    (h : add_virtual_machine inv cfg st obj = .ok st') (hi : TraceInv st) :
    TraceInv st' := by
  obtain ⟨h1, h2, hcase⟩ := add_vm_shape inv cfg st obj st' h
  obtain ⟨i1, i2, i3, i4, i5, i6⟩ := hi
  rcases hcase with ⟨hu, hn, hpu, hpn⟩ | ⟨u, _, hufresh, hnfresh, hu, hn, hpu, hpn⟩
  · refine ⟨by rw [h2]; exact i1, ?_, by rw [hu]; exact i3, ?_,
      by rw [hn]; exact i5, ?_⟩
    · intro k hkm
      rw [h2] at hkm
      rw [h1]
      exact i2 k hkm
    · intro v hv
      rw [hu] at hv
      rw [hpu]
      exact i4 v hv
    · intro n2 hn2
      rw [hn] at hn2
      rw [hpn]
      exact i6 n2 hn2
  · have huseen : u ∉ st.events.filterMap vmUuidOf :=
      fun hc => hufresh (i4 _ hc)
    have hnseen : get_string_or_none obj.name ∉ st.events.filterMap vmNameOf :=
      fun hc => hnfresh (i6 _ hc)
    refine ⟨by rw [h2]; exact i1, ?_,
      by rw [hu]; exact nodup_concat_of_fresh _ _ i3 huseen, ?_,
      by rw [hn]; exact nodup_concat_of_fresh _ _ i5 hnseen, ?_⟩
    · intro k hkm
      rw [h2] at hkm
      rw [h1]
      exact i2 k hkm
    · intro v hv
      rw [hu] at hv
      rw [hpu]
      rcases List.mem_append.mp hv with hm | hm
      · exact List.mem_append.mpr (Or.inl (i4 v hm))
      · exact List.mem_append.mpr (Or.inr hm)
    · intro n2 hn2
      rw [hn] at hn2
      rw [hpn]
      rcases List.mem_append.mp hn2 with hm | hm
      · exact List.mem_append.mpr (Or.inl (i6 n2 hm))
      · exact List.mem_append.mpr (Or.inr hm)

theorem foldHosts_traceInv (inv : Inventory) (cfg : Config) :
    ∀ (hosts : List HostObj) (st st' : SyncState),
      foldHosts inv cfg st hosts = .ok st' → TraceInv st → TraceInv st' := by
  intro hosts
  induction hosts with
  | nil =>
    intro st st' h hi
    have : st = st' := (Except.ok.injEq _ _).mp h
    rw [← this]
    exact hi
  | cons a t ih =>
    intro st st' h hi
    simp only [foldHosts, List.foldlM_cons] at h
    cases hstep : add_host inv cfg st a with
    | error e =>
      rw [hstep, except_error_bind] at h
      cases h
    | ok st1 =>
      rw [hstep, except_pure_bind] at h
      exact ih st1 st' h (add_host_traceInv inv cfg st a st1 hstep hi)

theorem foldVMs_traceInv (inv : Inventory) (cfg : Config) :
    ∀ (vms : List VMObj) (st st' : SyncState),
      foldVMs inv cfg st vms = .ok st' → TraceInv st → TraceInv st' := by
  intro vms
  induction vms with
  | nil =>
    intro st st' h hi
    have : st = st' := (Except.ok.injEq _ _).mp h
    rw [← this]
    exact hi
  | cons a t ih =>
    intro st st' h hi
    simp only [foldVMs, List.foldlM_cons] at h
    cases hstep : add_virtual_machine inv cfg st a with
    | error e =>
      rw [hstep, except_error_bind] at h
      cases h
    | ok st1 =>
      rw [hstep, except_pure_bind] at h
      exact ih st1 st' h (add_vm_traceInv inv cfg st a st1 hstep hi)

/-- Claim C7 (amended): over a whole run (hosts pass, then the VM population
twice), each host name, each VM UUID and each VM display name keys at most
one record create/update: the per-kind key lists extracted from the emitted
record events are duplicate-free.  The skip of an already-processed host name
or VM display name carries a log message, but a VM whose UUID is already in
`processed_vm_uuid` is dropped silently — the return at lines 922-923 fires
before any logging (`C7_counterexample`). -/
theorem C7_at_most_one_record_per_key (inv : Inventory) (cfg : Config)
    (hosts : List HostObj) (vms : List VMObj) (st : SyncState)
    (h : applyRun inv cfg hosts vms = .ok st) :
    (st.events.filterMap hostKeyOf).Nodup ∧
    (st.events.filterMap vmUuidOf).Nodup ∧
    (st.events.filterMap vmNameOf).Nodup := by
  simp only [applyRun] at h
  cases h1 : foldHosts inv cfg initialState hosts with
  | error e =>
    rw [h1, except_bind_error] at h
    cases h
  | ok st1 =>
    rw [h1, except_bind_ok] at h
    cases h2 : foldVMs inv cfg st1 vms with
    | error e =>
      rw [h2, except_bind_error] at h
      cases h
    | ok st2 =>
      rw [h2, except_bind_ok] at h
      have hi0 : TraceInv initialState :=
        ⟨List.nodup_nil, fun k hk => absurd hk (List.not_mem_nil _),
         List.nodup_nil, fun k hk => absurd hk (List.not_mem_nil _),
         List.nodup_nil, fun k hk => absurd hk (List.not_mem_nil _)⟩
      have hi1 := foldHosts_traceInv inv cfg hosts initialState st1 h1 hi0
      have hi2 := foldVMs_traceInv inv cfg vms st1 st2 h2 hi1
      have hi2' : TraceInv { st2 with parsing_vms_the_first_time := false } :=
        hi2
      have hi3 := foldVMs_traceInv inv cfg vms
        { st2 with parsing_vms_the_first_time := false } st h hi2'
      exact ⟨hi3.1, hi3.2.2.1, hi3.2.2.2.2.1⟩

/-- The literal claim fails on its logging clause: a VM whose UUID was already
processed is skipped silently — the state, including the event trace, is
returned unchanged, with no log message at all. -/
theorem C7_counterexample :
    add_virtual_machine INV0 CFG0 stDupUuid vmOff = .ok stDupUuid ∧
    stDupUuid.events = [] :=
  ⟨rfl, rfl⟩

theorem C7_witness :
    applyRun INV0 CFG0 [hostW] [vmOff] = .ok stC7done ∧
    ((stC7done.events.filterMap hostKeyOf).Nodup ∧
      (stC7done.events.filterMap vmUuidOf).Nodup ∧
      (stC7done.events.filterMap vmNameOf).Nodup) := by
  have hok : applyRun INV0 CFG0 [hostW] [vmOff] = .ok stC7done := by rfl
  exact ⟨hok,
    C7_at_most_one_record_per_key INV0 CFG0 [hostW] [vmOff] stC7done hok⟩

/-- Claim C1: for a discovered host and a discovered VM that reach resolution
(fresh name, filter passed; for a VM also fresh UUID, no first-pass-offline
skip, cluster present), the existing record is searched strictly in the order
exact data match (`get_by_data`), then MAC resolver, then primary-IP
resolver, then creation: the emitted resolver-query events show that a later
resolver runs exactly when every earlier step returned none, and the single
emitted record event is an in-place update carrying the freshly discovered
data dict whenever any step found a record, a creation only when all three
steps found none. -/
theorem C1_resolution_order :
    (∀ (inv : Inventory) (cfg : Config) (st : SyncState) (obj : HostObj)
      (st' : SyncState),
      get_string_or_none obj.name ∉ st.processed_host_names →
      passes_filter (get_string_or_none obj.name) cfg.host_include_filter
        cfg.host_exclude_filter = true →
      add_host inv cfg st obj = .ok st' →
      ((∀ r, inv.get_by_data_dev (hostDataFor cfg obj) = some r →
        queryEvents st'.events = queryEvents st.events ∧
        recordEvents st'.events = recordEvents st.events ++
          [Event.updatedDevice r.rid (hostDataFor cfg obj)]) ∧
      (∀ r, inv.get_by_data_dev (hostDataFor cfg obj) = none →
        get_object_based_on_macs inv NBType.NBDevices obj.pnicMacs =
          .ok (some r) →
        queryEvents st'.events = queryEvents st.events ++
          [Event.queriedHostByMacs] ∧
        recordEvents st'.events = recordEvents st.events ++
          [Event.updatedDevice r.rid (hostDataFor cfg obj)]) ∧
      (∀ r, inv.get_by_data_dev (hostDataFor cfg obj) = none →
        get_object_based_on_macs inv NBType.NBDevices obj.pnicMacs =
          .ok none →
        get_object_based_on_primary_ip inv NBType.NBDevices obj.hostPrimaryIp4
          obj.hostPrimaryIp6 = .ok (some r) →
        queryEvents st'.events = queryEvents st.events ++
          [Event.queriedHostByMacs, Event.queriedHostByIp] ∧
        recordEvents st'.events = recordEvents st.events ++
          [Event.updatedDevice r.rid (hostDataFor cfg obj)]) ∧
      (inv.get_by_data_dev (hostDataFor cfg obj) = none →
        get_object_based_on_macs inv NBType.NBDevices obj.pnicMacs =
          .ok none →
        get_object_based_on_primary_ip inv NBType.NBDevices obj.hostPrimaryIp4
          obj.hostPrimaryIp6 = .ok none →
        queryEvents st'.events = queryEvents st.events ++
          [Event.queriedHostByMacs, Event.queriedHostByIp] ∧
        recordEvents st'.events = recordEvents st.events ++
          [Event.createdDevice (hostDataFor cfg obj)]))) ∧
    (∀ (inv : Inventory) (cfg : Config) (st : SyncState) (obj : VMObj)
      (st' : SyncState) (u c : String),
      obj.uuid = some u →
      u ∉ st.processed_vm_uuid →
      ¬(st.parsing_vms_the_first_time = true ∧ vmStatusOf obj = "offline") →
      passes_filter (get_string_or_none obj.name) cfg.vm_include_filter
        cfg.vm_exclude_filter = true →
      get_string_or_none obj.clusterName = some c →
      get_string_or_none obj.name ∉ st.processed_vm_names →
      add_virtual_machine inv cfg st obj = .ok st' →
      ((∀ r, inv.get_by_data_vm (vmDataFor cfg obj (vmClusterOf st c)) =
          some r →
        queryEvents st'.events = queryEvents st.events ∧
        recordEvents st'.events = recordEvents st.events ++
          [Event.updatedVM r.rid u (vmDataFor cfg obj (vmClusterOf st c))]) ∧
      (∀ r, inv.get_by_data_vm (vmDataFor cfg obj (vmClusterOf st c)) =
          none →
        get_object_based_on_macs inv NBType.NBVMs obj.nicMacs =
          .ok (some r) →
        queryEvents st'.events = queryEvents st.events ++
          [Event.queriedVMByMacs] ∧
        recordEvents st'.events = recordEvents st.events ++
          [Event.updatedVM r.rid u (vmDataFor cfg obj (vmClusterOf st c))]) ∧
      (∀ r, inv.get_by_data_vm (vmDataFor cfg obj (vmClusterOf st c)) =
          none →
        get_object_based_on_macs inv NBType.NBVMs obj.nicMacs = .ok none →
        get_object_based_on_primary_ip inv NBType.NBVMs obj.vmPrimaryIp4
          obj.vmPrimaryIp6 = .ok (some r) →
        queryEvents st'.events = queryEvents st.events ++
          [Event.queriedVMByMacs, Event.queriedVMByIp] ∧
        recordEvents st'.events = recordEvents st.events ++
          [Event.updatedVM r.rid u (vmDataFor cfg obj (vmClusterOf st c))]) ∧
      (inv.get_by_data_vm (vmDataFor cfg obj (vmClusterOf st c)) = none →
        get_object_based_on_macs inv NBType.NBVMs obj.nicMacs = .ok none →
        get_object_based_on_primary_ip inv NBType.NBVMs obj.vmPrimaryIp4
          obj.vmPrimaryIp6 = .ok none →
        queryEvents st'.events = queryEvents st.events ++
          [Event.queriedVMByMacs, Event.queriedVMByIp] ∧
        recordEvents st'.events = recordEvents st.events ++
          [Event.createdVM u (vmDataFor cfg obj (vmClusterOf st c))]))) := by
  constructor
  · intro inv cfg st obj st' hdup hfil h
    obtain ⟨_, _, _, hcase⟩ := add_host_resolution inv cfg st obj st' hdup hfil h
    refine ⟨?_, ?_, ?_, ?_⟩
    · intro r hr
      rcases hcase with ⟨r', hr', he⟩ | ⟨r', hn, _, _⟩ |
        ⟨r', hn, _, _, _⟩ | ⟨hn, _, _, _⟩
      · have hrr : r' = r := by
          have := hr'.symm.trans hr
          exact (Option.some.injEq _ _).mp this
        subst hrr
        rw [he]
        constructor <;>
          simp [queryEvents, recordEvents, List.filter_append, isQueryEvent,
            isRecordEvent]
      all_goals rw [hr] at hn; cases hn
    · intro r hr hmac
      rcases hcase with ⟨r', hr', he⟩ | ⟨r', _, hm', he⟩ |
        ⟨r', _, hm', _, _⟩ | ⟨_, hm', _, _⟩
      · rw [hr] at hr'; cases hr'
      · have hrr : r' = r := by
          have h2 := hm'.symm.trans hmac
          rw [Except.ok.injEq] at h2
          exact (Option.some.injEq _ _).mp h2
        subst hrr
        rw [he]
        constructor <;>
          simp [queryEvents, recordEvents, List.filter_append, isQueryEvent,
            isRecordEvent]
      all_goals
        have h2 := hm'.symm.trans hmac
        rw [Except.ok.injEq] at h2
        cases h2
    · intro r hr hmac hip
      rcases hcase with ⟨r', hr', he⟩ | ⟨r', _, hm', he⟩ |
        ⟨r', _, _, hi', he⟩ | ⟨_, _, hi', _⟩
      · rw [hr] at hr'; cases hr'
      · have h2 := hm'.symm.trans hmac
        rw [Except.ok.injEq] at h2
        cases h2
      · have hrr : r' = r := by
          have h2 := hi'.symm.trans hip
          rw [Except.ok.injEq] at h2
          exact (Option.some.injEq _ _).mp h2
        subst hrr
        rw [he]
        constructor <;>
          simp [queryEvents, recordEvents, List.filter_append, isQueryEvent,
            isRecordEvent]
      · have h2 := hi'.symm.trans hip
        rw [Except.ok.injEq] at h2
        cases h2
    · intro hr hmac hip
      rcases hcase with ⟨r', hr', he⟩ | ⟨r', _, hm', he⟩ |
        ⟨r', _, _, hi', he⟩ | ⟨_, _, _, he⟩
      · rw [hr] at hr'; cases hr'
      · have h2 := hm'.symm.trans hmac
        rw [Except.ok.injEq] at h2
        cases h2
      · have h2 := hi'.symm.trans hip
        rw [Except.ok.injEq] at h2
        cases h2
      · rw [he]
        constructor <;>
          simp [queryEvents, recordEvents, List.filter_append, isQueryEvent,
            isRecordEvent]
  · intro inv cfg st obj st' u c huuid hfresh hskip hfil hclu hname h
    obtain ⟨_, _, _, hcase⟩ := add_vm_resolution inv cfg st obj st' u c huuid
      hfresh hskip hfil hclu hname h
    refine ⟨?_, ?_, ?_, ?_⟩
    · intro r hr
      rcases hcase with ⟨r', hr', he⟩ | ⟨r', hn, _, _⟩ |
        ⟨r', hn, _, _, _⟩ | ⟨hn, _, _, _⟩
      · have hrr : r' = r := by
          have := hr'.symm.trans hr
          exact (Option.some.injEq _ _).mp this
        subst hrr
        rw [he]
        constructor <;>
          simp [queryEvents, recordEvents, List.filter_append, isQueryEvent,
            isRecordEvent]
      all_goals rw [hr] at hn; cases hn
    · intro r hr hmac
      rcases hcase with ⟨r', hr', he⟩ | ⟨r', _, hm', he⟩ |
        ⟨r', _, hm', _, _⟩ | ⟨_, hm', _, _⟩
      · rw [hr] at hr'; cases hr'
      · have hrr : r' = r := by
          have h2 := hm'.symm.trans hmac
          rw [Except.ok.injEq] at h2
          exact (Option.some.injEq _ _).mp h2
        subst hrr
        rw [he]
        constructor <;>
          simp [queryEvents, recordEvents, List.filter_append, isQueryEvent,
            isRecordEvent]
      all_goals
        have h2 := hm'.symm.trans hmac
        rw [Except.ok.injEq] at h2
        cases h2
    · intro r hr hmac hip
      rcases hcase with ⟨r', hr', he⟩ | ⟨r', _, hm', he⟩ |
        ⟨r', _, _, hi', he⟩ | ⟨_, _, hi', _⟩
      · rw [hr] at hr'; cases hr'
      · have h2 := hm'.symm.trans hmac
        rw [Except.ok.injEq] at h2
        cases h2
      · have hrr : r' = r := by
          have h2 := hi'.symm.trans hip
          rw [Except.ok.injEq] at h2
          exact (Option.some.injEq _ _).mp h2
        subst hrr
        rw [he]
        constructor <;>
          simp [queryEvents, recordEvents, List.filter_append, isQueryEvent,
            isRecordEvent]
      · have h2 := hi'.symm.trans hip
        rw [Except.ok.injEq] at h2
        cases h2
    · intro hr hmac hip
      rcases hcase with ⟨r', hr', he⟩ | ⟨r', _, hm', he⟩ |
        ⟨r', _, _, hi', he⟩ | ⟨_, _, _, he⟩
      · rw [hr] at hr'; cases hr'
      · have h2 := hm'.symm.trans hmac
        rw [Except.ok.injEq] at h2
        cases h2
      · have h2 := hi'.symm.trans hip
        rw [Except.ok.injEq] at h2
        cases h2
      · rw [he]
        constructor <;>
          simp [queryEvents, recordEvents, List.filter_append, isQueryEvent,
            isRecordEvent]

theorem C1_witness :
    (get_string_or_none hostW.name ∉ initialState.processed_host_names ∧
      add_host INV0 CFG0 initialState hostW = .ok stHostDone ∧
      INV0.get_by_data_dev (hostDataFor CFG0 hostW) = none ∧
      get_object_based_on_macs INV0 NBType.NBDevices hostW.pnicMacs =
        .ok none ∧
      get_object_based_on_primary_ip INV0 NBType.NBDevices
        hostW.hostPrimaryIp4 hostW.hostPrimaryIp6 = .ok none ∧
      queryEvents stHostDone.events = queryEvents initialState.events ++
        [Event.queriedHostByMacs, Event.queriedHostByIp] ∧
      recordEvents stHostDone.events = recordEvents initialState.events ++
        [Event.createdDevice (hostDataFor CFG0 hostW)]) ∧
    (vmOff.uuid = some "uuid-1" ∧
      add_virtual_machine INV0 CFG0 stC3 vmOff = .ok stC3done ∧
      queryEvents stC3done.events = queryEvents stC3.events ++
        [Event.queriedVMByMacs, Event.queriedVMByIp] ∧
      recordEvents stC3done.events = recordEvents stC3.events ++
        [Event.createdVM "uuid-1"
          (vmDataFor CFG0 vmOff (vmClusterOf stC3 "cl1"))]) := by
  have hok1 : add_host INV0 CFG0 initialState hostW = .ok stHostDone := by rfl
  have hok2 : add_virtual_machine INV0 CFG0 stC3 vmOff = .ok stC3done := by rfl
  have hh := (C1_resolution_order.1 INV0 CFG0 initialState hostW stHostDone
    (by decide) (by decide) hok1).2.2.2 rfl rfl rfl
  have hv := (C1_resolution_order.2 INV0 CFG0 stC3 vmOff stC3done "uuid-1"
    "cl1" rfl (by decide) (by decide) (by decide) (by decide) (by decide)
    hok2).2.2.2 rfl rfl rfl
  exact ⟨⟨by decide, hok1, rfl, rfl, rfl, hh.1, hh.2⟩,
    rfl, hok2, hv.1, hv.2⟩
